import Mathlib

/-!
# syssnap: snapshot engine

A shallow embedding of `include/syssnap/{types,topology,syssnap}.hpp`.

Conventions of the embedding

* `int` ids (`cpu_t`, `node_t`, `pid_t`) are `Int`; no arithmetic is done on them.
* `float` is read in exact arithmetic, as `ℚ`.
* `std::vector<T>` is `List T`; `v.at(idx(i))` is `vec_at v i`, which has no value when
  `idx` or `at` throws `std::out_of_range`.
* `std::unordered_set<pid_t>` is a duplicate-free `List Int` (its iteration order is the
  list order); set-level statements are made through membership or `List.toFinset`.
* `std::unordered_map<pid_t, T>` is an association list with `umap_at` / `umap_assign`.
* An operation that mutates the snapshot returns an `Outcome`: it completed, an exception
  left it (with the state the object has at the throw), or it violated a library
  precondition (undefined behaviour, no state).
-/

namespace syssnap

/-! ## types.hpp -/

abbrev cpu_t := Int
abbrev node_t := Int
abbrev pid_t := Int

/-- Source `idx`: throws `std::out_of_range` on a negative id, otherwise converts the id to
`std::size_t`. -/
def idx (i : Int) : Option Nat :=
  if i < 0 then none else some i.toNat

/-! ## Containers -/

/-- Result of running a mutating operation on a state of type `σ`. -/
inductive Outcome (σ : Type) where
  /-- the operation returned normally -/
  | done (s : σ) : Outcome σ
  /-- an exception propagated out of the operation; `s` is the state at the throw -/
  | raised (s : σ) : Outcome σ
  /-- a library precondition was violated (undefined behaviour) -/
  | undefined : Outcome σ
deriving DecidableEq

namespace Outcome

/-- Sequencing of two operations: the second runs when the first returned normally. -/
def andThen {σ : Type} (r : Outcome σ) (k : σ → Outcome σ) : Outcome σ :=
  match r with
  | done s => k s
  | raised s => raised s
  | undefined => undefined

/-- What an observer reads in the state an operation returned normally with. -/
def observe {σ β : Type} (r : Outcome σ) (f : σ → β) : Option β :=
  match r with
  | done s => some (f s)
  | raised _ => none
  | undefined => none

end Outcome

/-- Read access `v.at(idx(i))`. -/
def vec_at {α : Type} (v : List α) (i : Int) : Option α :=
  match idx i with
  | none => none
  | some k => v[k]?

/-- In-place update `f(v.at(idx(i)))` of one slot; no value when `idx` or `at` throws. -/
def vec_update {α : Type} (v : List α) (i : Int) (f : α → α) : Option (List α) :=
  match idx i with
  | none => none
  | some k =>
    match v[k]? with
    | none => none
    | some a => some (v.set k (f a))

/-- Method `std::unordered_set::insert`. -/
def uset_insert (s : List Int) (p : Int) : List Int :=
  if p ∈ s then s else s ++ [p]

/-- Method `std::unordered_set::erase`. -/
def uset_erase (s : List Int) (p : Int) : List Int :=
  s.filter (fun q => decide (q ≠ p))

/-- Method `std::unordered_map::at`: no value when the key is absent (`std::out_of_range`). -/
def umap_at {β : Type} (m : List (Int × β)) (k : Int) : Option β :=
  match m with
  | [] => none
  | (k', v) :: rest => if k' = k then some v else umap_at rest k

/-- Assignment `m[k] = v` of `std::unordered_map`. -/
def umap_assign {β : Type} (m : List (Int × β)) (k : Int) (v : β) : List (Int × β) :=
  match m with
  | [] => [(k, v)]
  | (k', v') :: rest => if k' = k then (k, v) :: rest else (k', v') :: umap_assign rest k v

/-- A range-based `for` loop whose body may throw: the loop stops at the first iteration
that does not complete. -/
def for_each {α σ : Type} (xs : List α) (body : α → σ → Outcome σ) (s : σ) : Outcome σ :=
  match xs with
  | [] => Outcome.done s
  | x :: rest =>
    match body x s with
    | Outcome.done s' => for_each rest body s'
    | Outcome.raised s' => Outcome.raised s'
    | Outcome.undefined => Outcome.undefined

/-- Expression `*(xs | ranges::views::sample(1)).begin()`: one element of `xs` chosen at
random, `draw` being what the random engine yields; dereferencing `begin()` of the empty
view is undefined, so there is no value for an empty `xs`. -/
def sample_one {α : Type} (xs : List α) (draw : Nat) : Option α :=
  if xs.length = 0 then none else xs[draw % xs.length]?

/-! ## topology.hpp (the data and the lookups) -/

structure topology where
  nodes_ : List Int
  cpus_ : List Int
  nodes_by_distance_ : List (List Int)
  cpu_node_map_ : List Int
  node_cpu_map_ : List (List Int)
deriving DecidableEq

namespace topology

def cpus (t : topology) : List Int := t.cpus_

def nodes (t : topology) : List Int := t.nodes_

/-- Source `cpus_from_node`: `node_cpu_map_.at(idx(node))`. -/
def cpus_from_node (t : topology) (node : Int) : Option (List Int) :=
  vec_at t.node_cpu_map_ node

/-- Source `node_from_cpu`: `cpu_node_map_.at(idx(cpu))`. -/
def node_from_cpu (t : topology) (cpu : Int) : Option Int :=
  vec_at t.cpu_node_map_ cpu

end topology

/-! ## The process source (`prox::process_tree`, an external library) -/

/-- One record of the process tree, with the fields the snapshot reads. -/
structure process where
  pid : Int
  processor : Int
  numa_node : Int
  cpu_use : ℚ
deriving DecidableEq

/-- Modelled from the spec: the `ProcessSource` capability of section 6.1, which the source
takes from the external library `prox` (`prox::process_tree`). `τ` is the state of the
source; the snapshot uses the iteration over its records, `cpu_use(pid)`, `update()`,
`pin_processor(pid, cpu)` and `pin_numa_node(pid, node)`. The three mutating calls may
throw. -/
structure ProcessSource (τ : Type) where
  records : τ → List process
  cpu_use : τ → Int → ℚ
  update : τ → Outcome τ
  pin_processor : τ → Int → Int → Outcome τ
  pin_numa_node : τ → Int → Int → Outcome τ

/-! ## syssnap.hpp: the snapshot -/

structure snapshot (τ : Type) where
  topology_ : topology
  processes_ : τ
  cpu_pid_map_ : List (List Int)
  node_pid_map_ : List (List Int)
  pid_cpu_map_ : List (Int × Int)
  pid_node_map_ : List (Int × Int)
  pid_load_map_ : List (Int × ℚ)
  cpu_use_ : List ℚ
  node_use_ : List ℚ
  dirty_ : Bool
  dirty_cpu_pid_map_ : List (List Int)
  dirty_node_pid_map_ : List (List Int)
  dirty_pid_cpu_map_ : List (Int × Int)
  dirty_pid_node_map_ : List (Int × Int)
  dirty_cpu_use_ : List ℚ
  dirty_node_use_ : List ℚ
  cpu_migrations_ : List (Int × Int)
  node_migrations_ : List (Int × Int)
deriving DecidableEq

/-! ### Load estimator -/

/-- Constant `std::numeric_limits<float>::epsilon()`. -/
def epsilon : ℚ := 1 / 2 ^ 23

/-- Lambda `load`: `std::min(1.0F, cpu_use / slice)`. With `slice == 0` the quotient of a
non-negative `cpu_use` is `+inf` or `NaN`, and `std::min(1.0F, ·)` returns `1.0F` for both.
(A negative `cpu_use` over a zero slice gives `-inf`, which `ℚ` cannot hold; usages are
percentages, never negative, and the embedding returns `cpu_use` itself there.) -/
def load (cpu_use slice : ℚ) : ℚ :=
  if slice = 0 then (if 0 ≤ cpu_use then 1 else cpu_use)
  else if cpu_use / slice < 1 then cpu_use / slice else 1

/-- Lambda `weight`: the S-shaped function, `beta = 3`. -/
def weight (x : ℚ) : ℚ :=
  if x < epsilon then 0
  else if x > 1 - epsilon then 1
  else 1 / (1 + ((x / (1 - x)) ^ 3)⁻¹)

/-- Table `weight_table`: `table.at(i) = weight(i / 100)` for `i < 101`. -/
def weight_table : List ℚ :=
  (List.range 101).map (fun i => weight ((i : ℚ) / 100))

/-- Function `std::clamp(v, lo, hi)`. -/
def clamp (v lo hi : ℚ) : ℚ :=
  if v < lo then lo else if hi < v then hi else v

/-- Function `std::round` followed by `static_cast<int>`: halfway cases away from zero. -/
def round_to_int (x : ℚ) : Int :=
  if 0 ≤ x then ⌊x + 1 / 2⌋ else -⌊-x + 1 / 2⌋

/-- Function `ranges::accumulate(values, 0.0F)`. -/
def accumulate (xs : List ℚ) : ℚ :=
  xs.foldl (fun acc x => acc + x) 0

/-- Function `ranges::max`: its precondition is a non-empty range. -/
def ranges_max (xs : List ℚ) : Option ℚ :=
  match xs with
  | [] => none
  | x :: rest => some (rest.foldl (fun m y => if m < y then y else m) x)

/-- The final loop of `compute_load_sigmoid`. -/
def write_loads (alpha beta free_cpu_use max_cpu_use : ℚ) (pid_usage_map : List (Int × ℚ))
    (pid_load_map : List (Int × ℚ)) : List (Int × ℚ) :=
  pid_usage_map.foldl
    (fun m e =>
      umap_assign m e.1 (alpha * load e.2 free_cpu_use + beta * load e.2 max_cpu_use))
    pid_load_map

/-- Source `compute_load_sigmoid`, on the load map. `ranges::max` has the precondition that
its range is not empty, so the call on an empty usage map is undefined; `weight_table.at`
may throw; otherwise the loop writes one load per entry. -/
def compute_load_sigmoid (pid_usage_map : List (Int × ℚ)) (pid_load_map : List (Int × ℚ)) :
    Outcome (List (Int × ℚ)) :=
  let free_cpu_use := clamp (100 - accumulate (pid_usage_map.map Prod.snd)) 0 100
  match ranges_max (pid_usage_map.map Prod.snd) with
  | none => Outcome.undefined
  | some max_cpu_use =>
    let cpu_index := round_to_int free_cpu_use
    match vec_at weight_table cpu_index with
    | none => Outcome.raised pid_load_map
    | some alpha =>
      let beta := 1 - alpha
      Outcome.done (write_loads alpha beta free_cpu_use max_cpu_use pid_usage_map pid_load_map)

variable {τ : Type}

/-- Source `compute_loads(cpu)`. -/
def compute_loads_cpu (P : ProcessSource τ) (cpu : Int) (s : snapshot τ) :
    Outcome (snapshot τ) :=
  match vec_at s.cpu_pid_map_ cpu with
  | none => Outcome.raised s
  | some pids =>
    let pid_usage_map := pids.map (fun pid => (pid, P.cpu_use s.processes_ pid))
    match compute_load_sigmoid pid_usage_map s.pid_load_map_ with
    | Outcome.done m => Outcome.done { s with pid_load_map_ := m }
    | Outcome.raised m => Outcome.raised { s with pid_load_map_ := m }
    | Outcome.undefined => Outcome.undefined

/-- Source `compute_loads()`. -/
def compute_loads (P : ProcessSource τ) (s : snapshot τ) : Outcome (snapshot τ) :=
  for_each s.topology_.cpus (compute_loads_cpu P) s

/-! ### rebuild, build, update -/

/-- The "reset variables" part of `rebuild`. -/
def rebuild_reset (s : snapshot τ) : snapshot τ :=
  { s with
    cpu_pid_map_ := s.cpu_pid_map_.map (fun _ => [])
    node_pid_map_ := s.node_pid_map_.map (fun _ => [])
    pid_cpu_map_ := []
    pid_node_map_ := []
    cpu_use_ := s.cpu_use_.map (fun _ => 0)
    node_use_ := s.node_use_.map (fun _ => 0) }

/-- The body of the loop of `rebuild` over the process records. -/
def rebuild_step (proc : process) (s : snapshot τ) : Outcome (snapshot τ) :=
  let pid := proc.pid
  let cpu := proc.processor
  let node := proc.numa_node
  match vec_update s.cpu_pid_map_ cpu (fun set => uset_insert set pid) with
  | none => Outcome.raised s
  | some m =>
    let s := { s with cpu_pid_map_ := m }
    match vec_update s.node_pid_map_ node (fun set => uset_insert set pid) with
    | none => Outcome.raised s
    | some m =>
      let s := { s with
        node_pid_map_ := m
        pid_cpu_map_ := umap_assign s.pid_cpu_map_ pid cpu
        pid_node_map_ := umap_assign s.pid_node_map_ pid node }
      match vec_update s.cpu_use_ cpu (fun u => u + proc.cpu_use) with
      | none => Outcome.raised s
      | some u =>
        let s := { s with cpu_use_ := u }
        match vec_update s.node_use_ node (fun u => u + proc.cpu_use) with
        | none => Outcome.raised s
        | some u => Outcome.done { s with node_use_ := u }

/-- The "update the dirty stuff" part of `rebuild` (also the body of `rollback`). -/
def copy_to_dirty (s : snapshot τ) : snapshot τ :=
  { s with
    dirty_cpu_pid_map_ := s.cpu_pid_map_
    dirty_node_pid_map_ := s.node_pid_map_
    dirty_pid_cpu_map_ := s.pid_cpu_map_
    dirty_pid_node_map_ := s.pid_node_map_
    dirty_cpu_use_ := s.cpu_use_
    dirty_node_use_ := s.node_use_ }

/-- Source `rebuild`. -/
def rebuild (P : ProcessSource τ) (s : snapshot τ) : Outcome (snapshot τ) :=
  match for_each (P.records s.processes_) rebuild_step (rebuild_reset s) with
  | Outcome.done s1 => compute_loads P (copy_to_dirty s1)
  | Outcome.raised s1 => Outcome.raised s1
  | Outcome.undefined => Outcome.undefined

/-- Method `std::vector::resize(n, value)`. -/
def resize {α : Type} (v : List α) (n : Nat) (value : α) : List α :=
  v.take n ++ List.replicate (n - v.length) value

/-- Source `build`; `max_cpu` and `max_node` are what `topology::max_cpu()` and
`topology::max_node()` return (non-negative: the source asserts the sizes positive). -/
def build (P : ProcessSource τ) (max_cpu max_node : Nat) (s : snapshot τ) :
    Outcome (snapshot τ) :=
  let size_cpus := max_cpu + 1
  let size_nodes := max_node + 1
  rebuild P { s with
    cpu_pid_map_ := resize s.cpu_pid_map_ size_cpus []
    node_pid_map_ := resize s.node_pid_map_ size_nodes []
    dirty_cpu_pid_map_ := resize s.dirty_cpu_pid_map_ size_cpus []
    dirty_node_pid_map_ := resize s.dirty_node_pid_map_ size_nodes []
    cpu_use_ := resize s.cpu_use_ size_cpus 0
    node_use_ := resize s.node_use_ size_nodes 0
    dirty_cpu_use_ := resize s.dirty_cpu_use_ size_cpus 0
    dirty_node_use_ := resize s.dirty_node_use_ size_nodes 0 }

/-- The default-initialised members of a `snapshot` object, before `build()` runs. -/
def snapshot_members (t : topology) (p : τ) : snapshot τ :=
  { topology_ := t, processes_ := p,
    cpu_pid_map_ := [], node_pid_map_ := [], pid_cpu_map_ := [], pid_node_map_ := [],
    pid_load_map_ := [], cpu_use_ := [], node_use_ := [], dirty_ := false,
    dirty_cpu_pid_map_ := [], dirty_node_pid_map_ := [], dirty_pid_cpu_map_ := [],
    dirty_pid_node_map_ := [], dirty_cpu_use_ := [], dirty_node_use_ := [],
    cpu_migrations_ := [], node_migrations_ := [] }

/-- Constructor `snapshot() { build(); }`. -/
def snapshot_new (P : ProcessSource τ) (t : topology) (p : τ) (max_cpu max_node : Nat) :
    Outcome (snapshot τ) :=
  build P max_cpu max_node (snapshot_members t p)

/-- Source `update`. -/
def update (P : ProcessSource τ) (s : snapshot τ) : Outcome (snapshot τ) :=
  match P.update s.processes_ with
  | Outcome.done p => rebuild P { s with processes_ := p }
  | Outcome.raised p => Outcome.raised { s with processes_ := p }
  | Outcome.undefined => Outcome.undefined

/-! ### commit, rollback -/

/-- Source `pin_pid_to_cpu`. -/
def pin_pid_to_cpu (P : ProcessSource τ) (pid cpu : Int) (s : snapshot τ) :
    Outcome (snapshot τ) :=
  match P.pin_processor s.processes_ pid cpu with
  | Outcome.done p => Outcome.done { s with processes_ := p }
  | Outcome.raised p => Outcome.raised { s with processes_ := p }
  | Outcome.undefined => Outcome.undefined

/-- Source `pin_pid_to_node`. -/
def pin_pid_to_node (P : ProcessSource τ) (pid node : Int) (s : snapshot τ) :
    Outcome (snapshot τ) :=
  match P.pin_numa_node s.processes_ pid node with
  | Outcome.done p => Outcome.done { s with processes_ := p }
  | Outcome.raised p => Outcome.raised { s with processes_ := p }
  | Outcome.undefined => Outcome.undefined

/-- Source `commit`. -/
def commit (P : ProcessSource τ) (s : snapshot τ) : Outcome (snapshot τ) :=
  if s.dirty_ = false then Outcome.done s
  else
    match for_each s.cpu_migrations_ (fun e => pin_pid_to_cpu P e.1 e.2) s with
    | Outcome.raised s1 => Outcome.raised s1
    | Outcome.undefined => Outcome.undefined
    | Outcome.done s1 =>
      match for_each s1.node_migrations_ (fun e => pin_pid_to_node P e.1 e.2) s1 with
      | Outcome.raised s2 => Outcome.raised s2
      | Outcome.undefined => Outcome.undefined
      | Outcome.done s2 =>
        update P { s2 with cpu_migrations_ := [], node_migrations_ := [], dirty_ := false }

/-- Source `rollback`. -/
def rollback (s : snapshot τ) : snapshot τ :=
  { copy_to_dirty { s with cpu_migrations_ := [], node_migrations_ := [] } with
    dirty_ := false }

/-! ### Queries -/

def processor (s : snapshot τ) (pid : Int) : Option Int := umap_at s.dirty_pid_cpu_map_ pid

def original_processor (s : snapshot τ) (pid : Int) : Option Int := umap_at s.pid_cpu_map_ pid

def numa_node (s : snapshot τ) (pid : Int) : Option Int := umap_at s.dirty_pid_node_map_ pid

def original_numa_node (s : snapshot τ) (pid : Int) : Option Int :=
  umap_at s.pid_node_map_ pid

def pids_in_cpu (s : snapshot τ) (cpu : Int) : Option (List Int) :=
  vec_at s.dirty_cpu_pid_map_ cpu

def pids_in_node (s : snapshot τ) (node : Int) : Option (List Int) :=
  vec_at s.dirty_node_pid_map_ node

def original_pids_in_cpu (s : snapshot τ) (cpu : Int) : Option (List Int) :=
  vec_at s.cpu_pid_map_ cpu

def original_pids_in_node (s : snapshot τ) (node : Int) : Option (List Int) :=
  vec_at s.node_pid_map_ node

def cpu_use (s : snapshot τ) (cpu : Int) : Option ℚ := vec_at s.cpu_use_ cpu

def node_use (s : snapshot τ) (node : Int) : Option ℚ := vec_at s.node_use_ node

def load_of (s : snapshot τ) (pid : Int) : Option ℚ := umap_at s.pid_load_map_ pid

/-- The accumulation `ranges::accumulate(pids | transform(load_of), 0.0F)`, which throws
when `load_of` does. -/
def accumulate_loads (s : snapshot τ) (pids : List Int) : Option ℚ :=
  pids.foldl
    (fun acc pid =>
      match acc, load_of s pid with
      | some a, some l => some (a + l)
      | _, _ => none)
    (some 0)

/-- Source `load_of_cpu`. -/
def load_of_cpu (s : snapshot τ) (cpu : Int) : Option ℚ :=
  match pids_in_cpu s cpu with
  | none => none
  | some pids => accumulate_loads s pids

/-- Source `load_of_node`. -/
def load_of_node (s : snapshot τ) (node : Int) : Option ℚ :=
  match pids_in_node s node with
  | none => none
  | some pids => accumulate_loads s pids

/-- Source `load_system`. -/
def load_system (s : snapshot τ) : ℚ := accumulate (s.pid_load_map_.map Prod.snd)

/-! ### Staging -/

/-- The statements that `migrate_to_cpu` (lines 339-353) and `migrate_to_node`
(lines 367-381) have in common, identical in both: erase `pid` from the old CPU and node
sets, insert it in the new ones, move `cpu_use(pid) / 100` between the usage slots. -/
def stage_move (P : ProcessSource τ) (pid old_cpu old_node cpu node : Int) (s : snapshot τ) :
    Outcome (snapshot τ) :=
  match vec_update s.dirty_cpu_pid_map_ old_cpu (fun set => uset_erase set pid) with
  | none => Outcome.raised s
  | some m =>
    let s := { s with dirty_cpu_pid_map_ := m }
    match vec_update s.dirty_node_pid_map_ old_node (fun set => uset_erase set pid) with
    | none => Outcome.raised s
    | some m =>
      let s := { s with dirty_node_pid_map_ := m }
      match vec_update s.dirty_cpu_pid_map_ cpu (fun set => uset_insert set pid) with
      | none => Outcome.raised s
      | some m =>
        let s := { s with dirty_cpu_pid_map_ := m }
        match vec_update s.dirty_node_pid_map_ node (fun set => uset_insert set pid) with
        | none => Outcome.raised s
        | some m =>
          let s := { s with dirty_node_pid_map_ := m }
          let cpu_use := P.cpu_use s.processes_ pid / 100
          match vec_update s.dirty_cpu_use_ old_cpu (fun u => u - cpu_use) with
          | none => Outcome.raised s
          | some u =>
            let s := { s with dirty_cpu_use_ := u }
            match vec_update s.dirty_cpu_use_ cpu (fun u => u + cpu_use) with
            | none => Outcome.raised s
            | some u =>
              let s := { s with dirty_cpu_use_ := u }
              match vec_update s.dirty_node_use_ old_node (fun u => u - cpu_use) with
              | none => Outcome.raised s
              | some u =>
                let s := { s with dirty_node_use_ := u }
                match vec_update s.dirty_node_use_ node (fun u => u + cpu_use) with
                | none => Outcome.raised s
                | some u => Outcome.done { s with dirty_node_use_ := u }

/-- Source `migrate_to_cpu`. -/
def migrate_to_cpu (P : ProcessSource τ) (pid cpu : Int) (s : snapshot τ) :
    Outcome (snapshot τ) :=
  let s := { s with dirty_ := true }
  match s.topology_.node_from_cpu cpu with
  | none => Outcome.raised s
  | some node =>
    match umap_at s.dirty_pid_cpu_map_ pid with
    | none => Outcome.raised s
    | some old_cpu =>
      match umap_at s.dirty_pid_node_map_ pid with
      | none => Outcome.raised s
      | some old_node =>
        match stage_move P pid old_cpu old_node cpu node s with
        | Outcome.done s1 =>
          Outcome.done { s1 with cpu_migrations_ := umap_assign s1.cpu_migrations_ pid cpu }
        | Outcome.raised s1 => Outcome.raised s1
        | Outcome.undefined => Outcome.undefined

/-- Source `migrate_to_node`; `draw` is what the random engine of `views::sample` yields. -/
def migrate_to_node (P : ProcessSource τ) (draw : Nat) (pid node : Int) (s : snapshot τ) :
    Outcome (snapshot τ) :=
  let s := { s with dirty_ := true }
  match s.topology_.cpus_from_node node with
  | none => Outcome.raised s
  | some cpus =>
    match sample_one cpus draw with
    | none => Outcome.undefined
    | some cpu =>
      match umap_at s.dirty_pid_cpu_map_ pid with
      | none => Outcome.raised s
      | some old_cpu =>
        match umap_at s.dirty_pid_node_map_ pid with
        | none => Outcome.raised s
        | some old_node =>
          match stage_move P pid old_cpu old_node cpu node s with
          | Outcome.done s1 =>
            Outcome.done { s1 with node_migrations_ := umap_assign s1.node_migrations_ pid node }
          | Outcome.raised s1 => Outcome.raised s1
          | Outcome.undefined => Outcome.undefined

/-! ## Observing the calls made to the process source -/

/-- A call the snapshot makes to its process source. -/
inductive call where
  | pin_to_cpu (pid cpu : Int) : call
  | pin_to_node (pid node : Int) : call
  | update : call
deriving DecidableEq

/-- The process source `P` with a journal: every mutating call is appended to the journal
when it is made, whether it then throws or not, and is passed on to `P`. -/
def journaled (P : ProcessSource τ) : ProcessSource (τ × List call) where
  records := fun p => P.records p.1
  cpu_use := fun p pid => P.cpu_use p.1 pid
  update := fun p =>
    match P.update p.1 with
    | Outcome.done q => Outcome.done (q, p.2 ++ [call.update])
    | Outcome.raised q => Outcome.raised (q, p.2 ++ [call.update])
    | Outcome.undefined => Outcome.undefined
  pin_processor := fun p pid cpu =>
    match P.pin_processor p.1 pid cpu with
    | Outcome.done q => Outcome.done (q, p.2 ++ [call.pin_to_cpu pid cpu])
    | Outcome.raised q => Outcome.raised (q, p.2 ++ [call.pin_to_cpu pid cpu])
    | Outcome.undefined => Outcome.undefined
  pin_numa_node := fun p pid node =>
    match P.pin_numa_node p.1 pid node with
    | Outcome.done q => Outcome.done (q, p.2 ++ [call.pin_to_node pid node])
    | Outcome.raised q => Outcome.raised (q, p.2 ++ [call.pin_to_node pid node])
    | Outcome.undefined => Outcome.undefined

/-- Modelled from the spec: the stub `ProcessSource` of testable property 5, "a
ProcessSource stub that applies pins to its internal record set". Its state is the record
list; `pin_processor` puts every record of the pid on the CPU (and on the node of that
CPU), `pin_numa_node` puts it on the node and on the first CPU of the node, `update` keeps
the records, `cpu_use(pid)` is the usage of the record, `0` when the pid is absent. A pin
to a CPU or node the topology `t` does not know fails. -/
def stub_source (t : topology) : ProcessSource (List process) where
  records := fun recs => recs
  cpu_use := fun recs pid =>
    match recs.find? (fun r => decide (r.pid = pid)) with
    | some r => r.cpu_use
    | none => 0
  update := fun recs => Outcome.done recs
  pin_processor := fun recs pid cpu =>
    match t.node_from_cpu cpu with
    | none => Outcome.raised recs
    | some node =>
      Outcome.done (recs.map (fun r =>
        if r.pid = pid then { r with processor := cpu, numa_node := node } else r))
  pin_numa_node := fun recs pid node =>
    match t.cpus_from_node node with
    | some (cpu :: _) =>
      Outcome.done (recs.map (fun r =>
        if r.pid = pid then { r with processor := cpu, numa_node := node } else r))
    | _ => Outcome.raised recs

/-! ## The two bundles, and the calls a commit has to make -/

/-- The clean bundle: the six index and aggregate members read by the `original_*`
queries, `cpu_use` and `node_use`. -/
def clean_bundle (s : snapshot τ) :
    List (List Int) × List (List Int) × List (Int × Int) × List (Int × Int) × List ℚ × List ℚ :=
  (s.cpu_pid_map_, s.node_pid_map_, s.pid_cpu_map_, s.pid_node_map_, s.cpu_use_, s.node_use_)

/-- The dirty bundle: the six `dirty_*` members. -/
def dirty_bundle (s : snapshot τ) :
    List (List Int) × List (List Int) × List (Int × Int) × List (Int × Int) × List ℚ × List ℚ :=
  (s.dirty_cpu_pid_map_, s.dirty_node_pid_map_, s.dirty_pid_cpu_map_, s.dirty_pid_node_map_,
    s.dirty_cpu_use_, s.dirty_node_use_)

/-- The pin calls for the pending maps of `s`: one `pin_to_cpu` per entry of
`cpu_migrations_`, then one `pin_to_node` per entry of `node_migrations_`. -/
def pin_calls (s : snapshot τ) : List call :=
  s.cpu_migrations_.map (fun e => call.pin_to_cpu e.1 e.2) ++
    s.node_migrations_.map (fun e => call.pin_to_node e.1 e.2)

/-- The snapshot `s` over a journaled process source whose journal holds `j`. -/
def with_journal (s : snapshot τ) (j : List call) : snapshot (τ × List call) :=
  { topology_ := s.topology_, processes_ := (s.processes_, j),
    cpu_pid_map_ := s.cpu_pid_map_, node_pid_map_ := s.node_pid_map_,
    pid_cpu_map_ := s.pid_cpu_map_, pid_node_map_ := s.pid_node_map_,
    pid_load_map_ := s.pid_load_map_, cpu_use_ := s.cpu_use_, node_use_ := s.node_use_,
    dirty_ := s.dirty_,
    dirty_cpu_pid_map_ := s.dirty_cpu_pid_map_, dirty_node_pid_map_ := s.dirty_node_pid_map_,
    dirty_pid_cpu_map_ := s.dirty_pid_cpu_map_, dirty_pid_node_map_ := s.dirty_pid_node_map_,
    dirty_cpu_use_ := s.dirty_cpu_use_, dirty_node_use_ := s.dirty_node_use_,
    cpu_migrations_ := s.cpu_migrations_, node_migrations_ := s.node_migrations_ }

/-! ## Auxiliary notions for the statements -/

/-- What a completed operation may have changed when it only touches the clean index and
aggregate members. -/
def clean_only (s s' : snapshot τ) : Prop :=
  s' = { s with
    cpu_pid_map_ := s'.cpu_pid_map_, node_pid_map_ := s'.node_pid_map_,
    pid_cpu_map_ := s'.pid_cpu_map_, pid_node_map_ := s'.pid_node_map_,
    cpu_use_ := s'.cpu_use_, node_use_ := s'.node_use_ }

/-- What a completed operation may have changed when it only touches the load map. -/
def loads_only (s s' : snapshot τ) : Prop :=
  s' = { s with pid_load_map_ := s'.pid_load_map_ }

/-- The process source `P` receiving the call `c`. -/
def apply_call (P : ProcessSource τ) (c : call) (p : τ) : Outcome τ :=
  match c with
  | call.pin_to_cpu pid cpu => P.pin_processor p pid cpu
  | call.pin_to_node pid node => P.pin_numa_node p pid node
  | call.update => P.update p

/-- The snapshot passing the call `c` on to its process source: `pin_pid_to_cpu` and
`pin_pid_to_node` are the two instances the source has. -/
def issue (P : ProcessSource τ) (c : call) (s : snapshot τ) : Outcome (snapshot τ) :=
  match apply_call P c s.processes_ with
  | Outcome.done p => Outcome.done { s with processes_ := p }
  | Outcome.raised p => Outcome.raised { s with processes_ := p }
  | Outcome.undefined => Outcome.undefined

/-- The keys of an `std::unordered_map`. -/
def umap_keys {β : Type} (m : List (Int × β)) : List Int := m.map Prod.fst

/-- The pid a pin call is about: `targets c pid` holds when `c` pins `pid`. -/
def targets (c : call) (pid : Int) : Prop :=
  match c with
  | call.pin_to_cpu p _ => p = pid
  | call.pin_to_node p _ => p = pid
  | call.update => False

/-- One staging call: `migrate_to_cpu(pid, cpu)` or `migrate_to_node(pid, node)`, the
latter with what the random engine yields. -/
inductive staging where
  | to_cpu (pid cpu : Int) : staging
  | to_node (draw : Nat) (pid node : Int) : staging

/-- Running one staging call on the snapshot. -/
def stage (P : ProcessSource τ) (c : staging) (s : snapshot τ) : Outcome (snapshot τ) :=
  match c with
  | staging.to_cpu pid cpu => migrate_to_cpu P pid cpu s
  | staging.to_node draw pid node => migrate_to_node P draw pid node s

/-- What holds of a snapshot while migrations are staged on a rebuilt snapshot: the pending
maps have no repeated key, a pid with a pending entry is known to the dirty pid-to-CPU map
and the dirty flag is set, and the pids of the dirty pid-to-CPU map have a record. -/
def staged_ok (P : ProcessSource τ) (s : snapshot τ) : Prop :=
  (umap_keys s.cpu_migrations_).Nodup ∧ (umap_keys s.node_migrations_).Nodup ∧
  (∀ k, k ∈ umap_keys s.cpu_migrations_ ∨ k ∈ umap_keys s.node_migrations_ →
    s.dirty_ = true ∧ umap_at s.dirty_pid_cpu_map_ k ≠ none) ∧
  (∀ k, umap_at s.dirty_pid_cpu_map_ k ≠ none → ∃ r ∈ P.records s.processes_, r.pid = k)

/-! ## Scenarios -/

/-- The machine of scenario S2: CPUs 0, 1 on node 0 and CPUs 2, 3 on node 1. -/
def topo4 : topology :=
  { nodes_ := [0, 1], cpus_ := [0, 1, 2, 3],
    nodes_by_distance_ := [[0, 1], [1, 0]],
    cpu_node_map_ := [0, 0, 1, 1],
    node_cpu_map_ := [[0, 1], [2, 3]] }

/-- The records of scenario S2 (pids 100 and 101 on CPU 0, at 20% and 30%), and one task
on each of the other CPUs. -/
def recs5 : List process :=
  [ { pid := 100, processor := 0, numa_node := 0, cpu_use := 20 },
    { pid := 101, processor := 0, numa_node := 0, cpu_use := 30 },
    { pid := 102, processor := 1, numa_node := 0, cpu_use := 10 },
    { pid := 103, processor := 2, numa_node := 1, cpu_use := 10 },
    { pid := 104, processor := 3, numa_node := 1, cpu_use := 10 } ]

/-- The stub process source on the machine `topo4`. -/
def P5 : ProcessSource (List process) := stub_source topo4

/-- The snapshot constructed over `recs5` on `topo4` (`max_cpu() = 3`, `max_node() = 1`). -/
def fresh5 : Outcome (snapshot (List process)) := snapshot_new P5 topo4 recs5 3 1

/-- The state `fresh5` returns with, written out. -/
def clean5 : snapshot (List process) :=
  { topology_ := topo4, processes_ := recs5,
    cpu_pid_map_ := [[100, 101], [102], [103], [104]],
    node_pid_map_ := [[100, 101, 102], [103, 104]],
    pid_cpu_map_ := [(100, 0), (101, 0), (102, 1), (103, 2), (104, 3)],
    pid_node_map_ := [(100, 0), (101, 0), (102, 0), (103, 1), (104, 1)],
    pid_load_map_ := [(100, 8 / 15), (101, 4 / 5), (102, 41 / 365), (103, 41 / 365),
      (104, 41 / 365)],
    cpu_use_ := [50, 10, 10, 10], node_use_ := [60, 20],
    dirty_ := false,
    dirty_cpu_pid_map_ := [[100, 101], [102], [103], [104]],
    dirty_node_pid_map_ := [[100, 101, 102], [103, 104]],
    dirty_pid_cpu_map_ := [(100, 0), (101, 0), (102, 1), (103, 2), (104, 3)],
    dirty_pid_node_map_ := [(100, 0), (101, 0), (102, 0), (103, 1), (104, 1)],
    dirty_cpu_use_ := [50, 10, 10, 10], dirty_node_use_ := [60, 20],
    cpu_migrations_ := [], node_migrations_ := [] }

/-- The state after `migrate_to_cpu(100, 3)` on `clean5`, written out. -/
def staged5 : snapshot (List process) :=
  { clean5 with
    dirty_ := true,
    dirty_cpu_pid_map_ := [[101], [102], [103], [104, 100]],
    dirty_node_pid_map_ := [[101, 102], [103, 104, 100]],
    dirty_cpu_use_ := [249 / 5, 10, 10, 51 / 5],
    dirty_node_use_ := [299 / 5, 101 / 5],
    cpu_migrations_ := [(100, 3)] }

/-- The state after `commit()` on `staged5` with the stub source: pid 100 is observed on
CPU 3. -/
def committed5 : snapshot (List process) :=
  { topology_ := topo4,
    processes_ :=
      [ { pid := 100, processor := 3, numa_node := 1, cpu_use := 20 },
        { pid := 101, processor := 0, numa_node := 0, cpu_use := 30 },
        { pid := 102, processor := 1, numa_node := 0, cpu_use := 10 },
        { pid := 103, processor := 2, numa_node := 1, cpu_use := 10 },
        { pid := 104, processor := 3, numa_node := 1, cpu_use := 10 } ],
    cpu_pid_map_ := [[101], [102], [103], [100, 104]],
    node_pid_map_ := [[101, 102], [100, 103, 104]],
    pid_cpu_map_ := [(100, 3), (101, 0), (102, 1), (103, 2), (104, 3)],
    pid_node_map_ := [(100, 1), (101, 0), (102, 0), (103, 1), (104, 1)],
    pid_load_map_ := [(100, 25 / 74), (101, 87 / 185), (102, 41 / 365), (103, 41 / 365),
      (104, 25 / 148)],
    cpu_use_ := [30, 10, 10, 30], node_use_ := [40, 40],
    dirty_ := false,
    dirty_cpu_pid_map_ := [[101], [102], [103], [100, 104]],
    dirty_node_pid_map_ := [[101, 102], [100, 103, 104]],
    dirty_pid_cpu_map_ := [(100, 3), (101, 0), (102, 1), (103, 2), (104, 3)],
    dirty_pid_node_map_ := [(100, 1), (101, 0), (102, 0), (103, 1), (104, 1)],
    dirty_cpu_use_ := [30, 10, 10, 30], dirty_node_use_ := [40, 40],
    cpu_migrations_ := [], node_migrations_ := [] }

/-- The state after `migrate_to_cpu(101, 1)`, `migrate_to_cpu(100, 3)` and
`migrate_to_node(102, 1)` (the sampled CPU being 2) on `clean5`, written out. -/
def staged3 : snapshot (List process) :=
  { clean5 with
    dirty_ := true,
    dirty_cpu_pid_map_ := [[], [101], [103, 102], [104, 100]],
    dirty_node_pid_map_ := [[101], [103, 104, 100, 102]],
    dirty_cpu_use_ := [99 / 2, 51 / 5, 101 / 10, 51 / 5],
    dirty_node_use_ := [597 / 10, 203 / 10],
    cpu_migrations_ := [(101, 1), (100, 3)],
    node_migrations_ := [(102, 1)] }

/-- A machine with CPUs 0 and 1 on one node: a process source over it refuses a pin to
CPU 3. -/
def topo2 : topology :=
  { nodes_ := [0], cpus_ := [0, 1], nodes_by_distance_ := [[0]],
    cpu_node_map_ := [0, 0], node_cpu_map_ := [[0, 1]] }

/-- The records `recs5` after pid 101 has been pinned to CPU 1. -/
def recs5_pinned : List process :=
  [ { pid := 100, processor := 0, numa_node := 0, cpu_use := 20 },
    { pid := 101, processor := 1, numa_node := 0, cpu_use := 30 },
    { pid := 102, processor := 1, numa_node := 0, cpu_use := 10 },
    { pid := 103, processor := 2, numa_node := 1, cpu_use := 10 },
    { pid := 104, processor := 3, numa_node := 1, cpu_use := 10 } ]

/-- The round-trip invariant on the clean bundle: a pid of the pid-to-CPU map is a member
of the set of its CPU, a pid of the pid-to-node map is a member of the set of its node. -/
def round_trip_clean (s : snapshot τ) : Prop :=
  (∀ pid c, umap_at s.pid_cpu_map_ pid = some c →
    ∃ set, vec_at s.cpu_pid_map_ c = some set ∧ pid ∈ set) ∧
  (∀ pid n, umap_at s.pid_node_map_ pid = some n →
    ∃ set, vec_at s.node_pid_map_ n = some set ∧ pid ∈ set)

/-- The round-trip invariant on the dirty bundle, as the queries read it: every pid with a
`processor(pid)` is in `pids_in_cpu(processor(pid))`, every pid with a `numa_node(pid)` is
in `pids_in_node(numa_node(pid))`. -/
def round_trip_dirty (s : snapshot τ) : Prop :=
  (∀ pid c, processor s pid = some c → ∃ set, pids_in_cpu s c = some set ∧ pid ∈ set) ∧
  (∀ pid n, numa_node s pid = some n → ∃ set, pids_in_node s n = some set ∧ pid ∈ set)

/-- The `cpu_use` of the record of `pid` (of the first one, should there be several; `0`
when there is none). -/
def record_cpu_use (recs : List process) (pid : Int) : ℚ :=
  match recs.find? (fun r => decide (r.pid = pid)) with
  | some r => r.cpu_use
  | none => 0

/-- One call of the public interface that changes the snapshot. -/
inductive op where
  | update : op
  | to_cpu (pid cpu : Int) : op
  | to_node (draw : Nat) (pid node : Int) : op
  | commit : op
  | rollback : op

/-- Running one call of the public interface. -/
def run_op (P : ProcessSource τ) (o : op) (s : snapshot τ) : Outcome (snapshot τ) :=
  match o with
  | op.update => update P s
  | op.to_cpu pid cpu => migrate_to_cpu P pid cpu s
  | op.to_node draw pid node => migrate_to_node P draw pid node s
  | op.commit => commit P s
  | op.rollback => Outcome.done (rollback s)

/-- Pending consistency: the dirty flag is set exactly when a pending map has an entry,
and when it is not set the dirty bundle equals the clean bundle. -/
def pending_consistent (s : snapshot τ) : Prop :=
  (s.dirty_ = true ↔ (s.cpu_migrations_ ≠ [] ∨ s.node_migrations_ ≠ [])) ∧
  (s.dirty_ = false → dirty_bundle s = clean_bundle s)

/-- A machine whose allowed CPUs are 0 and 3 only (CPU 3 on node 1): the vectors have the
slots 0 to 3, the slots of CPUs 1 and 2 keep the default node 0. -/
def topo_gap : topology :=
  { nodes_ := [0, 1], cpus_ := [0, 3], nodes_by_distance_ := [[0, 1], [1, 0]],
    cpu_node_map_ := [0, 0, 0, 1], node_cpu_map_ := [[0], [3]] }

/-- Records on the machine `topo_gap`: pid 101 is observed on CPU 1, which is in range but
not an allowed CPU. -/
def recs_gap : List process :=
  [ { pid := 100, processor := 0, numa_node := 0, cpu_use := 20 },
    { pid := 101, processor := 1, numa_node := 0, cpu_use := 30 },
    { pid := 104, processor := 3, numa_node := 1, cpu_use := 10 } ]

/-! ## topology.hpp: detection -/

/-- Modelled from the spec: a `struct bitmask` of libnuma (an external library, the kernel
NUMA interface of section 6.2): `size` bits, read with `numa_bitmask_isbitset`. The library
sizes its masks by the possible CPUs or nodes of the kernel; with fewer than `2 ^ 31` bits
the conversions of a bit index between `unsigned long`, `uint32_t` and `int` keep its
value. -/
structure bitmask where
  size : Nat
  isbitset : Nat → Bool
  size_lt : size < 2 ^ 31

/-- Modelled from the spec: the calls into libnuma that the topology makes (the kernel NUMA
interface of section 6.2), as the values they return: `numa_available()`,
`numa_max_node()`, the mask `numa_all_cpus_ptr`, the mask of `numa_get_mems_allowed()`,
the mask that `numa_node_to_cpus(node, mask)` fills (no value when the call returns `-1`),
`numa_node_of_cpu(cpu)` and `numa_distance(node_1, node_2)`. -/
structure numa where
  numa_available : Int
  numa_max_node : Int
  numa_all_cpus_ptr : bitmask
  numa_get_mems_allowed : bitmask
  numa_node_to_cpus : Int → Option bitmask
  numa_node_of_cpu : Int → Int
  numa_distance : Int → Int → Int

/-- Source `allowed_cpus`: the indices of the set bits of `numa_all_cpus_ptr`, in the order
of the loop over `indices(0, size)`. -/
def allowed_cpus (k : numa) : List Int :=
  ((List.range k.numa_all_cpus_ptr.size).filter k.numa_all_cpus_ptr.isbitset).map Int.ofNat

/-- Source `allowed_nodes`: the indices of the set bits of the mask of
`numa_get_mems_allowed()`, in the order of the loop over `indices(0, size)`. -/
def allowed_nodes (k : numa) : List Int :=
  ((List.range k.numa_get_mems_allowed.size).filter k.numa_get_mems_allowed.isbitset).map
    Int.ofNat

/-- Source `max_node`. -/
def max_node (k : numa) : Int := k.numa_max_node

/-- Source `max_cpu`: `ranges::max(allowed_cpus())`, whose precondition is a non-empty
range. -/
def max_cpu (k : numa) : Option Int :=
  match allowed_cpus k with
  | [] => none
  | x :: rest => some (rest.foldl (fun m y => if m < y then y else m) x)

/-- Source `detect_cpus_from_node`: throws when `numa_node_to_cpus` returns `-1`, otherwise
the indices of the set bits of the node's mask that are allowed CPUs. -/
def detect_cpus_from_node (k : numa) (node : Int) : Option (List Int) :=
  match k.numa_node_to_cpus node with
  | none => none
  | some cpus_bm =>
    some (((List.range cpus_bm.size).filter
      (fun cpu => cpus_bm.isbitset cpu && decide (Int.ofNat cpu ∈ allowed_cpus k))).map
      Int.ofNat)

/-- Call `v.resize(static_cast<std::size_t>(n), value)`: a negative `n` converts to a size
above `max_size()`, on which `resize` throws `std::length_error`. -/
def vec_resize {α : Type} (v : List α) (n : Int) (value : α) : Option (List α) :=
  if n < 0 then none else some (resize v n.toNat value)

/-- Method `std::multimap<int, int>::emplace`: the entries are kept in key order, a new
entry goes after the entries of an equal key (the upper bound of their range). -/
def multimap_emplace (m : List (Int × Int)) (key value : Int) : List (Int × Int) :=
  match m with
  | [] => [(key, value)]
  | (key', value') :: rest =>
    if key < key' then (key, value) :: (key', value') :: rest
    else (key', value') :: multimap_emplace rest key value

/-- The vector `nodes_by_distance` that the last loop of `detect_system_NUMA` builds for
`node`: the nodes are emplaced in a multimap under their distance from `node`, in the order
of `nodes_`, and the values of the multimap are read in its order. -/
def sort_by_distance (k : numa) (node : Int) (nodes_ : List Int) : List Int :=
  (nodes_.foldl
    (fun distance_nodes_map node_2 =>
      multimap_emplace distance_nodes_map (k.numa_distance node node_2) node_2)
    []).map Prod.snd

/-- The default-initialised members of a `topology` object, before `detect_system()` runs. -/
def topology_members : topology :=
  { nodes_ := [], cpus_ := [], nodes_by_distance_ := [], cpu_node_map_ := [],
    node_cpu_map_ := [] }

/-- Source `detect_system_UMA`. -/
def detect_system_UMA (k : numa) (t : topology) : Outcome topology :=
  let t := { t with nodes_ := [0], cpus_ := allowed_cpus k }
  match max_cpu k with
  | none => Outcome.undefined
  | some max_cpu =>
    let size_cpus := max_cpu + 1
    let size_nodes := max_node k + 1
    match vec_resize t.node_cpu_map_ size_nodes [] with
    | none => Outcome.raised t
    | some m =>
      let t := { t with node_cpu_map_ := m }
      match vec_update t.node_cpu_map_ 0 (fun _ => t.cpus_) with
      | none => Outcome.raised t
      | some m =>
        let t := { t with node_cpu_map_ := m }
        match t.nodes_.head? with
        | none => Outcome.undefined
        | some front =>
          match vec_resize t.cpu_node_map_ size_cpus front with
          | none => Outcome.raised t
          | some c =>
            let t := { t with cpu_node_map_ := c }
            match vec_resize t.nodes_by_distance_ size_nodes [] with
            | none => Outcome.raised t
            | some d =>
              let t := { t with nodes_by_distance_ := d }
              match vec_update t.nodes_by_distance_ 0 (fun _ => [1]) with
              | none => Outcome.raised t
              | some d => Outcome.done { t with nodes_by_distance_ := d }

/-- The body of the first loop of `detect_system_NUMA`, over the nodes. -/
def detect_node_cpus (k : numa) (node : Int) (t : topology) : Outcome topology :=
  match detect_cpus_from_node k node with
  | none => Outcome.raised t
  | some cpus =>
    match vec_update t.node_cpu_map_ node (fun _ => cpus) with
    | none => Outcome.raised t
    | some m =>
      let t := { t with node_cpu_map_ := m }
      match vec_at t.node_cpu_map_ node with
      | none => Outcome.raised t
      | some cpus_in_node => if cpus_in_node.isEmpty then Outcome.raised t else Outcome.done t

/-- The body of the second loop of `detect_system_NUMA`, over the CPUs. -/
def detect_cpu_node (k : numa) (cpu : Int) (t : topology) : Outcome topology :=
  match vec_update t.cpu_node_map_ cpu (fun _ => k.numa_node_of_cpu cpu) with
  | none => Outcome.raised t
  | some m => Outcome.done { t with cpu_node_map_ := m }

/-- The body of the third loop of `detect_system_NUMA`, over the nodes. -/
def detect_node_distances (k : numa) (node : Int) (t : topology) : Outcome topology :=
  let nodes_by_distance := sort_by_distance k node t.nodes_
  match vec_update t.nodes_by_distance_ node (fun _ => nodes_by_distance) with
  | none => Outcome.raised t
  | some d => Outcome.done { t with nodes_by_distance_ := d }

/-- Source `detect_system_NUMA`. -/
def detect_system_NUMA (k : numa) (t : topology) : Outcome topology :=
  let t := { t with nodes_ := allowed_nodes k, cpus_ := allowed_cpus k }
  match max_cpu k with
  | none => Outcome.undefined
  | some max_cpu =>
    let size_cpus := max_cpu + 1
    let size_nodes := max_node k + 1
    match vec_resize t.node_cpu_map_ size_nodes [] with
    | none => Outcome.raised t
    | some m =>
      (for_each t.nodes_ (detect_node_cpus k) { t with node_cpu_map_ := m }).andThen fun t =>
      match vec_resize t.cpu_node_map_ size_cpus 0 with
      | none => Outcome.raised t
      | some c =>
        (for_each t.cpus_ (detect_cpu_node k) { t with cpu_node_map_ := c }).andThen fun t =>
        match vec_resize t.nodes_by_distance_ size_nodes [] with
        | none => Outcome.raised t
        | some d =>
          for_each t.nodes_ (detect_node_distances k) { t with nodes_by_distance_ := d }

/-- Source `detect_system`. -/
def detect_system (k : numa) (t : topology) : Outcome topology :=
  if k.numa_available < 0 then detect_system_UMA k t else detect_system_NUMA k t

/-- Constructor `topology() { detect_system(); }`. -/
def topology_new (k : numa) : Outcome topology :=
  detect_system k topology_members

/-- Source `nodes_by_distance(node)`: `nodes_by_distance_.at(idx(node))`. -/
def topology.nodes_by_distance (t : topology) (node : Int) : Option (List Int) :=
  vec_at t.nodes_by_distance_ node

/-- The staging of a node migration in the words of the specification (section 4.4): with
`cpu` the CPU picked from `cpus_from_node(node)`, proceed as `migrate_to_cpu` with that CPU,
but record the choice in the pending node map, not in the pending CPU map. -/
def migrate_to_node_spec (P : ProcessSource τ) (cpu pid node : Int) (s : snapshot τ) :
    Outcome (snapshot τ) :=
  match migrate_to_cpu P pid cpu s with
  | Outcome.done s1 =>
    Outcome.done { s1 with
      cpu_migrations_ := s.cpu_migrations_
      node_migrations_ := umap_assign s.node_migrations_ pid node }
  | Outcome.raised s1 => Outcome.raised s1
  | Outcome.undefined => Outcome.undefined

/-! ## Scenarios on the detection -/

/-- A bit mask of `size` bits whose set bits are `bits`. -/
def mask_of (size : Nat) (bits : List Nat) (h : size < 2 ^ 31) : bitmask :=
  { size := size, isbitset := fun i => decide (i ∈ bits), size_lt := h }

/-- A machine of two nodes at distance 20 (CPUs 0, 1 on node 0 and CPUs 2, 3 on node 1),
the process being allowed CPUs 0 and 3 and both nodes. -/
def numa_gap : numa :=
  { numa_available := 0, numa_max_node := 1,
    numa_all_cpus_ptr := mask_of 4 [0, 3] (by decide),
    numa_get_mems_allowed := mask_of 2 [0, 1] (by decide),
    numa_node_to_cpus := fun node =>
      if node = 0 then some (mask_of 4 [0, 1] (by decide))
      else if node = 1 then some (mask_of 4 [2, 3] (by decide))
      else none,
    numa_node_of_cpu := fun cpu => if cpu < 0 then -1 else if cpu < 2 then 0 else
      if cpu < 4 then 1 else -1,
    numa_distance := fun a b => if a = b then 10 else 20 }

/-- The machine of `numa_gap` when the kernel reports the distance 10 between the two nodes
as well (two emulated nodes on one physical node). -/
def numa_tie : numa :=
  { numa_gap with numa_distance := fun _ _ => 10 }

/-- The machine of `numa_gap` when the process is confined to CPUs 0, 1 and to the memory of
node 0: `numa_max_node()` is still 1. -/
def numa_cpuset : numa :=
  { numa_gap with
    numa_all_cpus_ptr := mask_of 4 [0, 1] (by decide),
    numa_get_mems_allowed := mask_of 2 [0] (by decide) }

/-- A machine with CPUs 0 and 1 on which NUMA is not available. -/
def numa_uma : numa :=
  { numa_available := -1, numa_max_node := 0,
    numa_all_cpus_ptr := mask_of 2 [0, 1] (by decide),
    numa_get_mems_allowed := mask_of 1 [0] (by decide),
    numa_node_to_cpus := fun _ => none,
    numa_node_of_cpu := fun _ => -1,
    numa_distance := fun _ _ => 0 }

/-- The topology detected on `numa_tie`, written out. -/
def topo_tie : topology :=
  { nodes_ := [0, 1], cpus_ := [0, 3], nodes_by_distance_ := [[0, 1], [0, 1]],
    cpu_node_map_ := [0, 0, 0, 1], node_cpu_map_ := [[0], [3]] }

/-- The topology detected on `numa_cpuset`, written out: the slots of node 1, which is in
range and not allowed, keep the empty lists. -/
def topo_cpuset : topology :=
  { nodes_ := [0], cpus_ := [0, 1], nodes_by_distance_ := [[0], []],
    cpu_node_map_ := [0, 0], node_cpu_map_ := [[0, 1], []] }

/-- The topology detected on `numa_uma`, written out. -/
def topo_uma : topology :=
  { nodes_ := [0], cpus_ := [0, 1], nodes_by_distance_ := [[1]],
    cpu_node_map_ := [0, 0], node_cpu_map_ := [[0, 1]] }

/-- Records on the machine `topo_cpuset`: one task on each allowed CPU. -/
def recs_cpuset : List process :=
  [ { pid := 100, processor := 0, numa_node := 0, cpu_use := 20 },
    { pid := 101, processor := 1, numa_node := 0, cpu_use := 30 } ]

/-- The stub process source on the machine `topo_cpuset`. -/
def P_cpuset : ProcessSource (List process) := stub_source topo_cpuset

/-- The snapshot constructed over `recs_cpuset` on `topo_cpuset` (`max_cpu() = 1`,
`max_node() = 1`), written out. -/
def clean_cpuset : snapshot (List process) :=
  { topology_ := topo_cpuset, processes_ := recs_cpuset,
    cpu_pid_map_ := [[100], [101]],
    node_pid_map_ := [[100, 101], []],
    pid_cpu_map_ := [(100, 0), (101, 1)],
    pid_node_map_ := [(100, 0), (101, 0)],
    pid_load_map_ := [(100, 17 / 65), (101, 87 / 185)],
    cpu_use_ := [20, 30], node_use_ := [50, 0],
    dirty_ := false,
    dirty_cpu_pid_map_ := [[100], [101]],
    dirty_node_pid_map_ := [[100, 101], []],
    dirty_pid_cpu_map_ := [(100, 0), (101, 1)],
    dirty_pid_node_map_ := [(100, 0), (101, 0)],
    dirty_cpu_use_ := [20, 30], dirty_node_use_ := [50, 0],
    cpu_migrations_ := [], node_migrations_ := [] }

/-- The records of scenario S2 alone: pids 100 and 101 on CPU 0, no task on CPUs 1, 2
and 3. -/
def recs2 : List process :=
  [ { pid := 100, processor := 0, numa_node := 0, cpu_use := 20 },
    { pid := 101, processor := 0, numa_node := 0, cpu_use := 30 } ]

/-- The state in which the constructor over `recs2` on `topo4` reaches `compute_loads(1)`:
the indices are built and copied, the loads of CPU 0 are written. -/
def idle2 : snapshot (List process) :=
  { topology_ := topo4, processes_ := recs2,
    cpu_pid_map_ := [[100, 101], [], [], []],
    node_pid_map_ := [[100, 101], []],
    pid_cpu_map_ := [(100, 0), (101, 0)],
    pid_node_map_ := [(100, 0), (101, 0)],
    pid_load_map_ := [(100, 8 / 15), (101, 4 / 5)],
    cpu_use_ := [50, 0, 0, 0], node_use_ := [50, 0],
    dirty_ := false,
    dirty_cpu_pid_map_ := [[100, 101], [], [], []],
    dirty_node_pid_map_ := [[100, 101], []],
    dirty_pid_cpu_map_ := [(100, 0), (101, 0)],
    dirty_pid_node_map_ := [(100, 0), (101, 0)],
    dirty_cpu_use_ := [50, 0, 0, 0], dirty_node_use_ := [50, 0],
    cpu_migrations_ := [], node_migrations_ := [] }
/-- The state after `migrate_to_cpu(100, 3)` and then `migrate_to_cpu(100, 2)` on `clean5`,
written out: pid 100 is in the dirty sets of CPU 2 and of CPU 3. -/
def twice5 : snapshot (List process) :=
  { clean5 with
    dirty_ := true,
    dirty_cpu_pid_map_ := [[101], [102], [103, 100], [104, 100]],
    dirty_node_pid_map_ := [[101, 102], [103, 104, 100]],
    dirty_cpu_use_ := [248 / 5, 10, 51 / 5, 51 / 5],
    dirty_node_use_ := [298 / 5, 102 / 5],
    cpu_migrations_ := [(100, 2)] }

/-- The order of a multimap whose values were emplaced in ascending order: by key, and by
value among the entries of one key. -/
def multimap_order (a b : Int × Int) : Prop :=
  a.1 < b.1 ∨ (a.1 = b.1 ∧ a.2 < b.2)

/-- What the loops of the detection keep: the node and CPU lists, the sizes of the three
vectors, and every slot of `nodes_by_distance_` that holds the list sorted for its node. -/
def detect_frame (k : numa) (a b : topology) : Prop :=
  b.nodes_ = a.nodes_ ∧ b.cpus_ = a.cpus_ ∧
  b.node_cpu_map_.length = a.node_cpu_map_.length ∧
  b.cpu_node_map_.length = a.cpu_node_map_.length ∧
  b.nodes_by_distance_.length = a.nodes_by_distance_.length ∧
  ∀ n, vec_at a.nodes_by_distance_ n = some (sort_by_distance k n a.nodes_) →
    vec_at b.nodes_by_distance_ n = some (sort_by_distance k n b.nodes_)

/-! ## A process source that replays observations -/

/-- Modelled from the spec: a stub `ProcessSource` (section 6.1, testable properties) whose
state is the list of the record sets it is going to report, the first one being the current
observation. `update()` moves to the next record set (and keeps the last one when no other
is left), `cpu_use(pid)` is the usage of the pid's record in the current observation, `0`
when the pid is absent; the pin calls are accepted and change nothing. -/
def replay_source : ProcessSource (List (List process)) where
  records := fun q => q.headD []
  cpu_use := fun q pid =>
    match (q.headD []).find? (fun r => decide (r.pid = pid)) with
    | some r => r.cpu_use
    | none => 0
  update := fun q =>
    match q with
    | _ :: next :: rest => Outcome.done (next :: rest)
    | q => Outcome.done q
  pin_processor := fun q _ _ => Outcome.done q
  pin_numa_node := fun q _ _ => Outcome.done q

/-- The records `recs5` and a sixth task, pid 105, on CPU 3. -/
def recs6 : List process :=
  recs5 ++ [{ pid := 105, processor := 3, numa_node := 1, cpu_use := 10 }]

/-- The snapshot constructed on `topo4` over a source that reports `recs6` and, from the
next `update()` on, `recs5`: pid 105 disappears between the two observations. -/
def fresh6 : Outcome (snapshot (List (List process))) :=
  snapshot_new replay_source topo4 [recs6, recs5] 3 1

/-- The snapshot constructed on `topo_gap` over `recs_gap` (pid 101 is observed on CPU 1,
which is in range and not an allowed CPU). -/
def fresh_gap : Outcome (snapshot (List process)) :=
  snapshot_new (stub_source topo_gap) topo_gap recs_gap 3 1

/-! ## Lemmas on the containers and on the staging block -/

theorem idx_eq_some {i : Int} {k : Nat} (h : idx i = some k) : 0 ≤ i ∧ k = i.toNat := by
  unfold idx at h
  split at h
  · cases h
  · simp at h; omega

theorem vec_update_eq_some {α : Type} {v v' : List α} {i : Int} {f : α → α}
    (h : vec_update v i f = some v') :
    ∃ a, 0 ≤ i ∧ v[i.toNat]? = some a ∧ v' = v.set i.toNat (f a) := by
  unfold vec_update at h
  split at h
  · cases h
  · rename_i k hk
    obtain ⟨h0, rfl⟩ := idx_eq_some hk
    split at h
    · cases h
    · rename_i a ha
      exact ⟨a, h0, ha, by simpa using h.symm⟩

theorem vec_at_update {α : Type} {v v' : List α} {i : Int} {f : α → α}
    (h : vec_update v i f = some v') (j : Int) :
    vec_at v' j = if j = i then (vec_at v j).map f else vec_at v j := by
  obtain ⟨a, h0, ha, rfl⟩ := vec_update_eq_some h
  unfold vec_at idx
  by_cases hj : j < 0
  · have : j ≠ i := by omega
    simp [hj, this]
  · simp only [hj, if_false]
    by_cases hji : j = i
    · subst hji
      have hlt : j.toNat < v.length := by
        rcases List.getElem?_eq_some.1 ha with ⟨hl, _⟩
        exact hl
      simp [ha, List.getElem?_set, hlt]
    · have : i.toNat ≠ j.toNat := by omega
      simp [hji, List.getElem?_set, this]

theorem umap_at_assign {β : Type} (m : List (Int × β)) (k : Int) (v : β) (k' : Int) :
    umap_at (umap_assign m k v) k' = if k = k' then some v else umap_at m k' := by
  induction m with
  | nil => simp [umap_assign, umap_at]
  | cons e rest ih =>
    obtain ⟨a, b⟩ := e
    by_cases h : a = k
    · subst h
      by_cases h' : a = k' <;> simp [umap_assign, umap_at, h']
    · by_cases h' : a = k'
      · subst h'
        have hk : ¬ k = a := fun hk => h hk.symm
        simp [umap_assign, umap_at, h, hk]
      · simp [umap_assign, umap_at, h, h', ih]

theorem umap_assign_assign {β : Type} (m : List (Int × β)) (k : Int) (v : β) :
    umap_assign (umap_assign m k v) k v = umap_assign m k v := by
  induction m with
  | nil => simp [umap_assign]
  | cons e rest ih =>
    obtain ⟨a, b⟩ := e
    by_cases h : a = k
    · simp [umap_assign, h]
    · simp [umap_assign, h, ih]

theorem stage_move_done {P : ProcessSource τ} {pid old_cpu old_node cpu node : Int}
    {s s' : snapshot τ} (h : stage_move P pid old_cpu old_node cpu node s = Outcome.done s') :
    ∃ m1 m2 m3 m4 u1 u2 u3 u4,
      vec_update s.dirty_cpu_pid_map_ old_cpu (fun set => uset_erase set pid) = some m1 ∧
      vec_update s.dirty_node_pid_map_ old_node (fun set => uset_erase set pid) = some m2 ∧
      vec_update m1 cpu (fun set => uset_insert set pid) = some m3 ∧
      vec_update m2 node (fun set => uset_insert set pid) = some m4 ∧
      vec_update s.dirty_cpu_use_ old_cpu (fun u => u - P.cpu_use s.processes_ pid / 100)
        = some u1 ∧
      vec_update u1 cpu (fun u => u + P.cpu_use s.processes_ pid / 100) = some u2 ∧
      vec_update s.dirty_node_use_ old_node (fun u => u - P.cpu_use s.processes_ pid / 100)
        = some u3 ∧
      vec_update u3 node (fun u => u + P.cpu_use s.processes_ pid / 100) = some u4 ∧
      s' = { s with dirty_cpu_pid_map_ := m3, dirty_node_pid_map_ := m4,
                    dirty_cpu_use_ := u2, dirty_node_use_ := u4 } := by
  unfold stage_move at h
  try dsimp only at h
  split at h
  · cases h
  rename_i m1 h1
  try dsimp only at h
  split at h
  · cases h
  rename_i m2 h2
  try dsimp only at h
  split at h
  · cases h
  rename_i m3 h3
  try dsimp only at h
  split at h
  · cases h
  rename_i m4 h4
  try dsimp only at h
  split at h
  · cases h
  rename_i u1 h5
  try dsimp only at h
  split at h
  · cases h
  rename_i u2 h6
  try dsimp only at h
  split at h
  · cases h
  rename_i u3 h7
  try dsimp only at h
  split at h
  · cases h
  rename_i u4 h8
  refine ⟨m1, m2, m3, m4, u1, u2, u3, u4, h1, h2, h3, h4, h5, h6, h7, h8, ?_⟩
  injection h with h
  exact h.symm

/-! ## Staging: what a call returns with (C3) -/

/-- The construction over `recs5` on `topo4` returns with `clean5`. -/
theorem fresh5_eq : fresh5 = Outcome.done clean5 := by decide!

/-- Rebuilding `clean5` gives `clean5` again. -/
theorem rebuild_clean5 : rebuild P5 clean5 = Outcome.done clean5 := by decide!

/-- The call `migrate_to_cpu(100, 3)` on `clean5` returns with `staged5`. -/
theorem migrate_clean5 : migrate_to_cpu P5 100 3 clean5 = Outcome.done staged5 := by decide!

theorem migrate_to_cpu_done {P : ProcessSource τ} {pid cpu : Int} {s s' : snapshot τ}
    (h : migrate_to_cpu P pid cpu s = Outcome.done s') :
    ∃ node old_cpu old_node s1,
      s.topology_.node_from_cpu cpu = some node ∧
      umap_at s.dirty_pid_cpu_map_ pid = some old_cpu ∧
      umap_at s.dirty_pid_node_map_ pid = some old_node ∧
      stage_move P pid old_cpu old_node cpu node { s with dirty_ := true } = Outcome.done s1 ∧
      s' = { s1 with cpu_migrations_ := umap_assign s1.cpu_migrations_ pid cpu } := by
  unfold migrate_to_cpu at h
  dsimp only at h
  split at h
  · cases h
  rename_i node h1
  split at h
  · cases h
  rename_i old_cpu h2
  split at h
  · cases h
  rename_i old_node h3
  split at h
  · rename_i s1 h4
    injection h with h
    exact ⟨node, old_cpu, old_node, s1, h1, h2, h3, h4, h.symm⟩
  · cases h
  · cases h

theorem migrate_to_node_done {P : ProcessSource τ} {draw : Nat} {pid node : Int}
    {s s' : snapshot τ} (h : migrate_to_node P draw pid node s = Outcome.done s') :
    ∃ cpus cpu old_cpu old_node s1,
      s.topology_.cpus_from_node node = some cpus ∧
      sample_one cpus draw = some cpu ∧
      umap_at s.dirty_pid_cpu_map_ pid = some old_cpu ∧
      umap_at s.dirty_pid_node_map_ pid = some old_node ∧
      stage_move P pid old_cpu old_node cpu node { s with dirty_ := true } = Outcome.done s1 ∧
      s' = { s1 with node_migrations_ := umap_assign s1.node_migrations_ pid node } := by
  unfold migrate_to_node at h
  dsimp only at h
  split at h
  · cases h
  rename_i cpus h0
  split at h
  · cases h
  rename_i cpu h1
  split at h
  · cases h
  rename_i old_cpu h2
  split at h
  · cases h
  rename_i old_node h3
  split at h
  · rename_i s1 h4
    injection h with h
    exact ⟨cpus, cpu, old_cpu, old_node, s1, h0, h1, h2, h3, h4, h.symm⟩
  · cases h
  · cases h

/-- C3. A successful `migrate_to_cpu` or `migrate_to_node` leaves the clean bundle (what
`original_processor`, `original_numa_node`, `original_pids_in_cpu`, `original_pids_in_node`,
`cpu_use` and `node_use` read) and the per-PID load map as they were. -/
theorem migrate_keeps_clean_bundle_and_loads (P : ProcessSource τ) (draw : Nat)
    (pid target : Int) (s s' : snapshot τ)
    (h : migrate_to_cpu P pid target s = Outcome.done s' ∨
      migrate_to_node P draw pid target s = Outcome.done s') :
    clean_bundle s' = clean_bundle s ∧ s'.pid_load_map_ = s.pid_load_map_ := by
  rcases h with h | h
  · obtain ⟨node, oc, onode, s1, -, -, -, hs, rfl⟩ := migrate_to_cpu_done h
    obtain ⟨m1, m2, m3, m4, u1, u2, u3, u4, -, -, -, -, -, -, -, -, rfl⟩ := stage_move_done hs
    exact ⟨rfl, rfl⟩
  · obtain ⟨cpus, cpu, oc, onode, s1, -, -, -, -, hs, rfl⟩ := migrate_to_node_done h
    obtain ⟨m1, m2, m3, m4, u1, u2, u3, u4, -, -, -, -, -, -, -, -, rfl⟩ := stage_move_done hs
    exact ⟨rfl, rfl⟩

theorem migrate_keeps_clean_bundle_and_loads_witness :
    migrate_to_cpu P5 100 3 clean5 = Outcome.done staged5 ∧
      clean_bundle staged5 = clean_bundle clean5 ∧
      staged5.pid_load_map_ = clean5.pid_load_map_ :=
  ⟨by decide!, migrate_keeps_clean_bundle_and_loads P5 0 100 3 clean5 staged5
    (Or.inl (by decide!))⟩

/-! ## rebuild: what it keeps -/

theorem for_each_done_rel {α σ : Type} {body : α → σ → Outcome σ} (R : σ → σ → Prop)
    (hrefl : ∀ s, R s s) (htrans : ∀ a b c, R a b → R b c → R a c)
    (hb : ∀ x s s', body x s = Outcome.done s' → R s s') :
    ∀ (xs : List α) (s s' : σ), for_each xs body s = Outcome.done s' → R s s' := by
  intro xs
  induction xs with
  | nil =>
    intro s s' h
    simp only [for_each] at h
    injection h with h
    subst h
    exact hrefl s
  | cons x rest ih =>
    intro s s' h
    simp only [for_each] at h
    split at h
    · rename_i s1 h1
      exact htrans _ _ _ (hb x s s1 h1) (ih s1 s' h)
    · cases h
    · cases h

theorem rebuild_step_done {proc : process} {s s' : snapshot τ}
    (h : rebuild_step proc s = Outcome.done s') : clean_only s s' := by
  unfold rebuild_step at h
  dsimp only at h
  split at h
  · cases h
  try dsimp only at h
  split at h
  · cases h
  try dsimp only at h
  split at h
  · cases h
  try dsimp only at h
  split at h
  · cases h
  injection h with h
  subst h
  rfl

theorem rebuild_loop_done {recs : List process} {s s' : snapshot τ}
    (h : for_each recs rebuild_step s = Outcome.done s') : clean_only s s' := by
  refine for_each_done_rel clean_only ?_ ?_ ?_ recs s s' h
  · intro a; rfl
  · intro a b c hab hbc
    unfold clean_only at *
    rw [hbc, hab]
  · intro x a b hx
    exact rebuild_step_done hx

theorem compute_loads_cpu_done {P : ProcessSource τ} {cpu : Int} {s s' : snapshot τ}
    (h : compute_loads_cpu P cpu s = Outcome.done s') : loads_only s s' := by
  unfold compute_loads_cpu at h
  split at h
  · cases h
  dsimp only at h
  split at h
  · injection h with h
    subst h
    rfl
  · cases h
  · cases h

theorem compute_loads_done {P : ProcessSource τ} {s s' : snapshot τ}
    (h : compute_loads P s = Outcome.done s') : loads_only s s' := by
  unfold compute_loads at h
  refine for_each_done_rel loads_only ?_ ?_ ?_ _ s s' h
  · intro a; rfl
  · intro a b c hab hbc
    unfold loads_only at *
    rw [hbc, hab]
  · intro x a b hx
    exact compute_loads_cpu_done hx

theorem rebuild_done {P : ProcessSource τ} {s s' : snapshot τ}
    (h : rebuild P s = Outcome.done s') :
    ∃ s1, for_each (P.records s.processes_) rebuild_step (rebuild_reset s) = Outcome.done s1 ∧
      compute_loads P (copy_to_dirty s1) = Outcome.done s' := by
  unfold rebuild at h
  split at h
  · rename_i s1 h1
    exact ⟨s1, h1, h⟩
  · cases h
  · cases h

theorem rebuild_done_frame {P : ProcessSource τ} {s s' : snapshot τ}
    (h : rebuild P s = Outcome.done s') :
    dirty_bundle s' = clean_bundle s' ∧ s'.dirty_ = s.dirty_ ∧
      s'.cpu_migrations_ = s.cpu_migrations_ ∧ s'.node_migrations_ = s.node_migrations_ ∧
      s'.processes_ = s.processes_ ∧ s'.topology_ = s.topology_ := by
  obtain ⟨s1, h1, h2⟩ := rebuild_done h
  have e1 := rebuild_loop_done h1
  have e2 := compute_loads_done h2
  unfold clean_only at e1
  unfold loads_only at e2
  rw [e2, e1]
  simp [dirty_bundle, clean_bundle, copy_to_dirty, rebuild_reset]

/-! ## Staging, rollback, update (C1, C2, C4, C5, C9, C10) -/

theorem toFinset_uset_insert (l : List Int) (p : Int) :
    (uset_insert l p).toFinset = insert p l.toFinset := by
  unfold uset_insert
  split
  · rename_i h
    rw [Finset.insert_eq_of_mem (List.mem_toFinset.2 h)]
  · ext q
    simp [or_comm]

theorem toFinset_uset_erase (l : List Int) (p : Int) :
    (uset_erase l p).toFinset = l.toFinset.erase p := by
  unfold uset_erase
  ext q
  simp [and_comm]

theorem finset_insert_erase_same (s : Finset Int) (p : Int) :
    insert p (s.erase p) = insert p s := by
  ext q
  by_cases h : q = p <;> simp [h]

theorem vec_update_at {α : Type} {v v' : List α} {i : Int} {f : α → α}
    (h : vec_update v i f = some v') : ∃ a, vec_at v i = some a := by
  obtain ⟨a, h0, ha, -⟩ := vec_update_eq_some h
  refine ⟨a, ?_⟩
  have : ¬ i < 0 := by omega
  simp [vec_at, idx, this, ha]

/-- C2. From a freshly rebuilt snapshot, for an observed pid `p` on cpu `o` and a cpu
`c ≠ o` for which `migrate_to_cpu(p, c)` returns: `pids_in_cpu(c)` is the original set plus
`p`, `pids_in_cpu(o)` is the original set minus `p`, every other CPU set is unchanged;
`pids_in_node` gains `p` on `node_from_cpu(c)`, loses it on the old node when the two nodes
differ, and is unchanged on every other node. -/
theorem migrate_to_cpu_moves_membership (P : ProcessSource τ) (s0 s s' : snapshot τ)
    (p o c : Int)
    (hclean : rebuild P s0 = Outcome.done s)
    (ho : original_processor s p = some o)
    (hc : c ≠ o)
    (hm : migrate_to_cpu P p c s = Outcome.done s') :
    ∃ node old_node cs os ns ons,
      s.topology_.node_from_cpu c = some node ∧
      original_numa_node s p = some old_node ∧
      original_pids_in_cpu s c = some cs ∧
      original_pids_in_cpu s o = some os ∧
      original_pids_in_node s node = some ns ∧
      original_pids_in_node s old_node = some ons ∧
      (pids_in_cpu s' c).map List.toFinset = some (insert p cs.toFinset) ∧
      (pids_in_cpu s' o).map List.toFinset = some (os.toFinset.erase p) ∧
      (∀ j, j ≠ c → j ≠ o → pids_in_cpu s' j = original_pids_in_cpu s j) ∧
      (pids_in_node s' node).map List.toFinset = some (insert p ns.toFinset) ∧
      (old_node ≠ node →
        (pids_in_node s' old_node).map List.toFinset = some (ons.toFinset.erase p)) ∧
      (∀ j, j ≠ node → j ≠ old_node → pids_in_node s' j = original_pids_in_node s j) := by
  obtain ⟨hbundle, -⟩ := rebuild_done_frame hclean
  simp only [dirty_bundle, clean_bundle, Prod.mk.injEq] at hbundle
  obtain ⟨e1, e2, e3, e4, -, -⟩ := hbundle
  obtain ⟨node, oc, onode, s1, hnode, hoc, hon, hs, rfl⟩ := migrate_to_cpu_done hm
  obtain ⟨m1, m2, m3, m4, u1, u2, u3, u4, h1, h2, h3, h4, -, -, -, -, rfl⟩ :=
    stage_move_done hs
  clear hm hs
  have hoc' : oc = o := by
    rw [e3] at hoc
    unfold original_processor at ho
    rw [ho] at hoc
    exact (Option.some.inj hoc).symm
  subst hoc'
  dsimp only at h1 h2
  rw [e1] at h1
  rw [e2] at h2
  obtain ⟨os, hos⟩ := vec_update_at h1
  obtain ⟨ons, hons⟩ := vec_update_at h2
  obtain ⟨cs1, hcs1⟩ := vec_update_at h3
  obtain ⟨ns1, hns1⟩ := vec_update_at h4
  have a1 := vec_at_update h1
  have a2 := vec_at_update h2
  have a3 := vec_at_update h3
  have a4 := vec_at_update h4
  have hcs : vec_at s.cpu_pid_map_ c = some cs1 := by
    rw [a1 c, if_neg hc] at hcs1
    exact hcs1
  have hoc_ne : oc ≠ c := fun h => hc h.symm
  refine ⟨node, onode, cs1, os, ?_⟩
  by_cases hn : onode = node
  · subst hn
    refine ⟨ons, ons, hnode, by unfold original_numa_node; rw [← e4]; exact hon, by exact hcs, by exact hos, by exact hons, by exact hons, ?_, ?_, ?_, ?_, ?_, ?_⟩
    · simp [pids_in_cpu, a3 c, hcs1, toFinset_uset_insert]
    · simp [pids_in_cpu, a3 oc, a1 oc, hoc_ne, hos, toFinset_uset_erase]
    · intro j hjc hjo
      simp [pids_in_cpu, original_pids_in_cpu, a3 j, a1 j, hjc, hjo]
    · simp [pids_in_node, a4 onode, a2 onode, hons, toFinset_uset_insert, toFinset_uset_erase,
        finset_insert_erase_same]
    · intro h; exact absurd rfl h
    · intro j hj _
      simp [pids_in_node, original_pids_in_node, a4 j, a2 j, hj]
  · have hns : vec_at s.node_pid_map_ node = some ns1 := by
      rw [a2 node, if_neg (fun h => hn h.symm)] at hns1
      exact hns1
    refine ⟨ns1, ons, hnode, by unfold original_numa_node; rw [← e4]; exact hon, by exact hcs, by exact hos, by exact hns, by exact hons, ?_, ?_, ?_, ?_, ?_, ?_⟩
    · simp [pids_in_cpu, a3 c, hcs1, toFinset_uset_insert]
    · simp [pids_in_cpu, a3 oc, a1 oc, hoc_ne, hos, toFinset_uset_erase]
    · intro j hjc hjo
      simp [pids_in_cpu, original_pids_in_cpu, a3 j, a1 j, hjc, hjo]
    · simp [pids_in_node, a4 node, hns1, toFinset_uset_insert]
    · intro _
      simp [pids_in_node, a4 onode, a2 onode, hn, hons, toFinset_uset_erase]
    · intro j hj hjo
      simp [pids_in_node, original_pids_in_node, a4 j, a2 j, hj, hjo]

theorem migrate_to_cpu_moves_membership_witness :
    rebuild P5 clean5 = Outcome.done clean5 ∧
    original_processor clean5 100 = some 0 ∧
    (3 : Int) ≠ 0 ∧
    migrate_to_cpu P5 100 3 clean5 = Outcome.done staged5 ∧
    (pids_in_cpu staged5 0 = some [101] ∧ pids_in_cpu staged5 3 = some [104, 100] ∧
      pids_in_node staged5 0 = some [101, 102] ∧
      pids_in_node staged5 1 = some [103, 104, 100]) ∧
    ∃ node old_node cs os ns ons,
      clean5.topology_.node_from_cpu 3 = some node ∧
      original_numa_node clean5 100 = some old_node ∧
      original_pids_in_cpu clean5 3 = some cs ∧
      original_pids_in_cpu clean5 0 = some os ∧
      original_pids_in_node clean5 node = some ns ∧
      original_pids_in_node clean5 old_node = some ons ∧
      (pids_in_cpu staged5 3).map List.toFinset = some (insert 100 cs.toFinset) ∧
      (pids_in_cpu staged5 0).map List.toFinset = some (os.toFinset.erase 100) ∧
      (∀ j, j ≠ 3 → j ≠ 0 → pids_in_cpu staged5 j = original_pids_in_cpu clean5 j) ∧
      (pids_in_node staged5 node).map List.toFinset = some (insert 100 ns.toFinset) ∧
      (old_node ≠ node →
        (pids_in_node staged5 old_node).map List.toFinset = some (ons.toFinset.erase 100)) ∧
      (∀ j, j ≠ node → j ≠ old_node →
        pids_in_node staged5 j = original_pids_in_node clean5 j) :=
  ⟨by decide!, by decide!, by decide, by decide!, by decide!,
    migrate_to_cpu_moves_membership P5 clean5 clean5 staged5 100 0 3
      (by decide!) (by decide!) (by decide) (by decide!)⟩

/-- C1. Evaluation at the failing input: on the snapshot built over `recs5` on `topo4`
(pid 100 on cpu 0, node 0), `migrate_to_cpu(100, 3)` returns, `node_from_cpu(3)` is 1, and
afterwards `processor(100)` is still 0 and `numa_node(100)` is still 0. -/
theorem migrate_to_cpu_leaves_processor_stale :
    (fresh5.andThen (migrate_to_cpu P5 100 3)).observe
        (fun s => (processor s 100, numa_node s 100, s.topology_.node_from_cpu 3)) =
      some (some 0, some 0, some 1) := by
  decide!

/-- C4 as stated fails: after `migrate_to_node(100, 1)` and then `migrate_to_cpu(100, 0)`,
both successful, `pending_node` still has the entry `100 ↦ 1`. -/
theorem migrate_to_cpu_keeps_pending_node_entry :
    ((fresh5.andThen (migrate_to_node P5 0 100 1)).andThen (migrate_to_cpu P5 100 0)).observe
        (fun s => (umap_at s.cpu_migrations_ 100, umap_at s.node_migrations_ 100, s.dirty_)) =
      some (some 0, some 1, true) := by
  decide!

/-- C4, amended. After `migrate_to_cpu(pid, cpu)` succeeds, `pending_cpu[pid] == cpu`, the
dirty flag is set, and `pending_node` is what it was before the call. -/
theorem migrate_to_cpu_pending (P : ProcessSource τ) (pid cpu : Int) (s s' : snapshot τ)
    (h : migrate_to_cpu P pid cpu s = Outcome.done s') :
    umap_at s'.cpu_migrations_ pid = some cpu ∧
      s'.node_migrations_ = s.node_migrations_ ∧ s'.dirty_ = true := by
  obtain ⟨node, oc, onode, s1, -, -, -, hs, rfl⟩ := migrate_to_cpu_done h
  obtain ⟨m1, m2, m3, m4, u1, u2, u3, u4, -, -, -, -, -, -, -, -, rfl⟩ := stage_move_done hs
  refine ⟨?_, rfl, rfl⟩
  simp [umap_at_assign]

theorem migrate_to_cpu_pending_witness :
    migrate_to_cpu P5 100 3 clean5 = Outcome.done staged5 ∧
      umap_at staged5.cpu_migrations_ 100 = some 3 ∧
      staged5.node_migrations_ = clean5.node_migrations_ ∧ staged5.dirty_ = true :=
  ⟨by decide!, migrate_to_cpu_pending P5 100 3 clean5 staged5 (by decide!)⟩

/-- C5. After `rollback()`, from any state: the six dirty members equal the clean ones,
both pending maps are empty, the dirty flag is false, and the clean bundle is the one from
before the call. -/
theorem rollback_restores_clean (s : snapshot τ) :
    dirty_bundle (rollback s) = clean_bundle (rollback s) ∧
      (rollback s).cpu_migrations_ = [] ∧ (rollback s).node_migrations_ = [] ∧
      (rollback s).dirty_ = false ∧ clean_bundle (rollback s) = clean_bundle s :=
  ⟨rfl, rfl, rfl, rfl, rfl⟩

theorem update_done {P : ProcessSource τ} {s s' : snapshot τ}
    (h : update P s = Outcome.done s') :
    ∃ p, P.update s.processes_ = Outcome.done p ∧
      rebuild P { s with processes_ := p } = Outcome.done s' := by
  unfold update at h
  split at h
  · rename_i p hp
    exact ⟨p, hp, h⟩
  · cases h
  · cases h

/-- C9 as stated fails: `update()` on the snapshot staged by `migrate_to_cpu(100, 3)`
returns with the dirty flag still true and `pending_cpu` still holding `100 ↦ 3`. -/
theorem update_keeps_staged_flag_and_pending :
    ((fresh5.andThen (migrate_to_cpu P5 100 3)).andThen (update P5)).observe
        (fun s => (s.dirty_, s.cpu_migrations_, s.node_migrations_)) =
      some (true, [(100, 3)], []) := by
  decide!

/-- C9, amended. `update()` does not touch the dirty flag or the pending maps: when it
returns they are what they were before the call (so false and empty exactly when the
snapshot was not staged), and the dirty bundle equals the clean bundle. -/
theorem update_keeps_flag_and_pending (P : ProcessSource τ) (s s' : snapshot τ)
    (h : update P s = Outcome.done s') :
    s'.dirty_ = s.dirty_ ∧ s'.cpu_migrations_ = s.cpu_migrations_ ∧
      s'.node_migrations_ = s.node_migrations_ ∧ dirty_bundle s' = clean_bundle s' := by
  obtain ⟨p, -, hr⟩ := update_done h
  obtain ⟨hb, hd, hc, hn, -, -⟩ := rebuild_done_frame hr
  exact ⟨hd, hc, hn, hb⟩

theorem update_keeps_flag_and_pending_witness :
    update P5 staged5 =
        Outcome.done { clean5 with dirty_ := true, cpu_migrations_ := [(100, 3)] } ∧
      (true = staged5.dirty_ ∧ [(100, 3)] = staged5.cpu_migrations_ ∧
        [] = staged5.node_migrations_ ∧
        dirty_bundle { clean5 with dirty_ := true, cpu_migrations_ := [(100, 3)] } =
          clean_bundle { clean5 with dirty_ := true, cpu_migrations_ := [(100, 3)] }) :=
  ⟨by decide!, update_keeps_flag_and_pending P5 staged5
    { clean5 with dirty_ := true, cpu_migrations_ := [(100, 3)] } (by decide!)⟩

/-- C10. Evaluation at the failing input: on the snapshot built over `recs5` on `topo4`,
one `migrate_to_cpu(100, 3)` leaves dirty `cpu_use` at `[249/5, 10, 10, 51/5]` and dirty
`node_use` at `[299/5, 101/5]`; the same call made twice leaves `[248/5, 10, 10, 52/5]` and
`[298/5, 102/5]`: the usage of pid 100 is taken from cpu 0 and added to cpu 3 a second
time. -/
theorem migrate_to_cpu_twice_moves_usage_twice :
    (fresh5.andThen (migrate_to_cpu P5 100 3)).observe
        (fun s => (s.dirty_cpu_use_, s.dirty_node_use_)) =
      some ([249 / 5, 10, 10, 51 / 5], [299 / 5, 101 / 5]) ∧
    ((fresh5.andThen (migrate_to_cpu P5 100 3)).andThen (migrate_to_cpu P5 100 3)).observe
        (fun s => (s.dirty_cpu_use_, s.dirty_node_use_)) =
      some ([248 / 5, 10, 10, 52 / 5], [298 / 5, 102 / 5]) := by
  decide!

/-! ## commit: the calls it makes (C7, C8) -/

theorem for_each_map {α β σ : Type} (g : α → β) (body : β → σ → Outcome σ) (xs : List α)
    (s : σ) : for_each (xs.map g) body s = for_each xs (fun x => body (g x)) s := by
  induction xs generalizing s with
  | nil => rfl
  | cons x rest ih =>
    simp only [List.map, for_each]
    split <;> simp_all

theorem for_each_append {α σ : Type} (body : α → σ → Outcome σ) (xs ys : List α) (s : σ) :
    for_each (xs ++ ys) body s = (for_each xs body s).andThen (for_each ys body) := by
  induction xs generalizing s with
  | nil => rfl
  | cons x rest ih =>
    simp only [List.cons_append, for_each]
    split
    · exact ih _
    · rfl
    · rfl

theorem pin_pid_to_cpu_eq_issue (P : ProcessSource τ) (pid cpu : Int) (s : snapshot τ) :
    pin_pid_to_cpu P pid cpu s = issue P (call.pin_to_cpu pid cpu) s := rfl

theorem pin_pid_to_node_eq_issue (P : ProcessSource τ) (pid node : Int) (s : snapshot τ) :
    pin_pid_to_node P pid node s = issue P (call.pin_to_node pid node) s := rfl

/-- A completed or failed `issue` changes `processes_` only. -/
theorem issue_frame {P : ProcessSource τ} {c : call} {s s' : snapshot τ}
    (h : issue P c s = Outcome.done s' ∨ issue P c s = Outcome.raised s') :
    s' = { s with processes_ := s'.processes_ } := by
  unfold issue at h
  split at h <;> rcases h with h | h <;> cases h <;> rfl

theorem issue_loop_frame {P : ProcessSource τ} (cs : List call) (s s' : snapshot τ)
    (h : for_each cs (issue P) s = Outcome.done s' ∨ for_each cs (issue P) s = Outcome.raised s') :
    s' = { s with processes_ := s'.processes_ } := by
  induction cs generalizing s with
  | nil =>
    simp only [for_each] at h
    rcases h with h | h
    · injection h with h; subst h; rfl
    · cases h
  | cons c rest ih =>
    simp only [for_each] at h
    split at h
    · rename_i s1 h1
      have e1 := issue_frame (Or.inl h1)
      have e2 := ih s1 h
      rw [e2, e1]
    · rename_i s1 h1
      rcases h with h | h
      · cases h
      · injection h with h
        subst h
        exact issue_frame (Or.inr h1)
    · rcases h with h | h <;> cases h

/-- The two pin loops of `commit` are one loop over `pin_calls`. -/
theorem commit_eq (P : ProcessSource τ) (s : snapshot τ) :
    commit P s =
      if s.dirty_ = false then Outcome.done s
      else
        match for_each (pin_calls s) (issue P) s with
        | Outcome.raised s2 => Outcome.raised s2
        | Outcome.undefined => Outcome.undefined
        | Outcome.done s2 =>
          update P { s2 with cpu_migrations_ := [], node_migrations_ := [], dirty_ := false } := by
  unfold commit pin_calls
  split
  · rfl
  · rw [for_each_append, for_each_map]
    have e1 : (fun e : Int × Int => pin_pid_to_cpu P e.1 e.2) =
        fun e => issue P (call.pin_to_cpu e.1 e.2) := rfl
    have e2 : (fun e : Int × Int => pin_pid_to_node P e.1 e.2) =
        fun e => issue P (call.pin_to_node e.1 e.2) := rfl
    rw [e1, e2]
    cases h1 : for_each s.cpu_migrations_ (fun e => issue P (call.pin_to_cpu e.1 e.2)) s with
    | done s1 =>
      have hs1 : s1 = { s with processes_ := s1.processes_ } := by
        rw [← for_each_map (fun e : Int × Int => call.pin_to_cpu e.1 e.2) (issue P)] at h1
        exact issue_loop_frame _ s s1 (Or.inl h1)
      have hn : s1.node_migrations_ = s.node_migrations_ := by rw [hs1]
      simp only [Outcome.andThen]
      rw [for_each_map, hn]
    | raised s1 => rfl
    | undefined => rfl

theorem apply_call_journaled (P : ProcessSource τ) (c : call) (p : τ × List call) :
    apply_call (journaled P) c p =
      match apply_call P c p.1 with
      | Outcome.done q => Outcome.done (q, p.2 ++ [c])
      | Outcome.raised q => Outcome.raised (q, p.2 ++ [c])
      | Outcome.undefined => Outcome.undefined := by
  cases c <;> rfl

theorem journal_loop_done (P : ProcessSource τ) (cs : List call)
    (s s' : snapshot (τ × List call))
    (h : for_each cs (issue (journaled P)) s = Outcome.done s') :
    s'.processes_.2 = s.processes_.2 ++ cs := by
  induction cs generalizing s with
  | nil =>
    simp only [for_each] at h
    injection h with h
    subst h
    simp
  | cons c rest ih =>
    simp only [for_each] at h
    split at h
    · rename_i s1 h1
      rw [ih s1 h]
      unfold issue at h1
      rw [apply_call_journaled] at h1
      cases h2 : apply_call P c s.processes_.1 with
      | done q =>
        rw [h2] at h1
        injection h1 with h1
        subst h1
        simp
      | raised q => rw [h2] at h1; cases h1
      | undefined => rw [h2] at h1; cases h1
    · cases h
    · cases h

theorem sim_done (P : ProcessSource τ) (cs : List call) (s : snapshot (τ × List call)) (q : τ)
    (h : for_each cs (apply_call P) s.processes_.1 = Outcome.done q) :
    for_each cs (issue (journaled P)) s =
      Outcome.done { s with processes_ := (q, s.processes_.2 ++ cs) } := by
  induction cs generalizing s with
  | nil =>
    simp only [for_each] at h
    injection h with h
    subst h
    simp [for_each]
  | cons c rest ih =>
    simp only [for_each] at h
    cases h2 : apply_call P c s.processes_.1 with
    | done q1 =>
      rw [h2] at h
      simp only at h
      have hi : issue (journaled P) c s =
          Outcome.done { s with processes_ := (q1, s.processes_.2 ++ [c]) } := by
        unfold issue
        rw [apply_call_journaled, h2]
      simp only [for_each, hi]
      rw [ih { s with processes_ := (q1, s.processes_.2 ++ [c]) } h]
      simp
    | raised q1 => rw [h2] at h; cases h
    | undefined => rw [h2] at h; cases h

theorem sim_raised (P : ProcessSource τ) (pre post : List call) (x : call)
    (s : snapshot (τ × List call)) (q q' : τ)
    (hpre : for_each pre (apply_call P) s.processes_.1 = Outcome.done q)
    (hx : apply_call P x q = Outcome.raised q') :
    for_each (pre ++ x :: post) (issue (journaled P)) s =
      Outcome.raised { s with processes_ := (q', s.processes_.2 ++ pre ++ [x]) } := by
  rw [for_each_append, sim_done P pre s q hpre]
  simp only [Outcome.andThen, for_each]
  have hi : issue (journaled P) x { s with processes_ := (q, s.processes_.2 ++ pre) } =
      Outcome.raised { s with processes_ := (q', s.processes_.2 ++ pre ++ [x]) } := by
    unfold issue
    rw [apply_call_journaled]
    simp only [hx]
  rw [hi]

/-- C7. For a dirty snapshot, the calls a successful `commit()` makes to the process source
are, in this order: one `pin_to_cpu(pid, cpu)` per entry of `pending_cpu`, then one
`pin_to_node(pid, node)` per entry of `pending_node`, then one `update()`. -/
theorem commit_call_sequence (P : ProcessSource τ) (s s' : snapshot (τ × List call))
    (hd : s.dirty_ = true) (h : commit (journaled P) s = Outcome.done s') :
    s'.processes_.2 =
      s.processes_.2 ++ s.cpu_migrations_.map (fun e => call.pin_to_cpu e.1 e.2) ++
        s.node_migrations_.map (fun e => call.pin_to_node e.1 e.2) ++ [call.update] := by
  rw [commit_eq] at h
  simp only [hd, Bool.true_eq_false, if_false] at h
  split at h
  · cases h
  · cases h
  · rename_i s2 h2
    have hj := journal_loop_done P _ s s2 h2
    obtain ⟨p, hp, hr⟩ := update_done h
    obtain ⟨-, -, -, -, hproc, -⟩ := rebuild_done_frame hr
    rw [hproc]
    simp only at hp ⊢
    have : p.2 = s2.processes_.2 ++ [call.update] := by
      have hp' : apply_call (journaled P) call.update s2.processes_ = Outcome.done p := hp
      rw [apply_call_journaled] at hp'
      split at hp'
      · injection hp' with hp'
        subst hp'
        rfl
      · cases hp'
      · cases hp'
    rw [this, hj]
    simp [pin_calls, List.append_assoc]

/-- C8. When a pin call of `commit()` fails (the pins `pre` succeed and the next pin `x`
throws), `commit()` fails; the process source has received the pins `pre` and `x` and
nothing after them; and the snapshot is as before the call but for its process source: the
dirty flag is still true, the pending maps and both bundles are unchanged. -/
theorem commit_pin_failure (P : ProcessSource τ) (s : snapshot (τ × List call))
    (pre post : List call) (x : call) (q q' : τ)
    (hd : s.dirty_ = true)
    (hsplit : pin_calls s = pre ++ x :: post)
    (hpre : for_each pre (apply_call P) s.processes_.1 = Outcome.done q)
    (hx : apply_call P x q = Outcome.raised q') :
    commit (journaled P) s =
      Outcome.raised { s with processes_ := (q', s.processes_.2 ++ pre ++ [x]) } := by
  rw [commit_eq]
  simp only [hd, Bool.true_eq_false, if_false]
  rw [hsplit, sim_raised P pre post x s q q' hpre hx]
  simp [hd]

/-- The three staging calls on `clean5` return with `staged3`. -/
theorem staged3_eq :
    (((Outcome.done clean5).andThen (migrate_to_cpu P5 101 1)).andThen
      (migrate_to_cpu P5 100 3)).andThen (migrate_to_node P5 0 102 1) =
      Outcome.done staged3 := by
  decide!

theorem commit_call_sequence_witness :
    (with_journal staged5 []).dirty_ = true ∧
    commit (journaled P5) (with_journal staged5 []) =
      Outcome.done (with_journal committed5 [call.pin_to_cpu 100 3, call.update]) ∧
    (with_journal committed5 [call.pin_to_cpu 100 3, call.update]).processes_.2 =
      (with_journal staged5 []).processes_.2 ++
        (with_journal staged5 []).cpu_migrations_.map (fun e => call.pin_to_cpu e.1 e.2) ++
        (with_journal staged5 []).node_migrations_.map (fun e => call.pin_to_node e.1 e.2) ++
        [call.update] :=
  ⟨by decide, by decide!,
    commit_call_sequence P5 (with_journal staged5 [])
      (with_journal committed5 [call.pin_to_cpu 100 3, call.update]) (by decide) (by decide!)⟩

theorem commit_pin_failure_witness :
    (with_journal staged3 []).dirty_ = true ∧
    pin_calls (with_journal staged3 []) =
      [call.pin_to_cpu 101 1] ++ call.pin_to_cpu 100 3 :: [call.pin_to_node 102 1] ∧
    for_each [call.pin_to_cpu 101 1] (apply_call (stub_source topo2))
      (with_journal staged3 []).processes_.1 = Outcome.done recs5_pinned ∧
    apply_call (stub_source topo2) (call.pin_to_cpu 100 3) recs5_pinned =
      Outcome.raised recs5_pinned ∧
    commit (journaled (stub_source topo2)) (with_journal staged3 []) =
      Outcome.raised { with_journal staged3 [] with
        processes_ := (recs5_pinned,
          (with_journal staged3 []).processes_.2 ++ [call.pin_to_cpu 101 1] ++
            [call.pin_to_cpu 100 3]) } :=
  ⟨by decide, by decide, by decide!, by decide!,
    commit_pin_failure (stub_source topo2) (with_journal staged3 [])
      [call.pin_to_cpu 101 1] [call.pin_to_node 102 1] (call.pin_to_cpu 100 3)
      recs5_pinned recs5_pinned (by decide) (by decide) (by decide!) (by decide!)⟩

/-! ## Pending maps and loops: further lemmas -/

theorem mem_keys_assign {β : Type} (m : List (Int × β)) (k : Int) (v : β) (k' : Int) :
    k' ∈ umap_keys (umap_assign m k v) ↔ k' = k ∨ k' ∈ umap_keys m := by
  induction m with
  | nil => simp [umap_assign, umap_keys]
  | cons e rest ih =>
    obtain ⟨a, b⟩ := e
    unfold umap_keys at ih ⊢
    by_cases h : a = k
    · subst h
      simp [umap_assign]
    · simp only [umap_assign, h, if_false, List.map_cons, List.mem_cons, ih]
      tauto

theorem nodup_keys_assign {β : Type} (m : List (Int × β)) (k : Int) (v : β)
    (h : (umap_keys m).Nodup) : (umap_keys (umap_assign m k v)).Nodup := by
  induction m with
  | nil => simp [umap_assign, umap_keys]
  | cons e rest ih =>
    obtain ⟨a, b⟩ := e
    have h' : a ∉ umap_keys rest ∧ (umap_keys rest).Nodup := by
      simpa [umap_keys] using h
    by_cases hk : a = k
    · subst hk
      simpa [umap_assign, umap_keys] using h
    · have hna : a ∉ umap_keys (umap_assign rest k v) := by
        rw [mem_keys_assign]
        intro hc
        rcases hc with hc | hc
        · exact hk hc
        · exact h'.1 hc
      have := ih h'.2
      simp only [umap_assign, hk, if_false]
      simp only [umap_keys, List.map_cons, List.nodup_cons]
      exact ⟨hna, this⟩

theorem umap_at_none {β : Type} {m : List (Int × β)} {k : Int} (h : umap_at m k = none) :
    k ∉ umap_keys m := by
  induction m with
  | nil => simp [umap_keys]
  | cons e rest ih =>
    obtain ⟨a, b⟩ := e
    simp only [umap_at] at h
    split at h
    · cases h
    · rename_i hne
      simp only [umap_keys, List.map_cons, List.mem_cons, not_or]
      exact ⟨fun hc => hne hc.symm, ih h⟩

theorem umap_at_some_mem {β : Type} {m : List (Int × β)} {k : Int} {v : β}
    (h : umap_at m k = some v) : k ∈ umap_keys m := by
  by_contra hc
  induction m with
  | nil => simp [umap_at] at h
  | cons e rest ih =>
    obtain ⟨a, b⟩ := e
    simp only [umap_keys, List.map_cons, List.mem_cons, not_or] at hc
    simp only [umap_at] at h
    split at h
    · rename_i he
      exact hc.1 he.symm
    · exact ih h hc.2

theorem umap_at_split {β : Type} {m : List (Int × β)} {k : Int} {v : β}
    (h : umap_at m k = some v) (hn : (umap_keys m).Nodup) :
    ∃ A B, m = A ++ (k, v) :: B ∧ k ∉ umap_keys B := by
  induction m with
  | nil => simp [umap_at] at h
  | cons e rest ih =>
    obtain ⟨a, b⟩ := e
    have h' : a ∉ umap_keys rest ∧ (umap_keys rest).Nodup := by
      simpa [umap_keys] using hn
    simp only [umap_at] at h
    split at h
    · rename_i he
      subst he
      injection h with h
      subst h
      exact ⟨[], rest, rfl, h'.1⟩
    · obtain ⟨A, B, hAB, hB⟩ := ih h h'.2
      exact ⟨(a, b) :: A, B, by rw [hAB]; rfl, hB⟩

theorem for_each_append_done {α σ : Type} {body : α → σ → Outcome σ} {xs ys : List α}
    {s s' : σ} (h : for_each (xs ++ ys) body s = Outcome.done s') :
    ∃ m, for_each xs body s = Outcome.done m ∧ for_each ys body m = Outcome.done s' := by
  rw [for_each_append] at h
  cases h1 : for_each xs body s with
  | done m =>
    rw [h1] at h
    exact ⟨m, rfl, h⟩
  | raised m => rw [h1] at h; cases h
  | undefined => rw [h1] at h; cases h

theorem for_each_cons_done {α σ : Type} {body : α → σ → Outcome σ} {x : α} {xs : List α}
    {s s' : σ} (h : for_each (x :: xs) body s = Outcome.done s') :
    ∃ m, body x s = Outcome.done m ∧ for_each xs body m = Outcome.done s' := by
  simp only [for_each] at h
  split at h
  · rename_i m hm
    exact ⟨m, hm, h⟩
  · cases h
  · cases h

/-! ## The stub process source -/

/-- What a completed call to the stub source does to the records: it maps a function over
them which keeps every pid, leaves the records of a pid the call does not target as they
are, and puts the records of the targeted pid on the CPU, or on the node, of the pin. -/
theorem stub_apply_done {t : topology} {c : call} {recs recs' : List process}
    (h : apply_call (stub_source t) c recs = Outcome.done recs') :
    ∃ f : process → process, recs' = recs.map f ∧ (∀ r, (f r).pid = r.pid) ∧
      (∀ pid, ¬ targets c pid → ∀ r, r.pid = pid → f r = r) ∧
      (∀ pid cpu, c = call.pin_to_cpu pid cpu → ∀ r, r.pid = pid → (f r).processor = cpu) ∧
      (∀ pid node, c = call.pin_to_node pid node → ∀ r, r.pid = pid → (f r).numa_node = node) := by
  cases c with
  | pin_to_cpu p cpu =>
    simp only [apply_call, stub_source] at h
    split at h
    · cases h
    · rename_i node hnode
      injection h with h
      refine ⟨_, h.symm, ?_, ?_, ?_, ?_⟩
      · intro r
        by_cases hr : r.pid = p <;> simp [hr]
      · intro pid ht r hr
        have : ¬ r.pid = p := fun hc => ht (by simp only [targets]; rw [← hc, hr])
        simp [this]
      · intro pid cpu' hc r hr
        injection hc with h1 h2
        subst h1 h2
        simp [hr]
      · intro pid node' hc
        cases hc
  | pin_to_node p node =>
    simp only [apply_call, stub_source] at h
    split at h
    · rename_i cpu rest hcpus
      injection h with h
      refine ⟨_, h.symm, ?_, ?_, ?_, ?_⟩
      · intro r
        by_cases hr : r.pid = p <;> simp [hr]
      · intro pid ht r hr
        have : ¬ r.pid = p := fun hc => ht (by simp only [targets]; rw [← hc, hr])
        simp [this]
      · intro pid cpu' hc
        cases hc
      · intro pid node' hc r hr
        injection hc with h1 h2
        subst h1 h2
        simp [hr]
    · cases h
  | update =>
    simp only [apply_call, stub_source] at h
    injection h with h
    refine ⟨id, by simp [h], fun _ => rfl, fun _ _ _ _ => rfl, ?_, ?_⟩
    · intro pid cpu hc
      cases hc
    · intro pid node hc
      cases hc

/-- A loop of calls on the stub source keeps the pids that have a record. -/
theorem stub_loop_keeps_pid {t : topology} (pid : Int) (cs : List call)
    (recs recs' : List process)
    (h : for_each cs (apply_call (stub_source t)) recs = Outcome.done recs')
    (he : ∃ r ∈ recs, r.pid = pid) : ∃ r ∈ recs', r.pid = pid := by
  induction cs generalizing recs with
  | nil =>
    simp only [for_each] at h
    injection h with h
    subst h
    exact he
  | cons c rest ih =>
    obtain ⟨m, hm, hrest⟩ := for_each_cons_done h
    apply ih m hrest
    obtain ⟨f, rfl, hpid, -⟩ := stub_apply_done hm
    obtain ⟨r, hr, hrp⟩ := he
    exact ⟨f r, List.mem_map_of_mem f hr, by rw [hpid, hrp]⟩

/-- A loop of calls none of which targets `pid` keeps what holds of the records of `pid`. -/
theorem stub_loop_keeps {t : topology} (pid : Int) (Q : process → Prop) (cs : List call)
    (recs recs' : List process)
    (h : for_each cs (apply_call (stub_source t)) recs = Outcome.done recs')
    (hcs : ∀ c ∈ cs, ¬ targets c pid)
    (hq : ∀ r ∈ recs, r.pid = pid → Q r) : ∀ r ∈ recs', r.pid = pid → Q r := by
  induction cs generalizing recs with
  | nil =>
    simp only [for_each] at h
    injection h with h
    subst h
    exact hq
  | cons c rest ih =>
    obtain ⟨m, hm, hrest⟩ := for_each_cons_done h
    apply ih m hrest (fun c' hc' => hcs c' (List.mem_cons_of_mem _ hc'))
    obtain ⟨f, rfl, hpid, hkeep, -⟩ := stub_apply_done hm
    intro r hr hrp
    obtain ⟨r0, hr0, rfl⟩ := List.mem_map.1 hr
    have hp0 : r0.pid = pid := by rw [← hpid r0]; exact hrp
    rw [hkeep pid (hcs c (List.mem_cons_self _ _)) r0 hp0]
    exact hq r0 hr0 hp0

/-- After a loop of calls on the stub source in which `c` is the last call that targets
`pid`, the records of `pid` are as `c` leaves them. -/
theorem stub_loop_last_pin {t : topology} (pid : Int) (Q : process → Prop)
    (pre post : List call) (c : call) (recs recs' : List process)
    (h : for_each (pre ++ c :: post) (apply_call (stub_source t)) recs = Outcome.done recs')
    (hpost : ∀ c' ∈ post, ¬ targets c' pid)
    (hc : ∀ mid mid', apply_call (stub_source t) c mid = Outcome.done mid' →
      ∀ r ∈ mid', r.pid = pid → Q r) :
    ∀ r ∈ recs', r.pid = pid → Q r := by
  obtain ⟨m1, -, h2⟩ := for_each_append_done h
  obtain ⟨m2, hm2, h3⟩ := for_each_cons_done h2
  exact stub_loop_keeps pid Q post m2 recs' h3 hpost (hc m1 m2 hm2)

/-! ## rebuild: the pid maps it builds -/

theorem rebuild_step_maps {proc : process} {s s' : snapshot τ}
    (h : rebuild_step proc s = Outcome.done s') :
    s'.pid_cpu_map_ = umap_assign s.pid_cpu_map_ proc.pid proc.processor ∧
      s'.pid_node_map_ = umap_assign s.pid_node_map_ proc.pid proc.numa_node := by
  unfold rebuild_step at h
  dsimp only at h
  split at h
  · cases h
  try dsimp only at h
  split at h
  · cases h
  try dsimp only at h
  split at h
  · cases h
  try dsimp only at h
  split at h
  · cases h
  injection h with h
  subst h
  exact ⟨rfl, rfl⟩

/-- After the loop of `rebuild`, a pid with a record is mapped to the CPU and to the node
that all its records agree on. -/
theorem rebuild_loop_lookup (pid : Int) (recs : List process) (s s' : snapshot τ)
    (h : for_each recs rebuild_step s = Outcome.done s') :
    (∀ c, (umap_at s.pid_cpu_map_ pid = some c ∨ ∃ r ∈ recs, r.pid = pid) →
      (∀ r ∈ recs, r.pid = pid → r.processor = c) → umap_at s'.pid_cpu_map_ pid = some c) ∧
    (∀ n, (umap_at s.pid_node_map_ pid = some n ∨ ∃ r ∈ recs, r.pid = pid) →
      (∀ r ∈ recs, r.pid = pid → r.numa_node = n) → umap_at s'.pid_node_map_ pid = some n) := by
  induction recs generalizing s with
  | nil =>
    simp only [for_each] at h
    injection h with h
    subst h
    constructor
    · intro c hc _
      rcases hc with hc | ⟨r, hr, -⟩
      · exact hc
      · cases hr
    · intro n hn _
      rcases hn with hn | ⟨r, hr, -⟩
      · exact hn
      · cases hr
  | cons r rest ih =>
    obtain ⟨m, hm, hrest⟩ := for_each_cons_done h
    obtain ⟨e1, e2⟩ := rebuild_step_maps hm
    obtain ⟨ih1, ih2⟩ := ih m hrest
    constructor
    · intro c hc hall
      apply ih1 c ?_ (fun r' hr' => hall r' (List.mem_cons_of_mem _ hr'))
      rw [e1, umap_at_assign]
      by_cases hp : r.pid = pid
      · left
        rw [if_pos hp, hall r (List.mem_cons_self _ _) hp]
      · rw [if_neg hp]
        rcases hc with hc | ⟨r', hr', hrp⟩
        · exact Or.inl hc
        · rcases List.mem_cons.1 hr' with hr' | hr'
          · subst hr'
            exact absurd hrp hp
          · exact Or.inr ⟨r', hr', hrp⟩
    · intro n hn hall
      apply ih2 n ?_ (fun r' hr' => hall r' (List.mem_cons_of_mem _ hr'))
      rw [e2, umap_at_assign]
      by_cases hp : r.pid = pid
      · left
        rw [if_pos hp, hall r (List.mem_cons_self _ _) hp]
      · rw [if_neg hp]
        rcases hn with hn | ⟨r', hr', hrp⟩
        · exact Or.inl hn
        · rcases List.mem_cons.1 hr' with hr' | hr'
          · subst hr'
            exact absurd hrp hp
          · exact Or.inr ⟨r', hr', hrp⟩

/-- After the loop of `rebuild`, a pid in the pid-to-CPU map was there before or has a
record. -/
theorem rebuild_loop_keys (pid : Int) (recs : List process) (s s' : snapshot τ)
    (h : for_each recs rebuild_step s = Outcome.done s')
    (hk : umap_at s'.pid_cpu_map_ pid ≠ none) :
    umap_at s.pid_cpu_map_ pid ≠ none ∨ ∃ r ∈ recs, r.pid = pid := by
  induction recs generalizing s with
  | nil =>
    simp only [for_each] at h
    injection h with h
    subst h
    exact Or.inl hk
  | cons r rest ih =>
    obtain ⟨m, hm, hrest⟩ := for_each_cons_done h
    obtain ⟨e1, -⟩ := rebuild_step_maps hm
    rcases ih m hrest with h1 | ⟨r', hr', hrp⟩
    · rw [e1, umap_at_assign] at h1
      by_cases hp : r.pid = pid
      · exact Or.inr ⟨r, List.mem_cons_self _ _, hp⟩
      · rw [if_neg hp] at h1
        exact Or.inl h1
    · exact Or.inr ⟨r', List.mem_cons_of_mem _ hr', hrp⟩

/-- The clean pid maps that `rebuild` returns with are those its loop built. -/
theorem rebuild_done_maps {P : ProcessSource τ} {s s' : snapshot τ}
    (h : rebuild P s = Outcome.done s') :
    ∃ s1, for_each (P.records s.processes_) rebuild_step (rebuild_reset s) = Outcome.done s1 ∧
      s'.pid_cpu_map_ = s1.pid_cpu_map_ ∧ s'.pid_node_map_ = s1.pid_node_map_ := by
  obtain ⟨s1, h1, h2⟩ := rebuild_done h
  have e2 := compute_loads_done h2
  unfold loads_only at e2
  refine ⟨s1, h1, ?_, ?_⟩
  · rw [e2]; rfl
  · rw [e2]; rfl

/-! ## commit with the stub process source (C6) -/

theorem staged_ok_rebuilt {P : ProcessSource τ} {s0 sc : snapshot τ}
    (h : rebuild P s0 = Outcome.done sc)
    (he : sc.cpu_migrations_ = [] ∧ sc.node_migrations_ = []) : staged_ok P sc := by
  obtain ⟨hb, -, -, -, hproc, -⟩ := rebuild_done_frame h
  obtain ⟨s1, h1, e1, -⟩ := rebuild_done_maps h
  simp only [dirty_bundle, clean_bundle, Prod.mk.injEq] at hb
  refine ⟨by rw [he.1]; exact List.nodup_nil, by rw [he.2]; exact List.nodup_nil, ?_, ?_⟩
  · intro k hk
    rw [he.1, he.2] at hk
    simp [umap_keys] at hk
  · intro k hk
    rw [hb.2.2.1, e1] at hk
    rcases rebuild_loop_keys k _ _ _ h1 hk with h2 | h2
    · exact absurd rfl h2
    · rw [hproc]
      exact h2

theorem staged_ok_stage {P : ProcessSource τ} {c : staging} {s s' : snapshot τ}
    (hs : staged_ok P s) (h : stage P c s = Outcome.done s') : staged_ok P s' := by
  obtain ⟨n1, n2, hk, hr⟩ := hs
  cases c with
  | to_cpu pid cpu =>
    obtain ⟨node, oc, onode, s1, -, hoc, -, hmove, rfl⟩ := migrate_to_cpu_done h
    obtain ⟨m1, m2, m3, m4, u1, u2, u3, u4, -, -, -, -, -, -, -, -, rfl⟩ :=
      stage_move_done hmove
    refine ⟨nodup_keys_assign _ _ _ n1, n2, ?_, hr⟩
    intro k hkk
    refine ⟨rfl, ?_⟩
    rcases hkk with hkk | hkk
    · rcases (mem_keys_assign _ _ _ _).1 hkk with hkk | hkk
      · subst hkk
        show umap_at s.dirty_pid_cpu_map_ k ≠ none
        rw [hoc]
        exact Option.some_ne_none _
      · exact (hk k (Or.inl hkk)).2
    · exact (hk k (Or.inr hkk)).2
  | to_node draw pid node =>
    obtain ⟨cpus, cpu, oc, onode, s1, -, -, hoc, -, hmove, rfl⟩ := migrate_to_node_done h
    obtain ⟨m1, m2, m3, m4, u1, u2, u3, u4, -, -, -, -, -, -, -, -, rfl⟩ :=
      stage_move_done hmove
    refine ⟨n1, nodup_keys_assign _ _ _ n2, ?_, hr⟩
    intro k hkk
    refine ⟨rfl, ?_⟩
    rcases hkk with hkk | hkk
    · exact (hk k (Or.inl hkk)).2
    · rcases (mem_keys_assign _ _ _ _).1 hkk with hkk | hkk
      · subst hkk
        show umap_at s.dirty_pid_cpu_map_ k ≠ none
        rw [hoc]
        exact Option.some_ne_none _
      · exact (hk k (Or.inr hkk)).2

theorem staged_ok_run {P : ProcessSource τ} (cmds : List staging) (s s' : snapshot τ)
    (h : for_each cmds (stage P) s = Outcome.done s') (hs : staged_ok P s) :
    staged_ok P s' :=
  for_each_done_rel (fun a b => staged_ok P a → staged_ok P b)
    (fun _ ha => ha) (fun _ _ _ hab hbc ha => hbc (hab ha))
    (fun _ _ _ hx ha => staged_ok_stage ha hx) cmds s s' h hs

theorem issue_loop_apply {P : ProcessSource τ} (cs : List call) (s s2 : snapshot τ)
    (h : for_each cs (issue P) s = Outcome.done s2) :
    for_each cs (apply_call P) s.processes_ = Outcome.done s2.processes_ := by
  induction cs generalizing s with
  | nil =>
    simp only [for_each] at h
    injection h with h
    subst h
    rfl
  | cons c rest ih =>
    obtain ⟨m, hm, hrest⟩ := for_each_cons_done h
    unfold issue at hm
    cases hp : apply_call P c s.processes_ with
    | done p =>
      rw [hp] at hm
      injection hm with hm
      subst hm
      simp only [for_each, hp]
      exact ih _ hrest
    | raised p => rw [hp] at hm; cases hm
    | undefined => rw [hp] at hm; cases hm

/-- A successful `commit()` of a dirty snapshot over the stub source: the pins are applied
to the records, and the clean pid maps are rebuilt from the records so obtained. -/
theorem commit_stub_done {t : topology} {s s' : snapshot (List process)}
    (hd : s.dirty_ = true) (h : commit (stub_source t) s = Outcome.done s') :
    ∃ (recs2 : List process) (s0 s1 : snapshot (List process)),
      for_each (pin_calls s) (apply_call (stub_source t)) s.processes_ = Outcome.done recs2 ∧
      for_each recs2 rebuild_step s0 = Outcome.done s1 ∧
      s'.pid_cpu_map_ = s1.pid_cpu_map_ ∧ s'.pid_node_map_ = s1.pid_node_map_ := by
  rw [commit_eq] at h
  simp only [hd, Bool.true_eq_false, if_false] at h
  split at h
  · cases h
  · cases h
  · rename_i s2 h2
    obtain ⟨p, hp, hr⟩ := update_done h
    have hp' : p = s2.processes_ := by
      simp only [stub_source] at hp
      injection hp with hp
      exact hp.symm
    subst hp'
    obtain ⟨s1, h1, e1, e2⟩ := rebuild_done_maps hr
    exact ⟨s2.processes_, _, s1, issue_loop_apply _ s s2 h2, h1, e1, e2⟩

theorem stub_pin_to_node_sets {t : topology} (pid node : Int) (mid mid' : List process)
    (h : apply_call (stub_source t) (call.pin_to_node pid node) mid = Outcome.done mid') :
    ∀ r ∈ mid', r.pid = pid → r.numa_node = node := by
  obtain ⟨f, rfl, hpid, -, -, hnode⟩ := stub_apply_done h
  intro r hr hrp
  obtain ⟨r0, -, rfl⟩ := List.mem_map.1 hr
  exact hnode pid node rfl r0 (by rw [← hpid r0]; exact hrp)

theorem stub_pin_to_cpu_sets {t : topology} (pid cpu : Int) (mid mid' : List process)
    (h : apply_call (stub_source t) (call.pin_to_cpu pid cpu) mid = Outcome.done mid') :
    ∀ r ∈ mid', r.pid = pid → r.processor = cpu := by
  obtain ⟨f, rfl, hpid, -, hcpu, -⟩ := stub_apply_done h
  intro r hr hrp
  obtain ⟨r0, -, rfl⟩ := List.mem_map.1 hr
  exact hcpu pid cpu rfl r0 (by rw [← hpid r0]; exact hrp)

theorem no_cpu_pin_targets {pid : Int} {B : List (Int × Int)} (hB : pid ∉ umap_keys B) :
    ∀ c ∈ B.map (fun e => call.pin_to_cpu e.1 e.2), ¬ targets c pid := by
  intro c hc ht
  obtain ⟨e, he, rfl⟩ := List.mem_map.1 hc
  simp only [targets] at ht
  exact hB (by rw [← ht]; exact List.mem_map_of_mem Prod.fst he)

theorem no_node_pin_targets {pid : Int} {B : List (Int × Int)} (hB : pid ∉ umap_keys B) :
    ∀ c ∈ B.map (fun e => call.pin_to_node e.1 e.2), ¬ targets c pid := by
  intro c hc ht
  obtain ⟨e, he, rfl⟩ := List.mem_map.1 hc
  simp only [targets] at ht
  exact hB (by rw [← ht]; exact List.mem_map_of_mem Prod.fst he)

/-- C6 as stated fails: with the stub source, after `migrate_to_cpu(100, 3)` and
`migrate_to_node(100, 0)` the entry `100 ↦ 3` is in `pending_cpu`, `commit()` succeeds, and
`original_processor(100)` is 0, not 3: the node pin of pid 100 is applied after its CPU
pin. -/
theorem commit_node_pin_overrides_cpu_pin :
    ((fresh5.andThen (migrate_to_cpu P5 100 3)).andThen (migrate_to_node P5 0 100 0)).observe
        (fun s => (umap_at s.cpu_migrations_ 100, umap_at s.node_migrations_ 100)) =
      some (some 3, some 0) ∧
    (((fresh5.andThen (migrate_to_cpu P5 100 3)).andThen (migrate_to_node P5 0 100 0)).andThen
        (commit P5)).observe (fun s => (original_processor s 100, original_numa_node s 100)) =
      some (some 0, some 0) := by
  decide!

/-- C6, amended. With the stub process source, for every sequence of `migrate_to_cpu` /
`migrate_to_node` calls staged on a rebuilt snapshot with nothing pending: after `commit()`
succeeds, `original_numa_node(pid) == node` for every `(pid, node)` that was in
`pending_node`, and `original_processor(pid) == cpu` for every `(pid, cpu)` that was in
`pending_cpu` and whose pid had no entry in `pending_node`. -/
theorem commit_applies_pending (t : topology) (s0 sc s s' : snapshot (List process))
    (cmds : List staging) (pid : Int)
    (hstart : rebuild (stub_source t) s0 = Outcome.done sc)
    (hempty : sc.cpu_migrations_ = [] ∧ sc.node_migrations_ = [])
    (hrun : for_each cmds (stage (stub_source t)) sc = Outcome.done s)
    (hcommit : commit (stub_source t) s = Outcome.done s') :
    (∀ node, umap_at s.node_migrations_ pid = some node →
      original_numa_node s' pid = some node) ∧
    (∀ cpu, umap_at s.cpu_migrations_ pid = some cpu →
      umap_at s.node_migrations_ pid = none → original_processor s' pid = some cpu) := by
  obtain ⟨n1, n2, hk, hrec⟩ := staged_ok_run cmds sc s hrun (staged_ok_rebuilt hstart hempty)
  constructor
  · intro node hn
    obtain ⟨hd, hknown⟩ := hk pid (Or.inr (umap_at_some_mem hn))
    obtain ⟨r, hr, hrp⟩ := hrec pid hknown
    obtain ⟨recs2, s0', s1, hpins, hloop, -, e2⟩ := commit_stub_done hd hcommit
    obtain ⟨A, B, hAB, hB⟩ := umap_at_split hn n2
    have hcalls : pin_calls s =
        (s.cpu_migrations_.map (fun e => call.pin_to_cpu e.1 e.2) ++
          A.map (fun e => call.pin_to_node e.1 e.2)) ++
        call.pin_to_node pid node :: B.map (fun e => call.pin_to_node e.1 e.2) := by
      simp [pin_calls, hAB]
    rw [hcalls] at hpins
    have hall := stub_loop_last_pin pid (fun r => r.numa_node = node) _ _ _ _ _ hpins
      (no_node_pin_targets hB) (stub_pin_to_node_sets pid node)
    have hex := stub_loop_keeps_pid pid _ _ _ hpins ⟨r, hr, hrp⟩
    unfold original_numa_node
    rw [e2]
    exact (rebuild_loop_lookup pid recs2 s0' s1 hloop).2 node (Or.inr hex) hall
  · intro cpu hc hnone
    obtain ⟨hd, hknown⟩ := hk pid (Or.inl (umap_at_some_mem hc))
    obtain ⟨r, hr, hrp⟩ := hrec pid hknown
    obtain ⟨recs2, s0', s1, hpins, hloop, e1, -⟩ := commit_stub_done hd hcommit
    obtain ⟨A, B, hAB, hB⟩ := umap_at_split hc n1
    have hcalls : pin_calls s =
        A.map (fun e => call.pin_to_cpu e.1 e.2) ++
        call.pin_to_cpu pid cpu :: (B.map (fun e => call.pin_to_cpu e.1 e.2) ++
          s.node_migrations_.map (fun e => call.pin_to_node e.1 e.2)) := by
      simp [pin_calls, hAB]
    rw [hcalls] at hpins
    have hpost : ∀ c' ∈ B.map (fun e => call.pin_to_cpu e.1 e.2) ++
        s.node_migrations_.map (fun e => call.pin_to_node e.1 e.2), ¬ targets c' pid := by
      intro c' hc'
      rcases List.mem_append.1 hc' with h1 | h1
      · exact no_cpu_pin_targets hB c' h1
      · exact no_node_pin_targets (umap_at_none hnone) c' h1
    have hall := stub_loop_last_pin pid (fun r => r.processor = cpu) _ _ _ _ _ hpins
      hpost (stub_pin_to_cpu_sets pid cpu)
    have hex := stub_loop_keeps_pid pid _ _ _ hpins ⟨r, hr, hrp⟩
    unfold original_processor
    rw [e1]
    exact (rebuild_loop_lookup pid recs2 s0' s1 hloop).1 cpu (Or.inr hex) hall

theorem commit_applies_pending_witness :
    rebuild (stub_source topo4) clean5 = Outcome.done clean5 ∧
    (clean5.cpu_migrations_ = [] ∧ clean5.node_migrations_ = []) ∧
    for_each [staging.to_cpu 100 3] (stage (stub_source topo4)) clean5 = Outcome.done staged5 ∧
    commit (stub_source topo4) staged5 = Outcome.done committed5 ∧
    umap_at staged5.cpu_migrations_ 100 = some 3 ∧
    umap_at staged5.node_migrations_ 100 = none ∧
    original_processor committed5 100 = some 3 :=
  ⟨by decide!, by decide, by decide!, by decide!, by decide, by decide,
    (commit_applies_pending topo4 clean5 clean5 staged5 committed5 [staging.to_cpu 100 3] 100
      (by decide!) (by decide) (by decide!) (by decide!)).2 3 (by decide) (by decide)⟩

/-! ## Staging: the dirty pid maps -/

/-- Neither staging call writes the dirty pid-to-CPU or pid-to-node map. -/
theorem staging_keeps_dirty_pid_maps {P : ProcessSource τ} {c : staging} {s s' : snapshot τ}
    (h : stage P c s = Outcome.done s') :
    s'.dirty_pid_cpu_map_ = s.dirty_pid_cpu_map_ ∧
      s'.dirty_pid_node_map_ = s.dirty_pid_node_map_ := by
  cases c with
  | to_cpu pid cpu =>
    obtain ⟨node, oc, onode, s1, -, -, -, hmove, rfl⟩ := migrate_to_cpu_done h
    obtain ⟨m1, m2, m3, m4, u1, u2, u3, u4, -, -, -, -, -, -, -, -, rfl⟩ :=
      stage_move_done hmove
    exact ⟨rfl, rfl⟩
  | to_node draw pid node =>
    obtain ⟨cpus, cpu, oc, onode, s1, -, -, -, -, hmove, rfl⟩ := migrate_to_node_done h
    obtain ⟨m1, m2, m3, m4, u1, u2, u3, u4, -, -, -, -, -, -, -, -, rfl⟩ :=
      stage_move_done hmove
    exact ⟨rfl, rfl⟩

/-! ## rebuild: the round trip (C11) -/

theorem mem_uset_insert (set : List Int) (p q : Int) :
    q ∈ uset_insert set p ↔ q = p ∨ q ∈ set := by
  unfold uset_insert
  split
  · rename_i h
    constructor
    · intro hq; exact Or.inr hq
    · intro hq
      rcases hq with hq | hq
      · rw [hq]; exact h
      · exact hq
  · simp [or_comm]

/-- The body of the loop of `rebuild`, when it completes, written out. -/
theorem rebuild_step_full {proc : process} {s s' : snapshot τ}
    (h : rebuild_step proc s = Outcome.done s') :
    ∃ m1 m2 u1 u2,
      vec_update s.cpu_pid_map_ proc.processor (fun set => uset_insert set proc.pid) = some m1 ∧
      vec_update s.node_pid_map_ proc.numa_node (fun set => uset_insert set proc.pid)
        = some m2 ∧
      vec_update s.cpu_use_ proc.processor (fun u => u + proc.cpu_use) = some u1 ∧
      vec_update s.node_use_ proc.numa_node (fun u => u + proc.cpu_use) = some u2 ∧
      s' = { s with
        cpu_pid_map_ := m1, node_pid_map_ := m2,
        pid_cpu_map_ := umap_assign s.pid_cpu_map_ proc.pid proc.processor,
        pid_node_map_ := umap_assign s.pid_node_map_ proc.pid proc.numa_node,
        cpu_use_ := u1, node_use_ := u2 } := by
  unfold rebuild_step at h
  dsimp only at h
  split at h
  · cases h
  rename_i m1 h1
  try dsimp only at h
  split at h
  · cases h
  rename_i m2 h2
  try dsimp only at h
  split at h
  · cases h
  rename_i u1 h3
  try dsimp only at h
  split at h
  · cases h
  rename_i u2 h4
  injection h with h
  exact ⟨m1, m2, u1, u2, h1, h2, h3, h4, h.symm⟩

theorem round_trip_clean_step {proc : process} {s s' : snapshot τ}
    (hs : round_trip_clean s) (h : rebuild_step proc s = Outcome.done s') :
    round_trip_clean s' := by
  obtain ⟨m1, m2, u1, u2, h1, h2, -, -, rfl⟩ := rebuild_step_full h
  obtain ⟨hc, hn⟩ := hs
  have a1 := vec_at_update h1
  have a2 := vec_at_update h2
  obtain ⟨set1, hset1⟩ := vec_update_at h1
  obtain ⟨set2, hset2⟩ := vec_update_at h2
  constructor
  · intro pid c hpc
    dsimp only at hpc ⊢
    rw [umap_at_assign] at hpc
    by_cases hp : proc.pid = pid
    · rw [if_pos hp] at hpc
      injection hpc with hpc
      subst hpc
      refine ⟨uset_insert set1 proc.pid, by rw [a1, if_pos rfl, hset1]; rfl, ?_⟩
      rw [mem_uset_insert]
      exact Or.inl hp.symm
    · rw [if_neg hp] at hpc
      obtain ⟨set, hset, hmem⟩ := hc pid c hpc
      rw [a1 c]
      by_cases hcc : c = proc.processor
      · rw [if_pos hcc, hset]
        exact ⟨_, rfl, (mem_uset_insert _ _ _).2 (Or.inr hmem)⟩
      · rw [if_neg hcc]
        exact ⟨set, hset, hmem⟩
  · intro pid n hpn
    dsimp only at hpn ⊢
    rw [umap_at_assign] at hpn
    by_cases hp : proc.pid = pid
    · rw [if_pos hp] at hpn
      injection hpn with hpn
      subst hpn
      refine ⟨uset_insert set2 proc.pid, by rw [a2, if_pos rfl, hset2]; rfl, ?_⟩
      rw [mem_uset_insert]
      exact Or.inl hp.symm
    · rw [if_neg hp] at hpn
      obtain ⟨set, hset, hmem⟩ := hn pid n hpn
      rw [a2 n]
      by_cases hcc : n = proc.numa_node
      · rw [if_pos hcc, hset]
        exact ⟨_, rfl, (mem_uset_insert _ _ _).2 (Or.inr hmem)⟩
      · rw [if_neg hcc]
        exact ⟨set, hset, hmem⟩

theorem round_trip_clean_loop (recs : List process) (s s' : snapshot τ)
    (h : for_each recs rebuild_step s = Outcome.done s') (hs : round_trip_clean s) :
    round_trip_clean s' :=
  for_each_done_rel (fun a b => round_trip_clean a → round_trip_clean b)
    (fun _ ha => ha) (fun _ _ _ hab hbc ha => hbc (hab ha))
    (fun _ _ _ hx ha => round_trip_clean_step ha hx) recs s s' h hs

/-- After the loop of `rebuild`, every pid with a record is in both pid maps. -/
theorem rebuild_loop_has_key (pid : Int) (recs : List process) (s s' : snapshot τ)
    (h : for_each recs rebuild_step s = Outcome.done s')
    (hr : ∃ r ∈ recs, r.pid = pid) :
    (∃ c, umap_at s'.pid_cpu_map_ pid = some c) ∧
      (∃ n, umap_at s'.pid_node_map_ pid = some n) := by
  have key : ∀ (recs : List process) (s s' : snapshot τ),
      for_each recs rebuild_step s = Outcome.done s' →
      (((∃ c, umap_at s.pid_cpu_map_ pid = some c) ∧
          (∃ n, umap_at s.pid_node_map_ pid = some n)) ∨ ∃ r ∈ recs, r.pid = pid) →
      (∃ c, umap_at s'.pid_cpu_map_ pid = some c) ∧
        (∃ n, umap_at s'.pid_node_map_ pid = some n) := by
    intro recs
    induction recs with
    | nil =>
      intro s s' h hr
      simp only [for_each] at h
      injection h with h
      subst h
      rcases hr with hr | ⟨r, hr, -⟩
      · exact hr
      · cases hr
    | cons r rest ih =>
      intro s s' h hr
      obtain ⟨m, hm, hrest⟩ := for_each_cons_done h
      obtain ⟨e1, e2⟩ := rebuild_step_maps hm
      apply ih m s' hrest
      by_cases hp : r.pid = pid
      · left
        rw [e1, e2, umap_at_assign, umap_at_assign, if_pos hp, if_pos hp]
        exact ⟨⟨_, rfl⟩, ⟨_, rfl⟩⟩
      · rcases hr with hr | ⟨r', hr', hrp⟩
        · left
          rw [e1, e2, umap_at_assign, umap_at_assign, if_neg hp, if_neg hp]
          exact hr
        · rcases List.mem_cons.1 hr' with hr' | hr'
          · subst hr'
            exact absurd hrp hp
          · exact Or.inr ⟨r', hr', hrp⟩
  exact key recs s s' h (Or.inr hr)

/-- After `rebuild` the clean bundle is the one its loop built. -/
theorem rebuild_done_clean_bundle {P : ProcessSource τ} {s s' : snapshot τ}
    (h : rebuild P s = Outcome.done s') :
    ∃ s1, for_each (P.records s.processes_) rebuild_step (rebuild_reset s) = Outcome.done s1 ∧
      clean_bundle s' = clean_bundle s1 := by
  obtain ⟨s1, h1, h2⟩ := rebuild_done h
  have e2 := compute_loads_done h2
  unfold loads_only at e2
  refine ⟨s1, h1, ?_⟩
  rw [e2]
  rfl

/-- C11. After `rebuild()` returns, every pid with a record is mapped to a CPU and to a
node by the clean pid maps, is a member of the clean set of that CPU and of that node, and
the dirty bundle reads the same: `processor`, `numa_node`, `pids_in_cpu` and
`pids_in_node` give that CPU, that node and those sets. -/
theorem rebuild_round_trip (P : ProcessSource τ) (s0 s : snapshot τ) (pid : Int)
    (h : rebuild P s0 = Outcome.done s)
    (hobs : ∃ r ∈ P.records s0.processes_, r.pid = pid) :
    ∃ c n cs ns,
      original_processor s pid = some c ∧ original_pids_in_cpu s c = some cs ∧ pid ∈ cs ∧
      original_numa_node s pid = some n ∧ original_pids_in_node s n = some ns ∧ pid ∈ ns ∧
      processor s pid = some c ∧ pids_in_cpu s c = some cs ∧
      numa_node s pid = some n ∧ pids_in_node s n = some ns := by
  obtain ⟨hb, -⟩ := rebuild_done_frame h
  obtain ⟨s1, h1, hcb⟩ := rebuild_done_clean_bundle h
  simp only [dirty_bundle, clean_bundle, Prod.mk.injEq] at hb hcb
  obtain ⟨d1, d2, d3, d4, -, -⟩ := hb
  obtain ⟨c1, c2, c3, c4, -, -⟩ := hcb
  have hinit : round_trip_clean (rebuild_reset s0) := by
    constructor
    · intro pid c hc
      simp [rebuild_reset, umap_at] at hc
    · intro pid n hn
      simp [rebuild_reset, umap_at] at hn
  obtain ⟨hrc, hrn⟩ := round_trip_clean_loop _ _ _ h1 hinit
  obtain ⟨⟨c, hc⟩, ⟨n, hn⟩⟩ := rebuild_loop_has_key pid _ _ _ h1 hobs
  obtain ⟨cs, hcs, hmc⟩ := hrc pid c hc
  obtain ⟨ns, hns, hmn⟩ := hrn pid n hn
  refine ⟨c, n, cs, ns, ?_, ?_, hmc, ?_, ?_, hmn, ?_, ?_, ?_, ?_⟩
  · unfold original_processor; rw [c3]; exact hc
  · unfold original_pids_in_cpu; rw [c1]; exact hcs
  · unfold original_numa_node; rw [c4]; exact hn
  · unfold original_pids_in_node; rw [c2]; exact hns
  · unfold processor; rw [d3, c3]; exact hc
  · unfold pids_in_cpu; rw [d1, c1]; exact hcs
  · unfold numa_node; rw [d4, c4]; exact hn
  · unfold pids_in_node; rw [d2, c2]; exact hns

theorem rebuild_round_trip_witness :
    rebuild P5 clean5 = Outcome.done clean5 ∧
    (∃ r ∈ P5.records clean5.processes_, r.pid = 100) ∧
    ∃ c n cs ns,
      original_processor clean5 100 = some c ∧ original_pids_in_cpu clean5 c = some cs ∧
      (100 : Int) ∈ cs ∧
      original_numa_node clean5 100 = some n ∧ original_pids_in_node clean5 n = some ns ∧
      (100 : Int) ∈ ns ∧
      processor clean5 100 = some c ∧ pids_in_cpu clean5 c = some cs ∧
      numa_node clean5 100 = some n ∧ pids_in_node clean5 n = some ns :=
  ⟨by decide!, by decide!,
    rebuild_round_trip P5 clean5 clean5 100 (by decide!) (by decide!)⟩

/-! ## Staging and the round trip (C12) -/

/-- After `rebuild` both bundles satisfy the round-trip invariant. -/
theorem rebuilt_round_trip_both {P : ProcessSource τ} {s0 s : snapshot τ}
    (h : rebuild P s0 = Outcome.done s) : round_trip_clean s ∧ round_trip_dirty s := by
  obtain ⟨hb, -⟩ := rebuild_done_frame h
  obtain ⟨s1, h1, hcb⟩ := rebuild_done_clean_bundle h
  simp only [dirty_bundle, clean_bundle, Prod.mk.injEq] at hb hcb
  obtain ⟨d1, d2, d3, d4, -, -⟩ := hb
  obtain ⟨c1, c2, c3, c4, -, -⟩ := hcb
  have hinit : round_trip_clean (rebuild_reset s0) := by
    constructor
    · intro pid c hc
      simp [rebuild_reset, umap_at] at hc
    · intro pid n hn
      simp [rebuild_reset, umap_at] at hn
  have h1' := round_trip_clean_loop _ _ _ h1 hinit
  have hclean : round_trip_clean s := by
    unfold round_trip_clean at h1' ⊢
    rw [c1, c2, c3, c4]
    exact h1'
  refine ⟨hclean, ?_⟩
  unfold round_trip_dirty processor numa_node pids_in_cpu pids_in_node
  rw [d1, d2, d3, d4]
  exact hclean

/-- C12. Evaluation at the failing input: the dirty bundle of `clean5` satisfies the
round-trip invariant, `migrate_to_cpu(100, 3)` returns with `staged5`, and there
`processor(100)` is still 0 while `pids_in_cpu(0)` is `{101}`: pid 100 is not a member of
`pids_in_cpu(processor(100))`, the invariant is lost. -/
theorem staging_breaks_round_trip :
    round_trip_dirty clean5 ∧
    migrate_to_cpu P5 100 3 clean5 = Outcome.done staged5 ∧
    processor staged5 100 = some 0 ∧ pids_in_cpu staged5 0 = some [101] ∧
    ¬ round_trip_dirty staged5 := by
  refine ⟨(rebuilt_round_trip_both rebuild_clean5).2, by decide!, by decide!, by decide!, ?_⟩
  intro hrt
  obtain ⟨set, hset, hmem⟩ := hrt.1 100 0 (by decide!)
  have h0 : pids_in_cpu staged5 0 = some [101] := by decide!
  rw [h0] at hset
  injection hset with hset
  subst hset
  revert hmem
  decide

/-! ## rebuild: the aggregates (C13) -/

theorem sum_set_add (v : List ℚ) (k : Nat) (a x : ℚ) (h : v[k]? = some a) :
    (v.set k (a + x)).sum = v.sum + x := by
  induction v generalizing k with
  | nil => simp at h
  | cons y rest ih =>
    cases k with
    | zero =>
      simp only [List.getElem?_cons_zero, Option.some.injEq] at h
      subst h
      simp only [List.set_cons_zero, List.sum_cons]
      ring
    | succ k =>
      simp only [List.getElem?_cons_succ] at h
      simp only [List.set_cons_succ, List.sum_cons, ih k h]
      ring

theorem sum_vec_update_add {v v' : List ℚ} {i : Int} {x : ℚ}
    (h : vec_update v i (fun u => u + x) = some v') : v'.sum = v.sum + x := by
  obtain ⟨a, -, ha, rfl⟩ := vec_update_eq_some h
  exact sum_set_add v _ a x ha

/-- The usage slots after the loop of `rebuild`: each slot has gained the usage of the
records on it, and the total has gained the usage of all the records. -/
theorem rebuild_loop_use (recs : List process) (s s' : snapshot τ)
    (h : for_each recs rebuild_step s = Outcome.done s') :
    (∀ c, vec_at s'.cpu_use_ c = (vec_at s.cpu_use_ c).map (fun u =>
      u + ((recs.filter (fun r => decide (r.processor = c))).map process.cpu_use).sum)) ∧
    (∀ n, vec_at s'.node_use_ n = (vec_at s.node_use_ n).map (fun u =>
      u + ((recs.filter (fun r => decide (r.numa_node = n))).map process.cpu_use).sum)) ∧
    s'.cpu_use_.sum = s.cpu_use_.sum + (recs.map process.cpu_use).sum := by
  induction recs generalizing s with
  | nil =>
    simp only [for_each] at h
    injection h with h
    subst h
    refine ⟨?_, ?_, ?_⟩
    · intro c; cases vec_at s.cpu_use_ c <;> simp
    · intro n; cases vec_at s.node_use_ n <;> simp
    · simp
  | cons r rest ih =>
    obtain ⟨m, hm, hrest⟩ := for_each_cons_done h
    obtain ⟨m1, m2, u1, u2, -, -, h3, h4, rfl⟩ := rebuild_step_full hm
    obtain ⟨ih1, ih2, ih3⟩ := ih _ hrest
    dsimp only at ih1 ih2 ih3
    refine ⟨?_, ?_, ?_⟩
    · intro c
      rw [ih1 c, vec_at_update h3 c]
      by_cases hc : c = r.processor
      · have hc' : r.processor = c := hc.symm
        rw [if_pos hc]
        cases vec_at s.cpu_use_ c <;> simp [List.filter_cons, hc', add_assoc]
      · have hc' : ¬ r.processor = c := fun e => hc e.symm
        rw [if_neg hc]
        cases vec_at s.cpu_use_ c <;> simp [List.filter_cons, hc']
    · intro n
      rw [ih2 n, vec_at_update h4 n]
      by_cases hc : n = r.numa_node
      · have hc' : r.numa_node = n := hc.symm
        rw [if_pos hc]
        cases vec_at s.node_use_ n <;> simp [List.filter_cons, hc', add_assoc]
      · have hc' : ¬ r.numa_node = n := fun e => hc e.symm
        rw [if_neg hc]
        cases vec_at s.node_use_ n <;> simp [List.filter_cons, hc']
    · rw [ih3, sum_vec_update_add h3]
      simp only [List.map_cons, List.sum_cons]
      ring

/-- The membership sets after the loop of `rebuild`: each set has had the pids of the
records on it inserted, in the order of the records. -/
theorem rebuild_loop_sets (recs : List process) (s s' : snapshot τ)
    (h : for_each recs rebuild_step s = Outcome.done s') :
    (∀ c, vec_at s'.cpu_pid_map_ c = (vec_at s.cpu_pid_map_ c).map (fun set =>
      ((recs.filter (fun r => decide (r.processor = c))).map process.pid).foldl
        uset_insert set)) ∧
    (∀ n, vec_at s'.node_pid_map_ n = (vec_at s.node_pid_map_ n).map (fun set =>
      ((recs.filter (fun r => decide (r.numa_node = n))).map process.pid).foldl
        uset_insert set)) := by
  induction recs generalizing s with
  | nil =>
    simp only [for_each] at h
    injection h with h
    subst h
    refine ⟨?_, ?_⟩
    · intro c; cases vec_at s.cpu_pid_map_ c <;> simp
    · intro n; cases vec_at s.node_pid_map_ n <;> simp
  | cons r rest ih =>
    obtain ⟨m, hm, hrest⟩ := for_each_cons_done h
    obtain ⟨m1, m2, u1, u2, h1, h2, -, -, rfl⟩ := rebuild_step_full hm
    obtain ⟨ih1, ih2⟩ := ih _ hrest
    dsimp only at ih1 ih2
    refine ⟨?_, ?_⟩
    · intro c
      rw [ih1 c, vec_at_update h1 c]
      by_cases hc : c = r.processor
      · have hc' : r.processor = c := hc.symm
        rw [if_pos hc]
        cases vec_at s.cpu_pid_map_ c <;> simp [List.filter_cons, hc']
      · have hc' : ¬ r.processor = c := fun e => hc e.symm
        rw [if_neg hc]
        cases vec_at s.cpu_pid_map_ c <;> simp [List.filter_cons, hc']
    · intro n
      rw [ih2 n, vec_at_update h2 n]
      by_cases hc : n = r.numa_node
      · have hc' : r.numa_node = n := hc.symm
        rw [if_pos hc]
        cases vec_at s.node_pid_map_ n <;> simp [List.filter_cons, hc']
      · have hc' : ¬ r.numa_node = n := fun e => hc e.symm
        rw [if_neg hc]
        cases vec_at s.node_pid_map_ n <;> simp [List.filter_cons, hc']

theorem foldl_uset_insert_nodup (ps set : List Int) (h : (set ++ ps).Nodup) :
    ps.foldl uset_insert set = set ++ ps := by
  induction ps generalizing set with
  | nil => simp
  | cons p rest ih =>
    have hp : p ∉ set := by
      intro hc
      have := List.nodup_append.1 h
      exact this.2.2 hc (List.mem_cons_self _ _) 
    have h' : ((set ++ [p]) ++ rest).Nodup := by simpa using h
    simp only [List.foldl_cons, uset_insert, hp, if_false]
    rw [ih _ h']
    simp

theorem record_cpu_use_of_mem (recs : List process) (h : (recs.map process.pid).Nodup)
    (r : process) (hr : r ∈ recs) : record_cpu_use recs r.pid = r.cpu_use := by
  induction recs with
  | nil => cases hr
  | cons x rest ih =>
    have hn : x.pid ∉ rest.map process.pid ∧ (rest.map process.pid).Nodup := by
      simpa using h
    unfold record_cpu_use
    rcases List.mem_cons.1 hr with hr | hr
    · subst hr
      simp [List.find?_cons]
    · have hne : ¬ x.pid = r.pid := by
        intro hc
        exact hn.1 (by rw [hc]; exact List.mem_map_of_mem _ hr)
      simp only [List.find?_cons, hne, decide_False]
      exact ih hn.2 hr

theorem sum_record_cpu_use (recs sub : List process) (h : (recs.map process.pid).Nodup)
    (hsub : ∀ r ∈ sub, r ∈ recs) :
    ((sub.map process.pid).map (record_cpu_use recs)).sum = (sub.map process.cpu_use).sum := by
  induction sub with
  | nil => simp
  | cons x rest ih =>
    simp only [List.map_cons, List.sum_cons]
    rw [record_cpu_use_of_mem recs h x (hsub x (List.mem_cons_self _ _)),
      ih (fun r hr => hsub r (List.mem_cons_of_mem _ hr))]

theorem vec_at_map {α β : Type} (v : List α) (f : α → β) (i : Int) :
    vec_at (v.map f) i = (vec_at v i).map f := by
  unfold vec_at
  cases idx i <;> simp

theorem sum_map_zero {α : Type} (v : List α) : (v.map (fun _ => (0 : ℚ))).sum = 0 := by
  induction v with
  | nil => rfl
  | cons x rest ih => simp [ih]

/-- C13. After `rebuild()` over records with distinct PIDs: wherever the clean set and the
clean usage of a CPU are defined, `cpu_use[c]` is the sum of the records' `cpu_use` over the
pids of `cpu_pids[c]`; the same holds of `node_use[n]` and `node_pids[n]`; and the total of
`cpu_use` over all CPUs is the total of `cpu_use` over all records. -/
theorem rebuild_aggregates (P : ProcessSource τ) (s0 s : snapshot τ)
    (h : rebuild P s0 = Outcome.done s)
    (hd : ((P.records s0.processes_).map process.pid).Nodup) :
    (∀ c cs u, original_pids_in_cpu s c = some cs → cpu_use s c = some u →
      u = (cs.map (record_cpu_use (P.records s0.processes_))).sum) ∧
    (∀ n ns u, original_pids_in_node s n = some ns → node_use s n = some u →
      u = (ns.map (record_cpu_use (P.records s0.processes_))).sum) ∧
    s.cpu_use_.sum = ((P.records s0.processes_).map process.cpu_use).sum := by
  obtain ⟨s1, h1, hcb⟩ := rebuild_done_clean_bundle h
  simp only [clean_bundle, Prod.mk.injEq] at hcb
  obtain ⟨c1, c2, -, -, c5, c6⟩ := hcb
  obtain ⟨hu1, hu2, hu3⟩ := rebuild_loop_use _ _ _ h1
  obtain ⟨hs1, hs2⟩ := rebuild_loop_sets _ _ _ h1
  have hrec : (rebuild_reset s0).processes_ = s0.processes_ := rfl
  have key : ∀ (g : process → Int) (x : Int),
      (((P.records s0.processes_).filter (fun r => decide (g r = x))).map process.pid).foldl
          uset_insert [] =
        ((P.records s0.processes_).filter (fun r => decide (g r = x))).map process.pid := by
    intro g x
    have := foldl_uset_insert_nodup
      (((P.records s0.processes_).filter (fun r => decide (g r = x))).map process.pid) []
      (by
        simp only [List.nil_append]
        exact List.Nodup.sublist (List.Sublist.map _ (List.filter_sublist _)) hd)
    simpa using this
  refine ⟨?_, ?_, ?_⟩
  · intro c cs u hcs hu
    unfold original_pids_in_cpu at hcs
    unfold cpu_use at hu
    rw [c1, hs1 c] at hcs
    rw [c5, hu1 c] at hu
    simp only [rebuild_reset, vec_at_map] at hcs hu
    cases hv : vec_at s0.cpu_pid_map_ c with
    | none => rw [hv] at hcs; cases hcs
    | some v0 =>
      cases hw : vec_at s0.cpu_use_ c with
      | none => rw [hw] at hu; cases hu
      | some w0 =>
        rw [hv] at hcs
        rw [hw] at hu
        simp only [Option.map_some', Option.some.injEq] at hcs hu
        rw [key] at hcs
        subst hcs
        subst hu
        rw [sum_record_cpu_use _ _ hd (fun r hr => (List.mem_filter.1 hr).1)]
        simp
  · intro n ns u hns hu
    unfold original_pids_in_node at hns
    unfold node_use at hu
    rw [c2, hs2 n] at hns
    rw [c6, hu2 n] at hu
    simp only [rebuild_reset, vec_at_map] at hns hu
    cases hv : vec_at s0.node_pid_map_ n with
    | none => rw [hv] at hns; cases hns
    | some v0 =>
      cases hw : vec_at s0.node_use_ n with
      | none => rw [hw] at hu; cases hu
      | some w0 =>
        rw [hv] at hns
        rw [hw] at hu
        simp only [Option.map_some', Option.some.injEq] at hns hu
        rw [key] at hns
        subst hns
        subst hu
        rw [sum_record_cpu_use _ _ hd (fun r hr => (List.mem_filter.1 hr).1)]
        simp
  · rw [c5, hu3]
    simp [rebuild_reset, sum_map_zero]

theorem rebuild_aggregates_witness :
    rebuild P5 clean5 = Outcome.done clean5 ∧
    ((P5.records clean5.processes_).map process.pid).Nodup ∧
    (original_pids_in_cpu clean5 0 = some [100, 101] ∧ cpu_use clean5 0 = some 50 ∧
      ([100, 101].map (record_cpu_use (P5.records clean5.processes_))).sum = 50) ∧
    (∀ c cs u, original_pids_in_cpu clean5 c = some cs → cpu_use clean5 c = some u →
      u = (cs.map (record_cpu_use (P5.records clean5.processes_))).sum) ∧
    (∀ n ns u, original_pids_in_node clean5 n = some ns → node_use clean5 n = some u →
      u = (ns.map (record_cpu_use (P5.records clean5.processes_))).sum) ∧
    clean5.cpu_use_.sum = ((P5.records clean5.processes_).map process.cpu_use).sum :=
  ⟨by decide!, by decide!, by decide!,
    rebuild_aggregates P5 clean5 clean5 (by decide!) (by decide!)⟩

/-! ## The snapshot state machine (C14) -/

theorem umap_assign_ne_nil {β : Type} (m : List (Int × β)) (k : Int) (v : β) :
    umap_assign m k v ≠ [] := by
  cases m with
  | nil => simp [umap_assign]
  | cons e rest =>
    obtain ⟨a, b⟩ := e
    simp only [umap_assign]
    split <;> simp

theorem pending_consistent_step {P : ProcessSource τ} {o : op} {s s' : snapshot τ}
    (hs : pending_consistent s) (h : run_op P o s = Outcome.done s') :
    pending_consistent s' := by
  cases o with
  | update =>
    obtain ⟨p, -, hr⟩ := update_done h
    obtain ⟨hb, hd, hc, hn, -⟩ := rebuild_done_frame hr
    refine ⟨?_, fun _ => hb⟩
    rw [hd, hc, hn]
    exact hs.1
  | to_cpu pid cpu =>
    obtain ⟨node, oc, onode, s1, -, -, -, hmove, rfl⟩ := migrate_to_cpu_done h
    obtain ⟨m1, m2, m3, m4, u1, u2, u3, u4, -, -, -, -, -, -, -, -, rfl⟩ :=
      stage_move_done hmove
    refine ⟨⟨fun _ => Or.inl (umap_assign_ne_nil _ _ _), fun _ => rfl⟩, ?_⟩
    intro hf
    cases hf
  | to_node draw pid node =>
    obtain ⟨cpus, cpu, oc, onode, s1, -, -, -, -, hmove, rfl⟩ := migrate_to_node_done h
    obtain ⟨m1, m2, m3, m4, u1, u2, u3, u4, -, -, -, -, -, -, -, -, rfl⟩ :=
      stage_move_done hmove
    refine ⟨⟨fun _ => Or.inr (umap_assign_ne_nil _ _ _), fun _ => rfl⟩, ?_⟩
    intro hf
    cases hf
  | commit =>
    simp only [run_op] at h
    rw [commit_eq] at h
    split at h
    · injection h with h
      subst h
      exact hs
    · split at h
      · cases h
      · cases h
      · obtain ⟨p, -, hr⟩ := update_done h
        obtain ⟨hb, hd, hc, hn, -⟩ := rebuild_done_frame hr
        dsimp only at hd hc hn
        refine ⟨?_, fun _ => hb⟩
        rw [hd, hc, hn]
        simp
  | rollback =>
    simp only [run_op] at h
    injection h with h
    subst h
    refine ⟨?_, fun _ => rfl⟩
    simp [rollback, copy_to_dirty]

/-- C14. Pending consistency is an invariant: in every state reached from construction by
successful `update`, `migrate_to_cpu`, `migrate_to_node`, `commit` and `rollback` calls,
the dirty flag is true exactly when `pending_cpu` or `pending_node` is non-empty, and when
the flag is false the dirty bundle equals the clean bundle. -/
theorem pending_consistency_invariant (P : ProcessSource τ) (t : topology) (p : τ)
    (max_cpu max_node : Nat) (ops : List op) (s0 s : snapshot τ)
    (hnew : snapshot_new P t p max_cpu max_node = Outcome.done s0)
    (hrun : for_each ops (run_op P) s0 = Outcome.done s) :
    pending_consistent s := by
  have h0 : pending_consistent s0 := by
    unfold snapshot_new build at hnew
    obtain ⟨hb, hd, hc, hn, -⟩ := rebuild_done_frame hnew
    dsimp only [snapshot_members] at hd hc hn
    refine ⟨?_, fun _ => hb⟩
    rw [hd, hc, hn]
    simp
  exact for_each_done_rel (fun a b => pending_consistent a → pending_consistent b)
    (fun _ ha => ha) (fun _ _ _ hab hbc ha => hbc (hab ha))
    (fun _ _ _ hx ha => pending_consistent_step ha hx) ops s0 s hrun h0

theorem pending_consistency_invariant_witness :
    snapshot_new P5 topo4 recs5 3 1 = Outcome.done clean5 ∧
    for_each [op.to_node 0 100 1, op.rollback, op.to_cpu 100 3, op.update, op.commit]
      (run_op P5) clean5 = Outcome.done committed5 ∧
    pending_consistent committed5 :=
  ⟨by decide!, by decide!,
    pending_consistency_invariant P5 topo4 recs5 3 1
      [op.to_node 0 100 1, op.rollback, op.to_cpu 100 3, op.update, op.commit]
      clean5 committed5 (by decide!) (by decide!)⟩

/-! ## The load estimator: the weight (C16) -/

theorem epsilon_pos : 0 < epsilon := by
  unfold epsilon
  positivity

theorem epsilon_lt_half : epsilon < 1 / 2 := by
  unfold epsilon
  norm_num

/-- The middle branch of `weight` lies in `(0, 1]`. -/
theorem weight_formula_bounds (x : ℚ) (h0 : 0 < x) (h1 : x < 1) :
    0 < 1 / (1 + ((x / (1 - x)) ^ 3)⁻¹) ∧ 1 / (1 + ((x / (1 - x)) ^ 3)⁻¹) ≤ 1 := by
  have hg : 0 < x / (1 - x) := div_pos h0 (by linarith)
  have hi : 0 < ((x / (1 - x)) ^ 3)⁻¹ := inv_pos.2 (pow_pos hg 3)
  constructor
  · positivity
  · rw [div_le_one (by linarith)]
    linarith

theorem weight_bounds (x : ℚ) : 0 ≤ weight x ∧ weight x ≤ 1 := by
  unfold weight
  split
  · exact ⟨le_refl _, zero_le_one⟩
  · rename_i h1
    split
    · exact ⟨zero_le_one, le_refl _⟩
    · rename_i h2
      have hx0 : 0 < x := lt_of_lt_of_le epsilon_pos (not_lt.1 h1)
      have hx1 : x < 1 := by
        have := not_lt.1 h2
        have := epsilon_pos
        linarith
      obtain ⟨a, b⟩ := weight_formula_bounds x hx0 hx1
      exact ⟨le_of_lt a, b⟩

theorem weight_mono (x y : ℚ) (hxy : x ≤ y) : weight x ≤ weight y := by
  by_cases hx : x < epsilon
  · have : weight x = 0 := by simp [weight, hx]
    rw [this]
    exact (weight_bounds y).1
  · by_cases hy : y > 1 - epsilon
    · have hy' : ¬ y < epsilon := by
        have := epsilon_lt_half
        intro hc
        linarith
      have : weight y = 1 := by simp [weight, hy, hy']
      rw [this]
      exact (weight_bounds x).2
    · have hx' : ¬ x > 1 - epsilon := by
        intro hc
        exact hy (lt_of_lt_of_le hc hxy)
      have hy' : ¬ y < epsilon := fun hc => hx (lt_of_le_of_lt hxy hc)
      have ex : weight x = 1 / (1 + ((x / (1 - x)) ^ 3)⁻¹) := by simp [weight, hx, hx']
      have ey : weight y = 1 / (1 + ((y / (1 - y)) ^ 3)⁻¹) := by simp [weight, hy, hy']
      rw [ex, ey]
      have he := epsilon_pos
      have hx0 : 0 < x := lt_of_lt_of_le he (not_lt.1 hx)
      have hy1 : y < 1 := by
        have := not_lt.1 hy
        linarith
      have hx1 : x < 1 := lt_of_le_of_lt hxy hy1
      have hy0 : 0 < y := lt_of_lt_of_le hx0 hxy
      have hgx : 0 < x / (1 - x) := div_pos hx0 (by linarith)
      have hg : x / (1 - x) ≤ y / (1 - y) :=
        div_le_div₀ (le_of_lt hy0) hxy (by linarith) (by linarith)
      have hp : (x / (1 - x)) ^ 3 ≤ (y / (1 - y)) ^ 3 :=
        pow_le_pow_left₀ (le_of_lt hgx) hg 3
      have hi : ((y / (1 - y)) ^ 3)⁻¹ ≤ ((x / (1 - x)) ^ 3)⁻¹ :=
        inv_anti₀ (pow_pos hgx 3) hp
      have hiy : 0 < ((y / (1 - y)) ^ 3)⁻¹ :=
        inv_pos.2 (pow_pos (lt_of_lt_of_le hgx hg) 3)
      exact one_div_le_one_div_of_le (by linarith) (by linarith)

theorem weight_table_eq :
    weight_table = (List.range 101).map (fun i : Nat => weight ((i : ℚ) / 100)) := by
  have hcast : ∀ l : List Nat, (l.flatMap fun a => [(a : ℚ)]) = l.map (fun a => (a : ℚ)) := by
    intro l
    induction l with
    | nil => rfl
    | cons a rest ih =>
      rw [List.flatMap_cons, ih]
      rfl
  show List.map (fun i : ℚ => weight (i / 100)) ((List.range 101).flatMap fun a => [(a : ℚ)]) = _
  rw [hcast, List.map_map]
  rfl

theorem weight_table_length : weight_table.length = 101 := by
  rw [weight_table_eq]
  simp

theorem weight_table_at (k : Nat) (hk : k ≤ 100) :
    weight_table[k]? = some (weight ((k : ℚ) / 100)) := by
  rw [weight_table_eq, List.getElem?_map, List.getElem?_range (by omega)]
  rfl

/-- C16. In exact arithmetic `weight(0) == 0`, `weight(1) == 1`, `weight` is monotonically
non-decreasing (on `[0, 1]`, and indeed everywhere), and the entries of `weight_table` are
non-decreasing in the index. -/
theorem weight_endpoints_and_monotone :
    weight 0 = 0 ∧ weight 1 = 1 ∧
    (∀ x y : ℚ, 0 ≤ x → x ≤ y → y ≤ 1 → weight x ≤ weight y) ∧
    (∀ (i j : Nat) (a b : ℚ), i ≤ j → weight_table[i]? = some a → weight_table[j]? = some b →
      a ≤ b) := by
  refine ⟨?_, ?_, ?_, ?_⟩
  · have := epsilon_pos
    simp [weight, this]
  · have h1 := epsilon_pos
    have h2 := epsilon_lt_half
    have h3 : ¬ (1 : ℚ) < epsilon := by intro hc; linarith
    simp [weight, h1, h3]
  · intro x y _ hxy _
    exact weight_mono x y hxy
  · intro i j a b hij ha hb
    have hj : j ≤ 100 := by
      have := (List.getElem?_eq_some.1 hb).1
      rw [weight_table_length] at this
      omega
    rw [weight_table_at j hj] at hb
    rw [weight_table_at i (le_trans hij hj)] at ha
    injection ha with ha
    injection hb with hb
    rw [← ha, ← hb]
    apply weight_mono
    have : (i : ℚ) ≤ (j : ℚ) := by exact_mod_cast hij
    exact div_le_div_of_nonneg_right this (by norm_num)

theorem weight_endpoints_and_monotone_witness :
    weight (3 / 5) ≤ weight (7 / 10) :=
  weight_endpoints_and_monotone.2.2.1 (3 / 5) (7 / 10) (by norm_num) (by norm_num)
    (by norm_num)

/-! ## The load estimator: its parts -/

theorem accumulate_eq_sum (xs : List ℚ) : accumulate xs = xs.sum := by
  have key : ∀ (xs : List ℚ) (a : ℚ), xs.foldl (fun acc x => acc + x) a = a + xs.sum := by
    intro xs
    induction xs with
    | nil => intro a; simp
    | cons x rest ih =>
      intro a
      simp only [List.foldl_cons, List.sum_cons, ih]
      ring
  unfold accumulate
  rw [key]
  ring

theorem ranges_max_fold (rest : List ℚ) (x : ℚ) :
    (rest.foldl (fun m y => if m < y then y else m) x ∈ x :: rest) ∧
      ∀ y ∈ x :: rest, y ≤ rest.foldl (fun m y => if m < y then y else m) x := by
  induction rest generalizing x with
  | nil => simp
  | cons z rest ih =>
    simp only [List.foldl_cons]
    obtain ⟨h1, h2⟩ := ih (if x < z then z else x)
    constructor
    · rcases List.mem_cons.1 h1 with h | h
      · rw [h]
        split
        · exact List.mem_cons_of_mem _ (List.mem_cons_self _ _)
        · exact List.mem_cons_self _ _
      · exact List.mem_cons_of_mem _ (List.mem_cons_of_mem _ h)
    · intro y hy
      have hstart := h2 (if x < z then z else x) (List.mem_cons_self _ _)
      rcases List.mem_cons.1 hy with h | h
      · subst h
        refine le_trans ?_ hstart
        split
        · rename_i hlt; exact le_of_lt hlt
        · exact le_refl _
      · rcases List.mem_cons.1 h with h | h
        · subst h
          refine le_trans ?_ hstart
          split
          · exact le_refl _
          · rename_i hlt; exact not_lt.1 hlt
        · exact h2 y (List.mem_cons_of_mem _ h)

/-- On a non-empty range `ranges::max` returns an element that is at least every element. -/
theorem ranges_max_spec (xs : List ℚ) (h : xs ≠ []) :
    ∃ M, ranges_max xs = some M ∧ M ∈ xs ∧ ∀ y ∈ xs, y ≤ M := by
  cases xs with
  | nil => exact absurd rfl h
  | cons x rest =>
    obtain ⟨h1, h2⟩ := ranges_max_fold rest x
    exact ⟨_, rfl, h1, h2⟩

theorem clamp_bounds (v : ℚ) : 0 ≤ clamp v 0 100 ∧ clamp v 0 100 ≤ 100 := by
  unfold clamp
  split
  · norm_num
  · split
    · norm_num
    · rename_i h1 h2
      exact ⟨not_lt.1 h1, not_lt.1 h2⟩

theorem round_to_int_bounds (x : ℚ) (h0 : 0 ≤ x) (h1 : x ≤ 100) :
    0 ≤ round_to_int x ∧ round_to_int x ≤ 100 := by
  unfold round_to_int
  rw [if_pos h0]
  constructor
  · apply Int.floor_nonneg.2
    linarith
  · have : ⌊x + 1 / 2⌋ < 101 := by
      apply Int.floor_lt.2
      push_cast
      linarith
    omega

/-- The weight table has an entry, between 0 and 1, at every index from 0 to 100. -/
theorem weight_table_vec_at (k : Int) (h0 : 0 ≤ k) (h1 : k ≤ 100) :
    ∃ alpha, vec_at weight_table k = some alpha ∧ 0 ≤ alpha ∧ alpha ≤ 1 := by
  have hk : ¬ k < 0 := by omega
  refine ⟨weight ((k.toNat : ℚ) / 100), ?_, weight_bounds _⟩
  simp only [vec_at, idx, hk, if_false]
  exact weight_table_at k.toNat (by omega)

theorem load_bounds (u slice : ℚ) (hu : 0 ≤ u) (hs : 0 ≤ slice) :
    0 ≤ load u slice ∧ load u slice ≤ 1 := by
  unfold load
  by_cases h0 : slice = 0
  · rw [if_pos h0, if_pos hu]
    norm_num
  · rw [if_neg h0]
    by_cases h1 : u / slice < 1
    · rw [if_pos h1]
      exact ⟨div_nonneg hu hs, le_of_lt h1⟩
    · rw [if_neg h1]
      norm_num

/-- The loop of `compute_load_sigmoid` leaves the load of a pid it does not meet. -/
theorem write_loads_other (alpha beta free mx : ℚ) (m L : List (Int × ℚ)) (pid : Int)
    (h : pid ∉ umap_keys m) :
    umap_at (write_loads alpha beta free mx m L) pid = umap_at L pid := by
  induction m generalizing L with
  | nil => rfl
  | cons e rest ih =>
    have h' : ¬ e.1 = pid ∧ pid ∉ umap_keys rest := by
      simp only [umap_keys, List.map_cons, List.mem_cons, not_or] at h
      exact ⟨fun hc => h.1 hc.symm, h.2⟩
    unfold write_loads at ih ⊢
    simp only [List.foldl_cons]
    rw [ih _ h'.2, umap_at_assign, if_neg h'.1]

/-- The loop of `compute_load_sigmoid` gives a pid the load computed from its last entry. -/
theorem write_loads_last (alpha beta free mx : ℚ) (A B L : List (Int × ℚ)) (pid : Int)
    (u : ℚ) (hB : pid ∉ umap_keys B) :
    umap_at (write_loads alpha beta free mx (A ++ (pid, u) :: B) L) pid =
      some (alpha * load u free + beta * load u mx) := by
  have hsplit : write_loads alpha beta free mx (A ++ (pid, u) :: B) L =
      write_loads alpha beta free mx B
        (umap_assign (write_loads alpha beta free mx A L) pid
          (alpha * load u free + beta * load u mx)) := by
    unfold write_loads
    rw [List.foldl_append, List.foldl_cons]
  rw [hsplit, write_loads_other _ _ _ _ _ _ _ hB, umap_at_assign, if_pos rfl]

theorem split_last_key {β : Type} (m : List (Int × β)) (pid : Int) (h : pid ∈ umap_keys m) :
    ∃ A u B, m = A ++ (pid, u) :: B ∧ pid ∉ umap_keys B := by
  induction m with
  | nil => simp [umap_keys] at h
  | cons e rest ih =>
    obtain ⟨a, b⟩ := e
    by_cases hr : pid ∈ umap_keys rest
    · obtain ⟨A, u, B, hAB, hB⟩ := ih hr
      exact ⟨(a, b) :: A, u, B, by rw [hAB]; rfl, hB⟩
    · have ha : a = pid := by
        simp only [umap_keys, List.map_cons, List.mem_cons] at h
        rcases h with h | h
        · exact h.symm
        · exact absurd h hr
      subst ha
      exact ⟨[], b, rest, rfl, hr⟩

/-! ## The load estimator: bounds (C15) -/

/-- On a non-empty usage map `compute_load_sigmoid` returns: the maximum exists, the index
into the weight table is in range, and the loop runs. -/
theorem compute_load_sigmoid_done (m L : List (Int × ℚ)) (hne : m ≠ []) :
    ∃ M alpha,
      ranges_max (m.map Prod.snd) = some M ∧ M ∈ m.map Prod.snd ∧
      (∀ y ∈ m.map Prod.snd, y ≤ M) ∧
      vec_at weight_table (round_to_int (clamp (100 - (m.map Prod.snd).sum) 0 100))
        = some alpha ∧
      0 ≤ alpha ∧ alpha ≤ 1 ∧
      compute_load_sigmoid m L =
        Outcome.done (write_loads alpha (1 - alpha) (clamp (100 - (m.map Prod.snd).sum) 0 100)
          M m L) := by
  have hne' : m.map Prod.snd ≠ [] := by
    intro hc
    exact hne (List.map_eq_nil_iff.1 hc)
  obtain ⟨M, hM, hmem, hmax⟩ := ranges_max_spec _ hne'
  obtain ⟨hc0, hc1⟩ := clamp_bounds (100 - (m.map Prod.snd).sum)
  obtain ⟨hr0, hr1⟩ := round_to_int_bounds _ hc0 hc1
  obtain ⟨alpha, ha, ha0, ha1⟩ := weight_table_vec_at _ hr0 hr1
  refine ⟨M, alpha, hM, hmem, hmax, ha, ha0, ha1, ?_⟩
  unfold compute_load_sigmoid
  simp only [accumulate_eq_sum, hM, ha]

theorem convex_bounds (a x y : ℚ) (ha0 : 0 ≤ a) (ha1 : a ≤ 1) (hx0 : 0 ≤ x) (hx1 : x ≤ 1)
    (hy0 : 0 ≤ y) (hy1 : y ≤ 1) : 0 ≤ a * x + (1 - a) * y ∧ a * x + (1 - a) * y ≤ 1 := by
  have h1 : 0 ≤ 1 - a := by linarith
  constructor
  · have := mul_nonneg ha0 hx0
    have := mul_nonneg h1 hy0
    linarith
  · have := mul_le_mul_of_nonneg_left hx1 ha0
    have := mul_le_mul_of_nonneg_left hy1 h1
    linarith

/-- C15. For every non-empty usage map with values in `[0, 100]`, `compute_load_sigmoid`
returns, and the load it has written for every pid of the map is between 0 and 1 (in exact
arithmetic). -/
theorem compute_load_sigmoid_bounds (m L : List (Int × ℚ)) (hne : m ≠ [])
    (hv : ∀ e ∈ m, 0 ≤ e.2 ∧ e.2 ≤ 100) :
    ∃ L', compute_load_sigmoid m L = Outcome.done L' ∧
      ∀ e ∈ m, ∃ v, umap_at L' e.1 = some v ∧ 0 ≤ v ∧ v ≤ 1 := by
  obtain ⟨M, alpha, -, hmem, -, -, ha0, ha1, hdone⟩ := compute_load_sigmoid_done m L hne
  refine ⟨_, hdone, ?_⟩
  intro e he
  have hkey : e.1 ∈ umap_keys m := List.mem_map_of_mem Prod.fst he
  obtain ⟨A, u, B, hAB, hB⟩ := split_last_key m e.1 hkey
  have hu : 0 ≤ u := by
    have : (e.1, u) ∈ m := by rw [hAB]; simp
    exact (hv _ this).1
  have hM : 0 ≤ M := by
    obtain ⟨e', he', hs⟩ := List.mem_map.1 hmem
    rw [← hs]
    exact (hv e' he').1
  obtain ⟨hf0, -⟩ := clamp_bounds (100 - (m.map Prod.snd).sum)
  obtain ⟨l1, l2⟩ := load_bounds u _ hu hf0
  obtain ⟨l3, l4⟩ := load_bounds u M hu hM
  refine ⟨_, ?_, convex_bounds alpha _ _ ha0 ha1 l1 l2 l3 l4⟩
  have hw := write_loads_last alpha (1 - alpha) (clamp (100 - (m.map Prod.snd).sum) 0 100) M
    A B L e.1 u hB
  rw [← hAB] at hw
  exact hw

theorem compute_load_sigmoid_bounds_witness :
    ([(100, 20), (101, 30)] : List (Int × ℚ)) ≠ [] ∧
    (∀ e ∈ ([(100, 20), (101, 30)] : List (Int × ℚ)), 0 ≤ e.2 ∧ e.2 ≤ 100) ∧
    compute_load_sigmoid [(100, 20), (101, 30)] [] =
      Outcome.done [(100, 8 / 15), (101, 4 / 5)] ∧
    ∃ L', compute_load_sigmoid [(100, 20), (101, 30)] [] = Outcome.done L' ∧
      ∀ e ∈ ([(100, 20), (101, 30)] : List (Int × ℚ)),
        ∃ v, umap_at L' e.1 = some v ∧ 0 ≤ v ∧ v ≤ 1 :=
  ⟨by decide, by decide!, by decide!,
    compute_load_sigmoid_bounds [(100, 20), (101, 30)] [] (by decide) (by decide!)⟩

/-! ## The load estimator: two scenarios (C19, C20) -/

theorem umap_at_of_mem_nodup {β : Type} (m : List (Int × β)) (k : Int) (v : β)
    (hn : (umap_keys m).Nodup) (h : (k, v) ∈ m) : umap_at m k = some v := by
  induction m with
  | nil => cases h
  | cons e rest ih =>
    obtain ⟨a, b⟩ := e
    have hn' : a ∉ umap_keys rest ∧ (umap_keys rest).Nodup := by
      simpa [umap_keys] using hn
    rcases List.mem_cons.1 h with h | h
    · injection h with h1 h2
      subst h1 h2
      simp [umap_at]
    · have hne : ¬ a = k := by
        intro hc
        subst hc
        exact hn'.1 (List.mem_map_of_mem Prod.fst h)
      simp only [umap_at, hne, if_false]
      exact ih hn'.2 h

/-- C19. A CPU with two PIDs at 20% each: `free` is 60, `max_u` is 20, `alpha` is
`weight_table[60] = 27/35`, and `compute_load_sigmoid` gives each PID the load
`alpha/3 + (1 - alpha) = 17/35` (exact arithmetic, `beta = 3`). -/
theorem two_pids_at_twenty (p1 p2 : Int) (L : List (Int × ℚ)) :
    clamp (100 - accumulate (([(p1, 20), (p2, 20)] : List (Int × ℚ)).map Prod.snd)) 0 100 = 60 ∧
    ranges_max (([(p1, 20), (p2, 20)] : List (Int × ℚ)).map Prod.snd) = some 20 ∧
    vec_at weight_table (round_to_int 60) = some (27 / 35) ∧
    (27 / 35 : ℚ) / 3 + (1 - 27 / 35) = 17 / 35 ∧
    ∃ L', compute_load_sigmoid [(p1, 20), (p2, 20)] L = Outcome.done L' ∧
      umap_at L' p1 = some (17 / 35) ∧ umap_at L' p2 = some (17 / 35) := by
  have hfree : clamp (100 - accumulate ([20, 20] : List ℚ)) 0 100 = 60 := by decide!
  have hmax : ranges_max ([20, 20] : List ℚ) = some 20 := by decide!
  have halpha : vec_at weight_table (round_to_int 60) = some (27 / 35) := by decide!
  have hval : (27 / 35 : ℚ) * load 20 60 + (1 - 27 / 35) * load 20 20 = 17 / 35 := by decide!
  refine ⟨hfree, hmax, halpha, by norm_num, ?_⟩
  have hdone : compute_load_sigmoid [(p1, 20), (p2, 20)] L =
      Outcome.done (write_loads (27 / 35) (1 - 27 / 35) 60 20 [(p1, 20), (p2, 20)] L) := by
    unfold compute_load_sigmoid
    simp only [List.map, hfree, hmax, halpha]
  refine ⟨_, hdone, ?_, ?_⟩
  · by_cases h : p1 = p2
    · subst h
      have := write_loads_last (27 / 35) (1 - 27 / 35) 60 20 [(p1, 20)] [] L p1 20
        (by simp [umap_keys])
      rw [hval] at this
      exact this
    · have := write_loads_last (27 / 35) (1 - 27 / 35) 60 20 [] [(p2, 20)] L p1 20
        (by simp [umap_keys, h])
      rw [hval] at this
      exact this
  · have := write_loads_last (27 / 35) (1 - 27 / 35) 60 20 [(p1, 20)] [] L p2 20
      (by simp [umap_keys])
    rw [hval] at this
    exact this

theorem list_sum_nonpos (xs : List ℚ) (h : ∀ y ∈ xs, y ≤ 0) : xs.sum ≤ 0 := by
  induction xs with
  | nil => simp
  | cons x rest ih =>
    have h1 := h x (List.mem_cons_self _ _)
    have h2 := ih (fun y hy => h y (List.mem_cons_of_mem _ hy))
    simp only [List.sum_cons]
    linarith

theorem clamp_saturated (v : ℚ) (h : v ≤ 0) : clamp v 0 100 = 0 := by
  unfold clamp
  by_cases h0 : v < 0
  · rw [if_pos h0]
  · rw [if_neg h0]
    have hv : v = 0 := le_antisymm h (not_lt.1 h0)
    subst hv
    norm_num

theorem load_of_le_max (u M : ℚ) (hM : 0 < M) (hu : u ≤ M) : load u M = u / M := by
  unfold load
  rw [if_neg (ne_of_gt hM)]
  by_cases h : u / M < 1
  · rw [if_pos h]
  · rw [if_neg h]
    have h1 : u / M ≤ 1 := (div_le_one hM).2 hu
    exact le_antisymm (not_lt.1 h) h1

/-- C20. For every non-empty usage map with values in `[0, 100]` whose sum is at least 100:
`free` is 0, `alpha` is `weight_table[0] = 0`, the maximum `max_u` is positive,
`compute_load_sigmoid` returns, each PID gets the load `u_i / max_u`, and a PID whose usage
is the maximum gets the load 1. -/
theorem saturated_cpu_loads (m L : List (Int × ℚ)) (hne : m ≠ [])
    (_hv : ∀ e ∈ m, 0 ≤ e.2 ∧ e.2 ≤ 100) (hk : (umap_keys m).Nodup)
    (hsum : 100 ≤ (m.map Prod.snd).sum) :
    clamp (100 - accumulate (m.map Prod.snd)) 0 100 = 0 ∧
    vec_at weight_table (round_to_int 0) = some 0 ∧
    ∃ M L', ranges_max (m.map Prod.snd) = some M ∧ 0 < M ∧
      compute_load_sigmoid m L = Outcome.done L' ∧
      (∀ e ∈ m, umap_at L' e.1 = some (e.2 / M)) ∧
      (∃ e ∈ m, e.2 = M) ∧ (∀ e ∈ m, e.2 = M → umap_at L' e.1 = some 1) := by
  have hfree : clamp (100 - (m.map Prod.snd).sum) 0 100 = 0 :=
    clamp_saturated _ (by linarith)
  have halpha : vec_at weight_table (round_to_int 0) = some 0 := by decide!
  obtain ⟨M, alpha, hM, hmem, hmax, ha, -, -, hdone⟩ := compute_load_sigmoid_done m L hne
  rw [hfree] at ha hdone
  rw [halpha] at ha
  injection ha with ha
  subst ha
  have hMpos : 0 < M := by
    by_contra hc
    have hle : ∀ y ∈ m.map Prod.snd, y ≤ 0 := fun y hy => le_trans (hmax y hy) (not_lt.1 hc)
    have := list_sum_nonpos _ hle
    linarith
  have hall : ∀ e ∈ m, umap_at (write_loads 0 (1 - 0) 0 M m L) e.1 = some (e.2 / M) := by
    intro e he
    obtain ⟨A, u, B, hAB, hB⟩ := split_last_key m e.1 (List.mem_map_of_mem Prod.fst he)
    have hu : u = e.2 := by
      have h1 : (e.1, u) ∈ m := by rw [hAB]; simp
      have h2 := umap_at_of_mem_nodup m e.1 u hk h1
      have h3 := umap_at_of_mem_nodup m e.1 e.2 hk he
      rw [h2] at h3
      exact Option.some.inj h3
    have hw := write_loads_last 0 (1 - 0) 0 M A B L e.1 u hB
    rw [← hAB, hu] at hw
    rw [hw, load_of_le_max e.2 M hMpos (hmax _ (List.mem_map_of_mem Prod.snd he))]
    simp
  refine ⟨by rw [accumulate_eq_sum]; exact hfree, halpha, M, _, hM, hMpos, hdone, hall, ?_, ?_⟩
  · obtain ⟨e, he, hs⟩ := List.mem_map.1 hmem
    exact ⟨e, he, hs⟩
  · intro e he heM
    rw [hall e he, heM, div_self (ne_of_gt hMpos)]

theorem saturated_cpu_loads_witness :
    ([(7, 100)] : List (Int × ℚ)) ≠ [] ∧
    (∀ e ∈ ([(7, 100)] : List (Int × ℚ)), 0 ≤ e.2 ∧ e.2 ≤ 100) ∧
    (umap_keys ([(7, 100)] : List (Int × ℚ))).Nodup ∧
    100 ≤ (([(7, 100)] : List (Int × ℚ)).map Prod.snd).sum ∧
    compute_load_sigmoid [(7, 100)] [] = Outcome.done [(7, 1)] ∧
    (clamp (100 - accumulate (([(7, 100)] : List (Int × ℚ)).map Prod.snd)) 0 100 = 0 ∧
    vec_at weight_table (round_to_int 0) = some 0 ∧
    ∃ M L', ranges_max (([(7, 100)] : List (Int × ℚ)).map Prod.snd) = some M ∧ 0 < M ∧
      compute_load_sigmoid [(7, 100)] [] = Outcome.done L' ∧
      (∀ e ∈ ([(7, 100)] : List (Int × ℚ)), umap_at L' e.1 = some (e.2 / M)) ∧
      (∃ e ∈ ([(7, 100)] : List (Int × ℚ)), e.2 = M) ∧
      (∀ e ∈ ([(7, 100)] : List (Int × ℚ)), e.2 = M → umap_at L' e.1 = some 1)) :=
  ⟨by decide, by decide!, by decide, by decide!, by decide!,
    saturated_cpu_loads [(7, 100)] [] (by decide) (by decide!) (by decide) (by decide!)⟩

/-! ## Loads of a CPU and of a node (C17) -/

theorem accumulate_loads_sum (s : snapshot τ) (pids : List Int)
    (hdef : ∀ p ∈ pids, load_of s p ≠ none) :
    accumulate_loads s pids = some ((pids.map (fun p => (load_of s p).getD 0)).sum) := by
  have key : ∀ (pids : List Int) (a : ℚ), (∀ p ∈ pids, load_of s p ≠ none) →
      pids.foldl
        (fun acc pid =>
          match acc, load_of s pid with
          | some a, some l => some (a + l)
          | _, _ => none)
        (some a) = some (a + (pids.map (fun p => (load_of s p).getD 0)).sum) := by
    intro pids
    induction pids with
    | nil => intro a _; simp
    | cons p rest ih =>
      intro a hd
      obtain ⟨l, hl⟩ := Option.ne_none_iff_exists'.1 (hd p (List.mem_cons_self _ _))
      simp only [List.foldl_cons, hl, List.map_cons, List.sum_cons, Option.getD_some]
      rw [ih (a + l) (fun q hq => hd q (List.mem_cons_of_mem _ hq))]
      congr 1
      ring
  unfold accumulate_loads
  rw [key pids 0 hdef]
  simp

/-- C17 as stated fails: on the snapshot staged by `migrate_to_cpu(100, 3)`,
`original_pids_in_cpu(3)` is `{104}`, whose loads sum to `41/365`, and `load_of_cpu(3)` is
`707/1095 = 41/365 + 8/15`: the load of pid 100, staged on CPU 3, is counted. -/
theorem load_of_cpu_reads_dirty_view :
    (fresh5.andThen (migrate_to_cpu P5 100 3)).observe
        (fun s => (original_pids_in_cpu s 3, load_of s 104, load_of s 100, load_of_cpu s 3)) =
      some (some [104], some (41 / 365), some (8 / 15), some (707 / 1095)) := by
  decide!

/-- C17, amended. In every snapshot state, `load_of_cpu(cpu)` is the sum of `load_of(pid)`
over the pids of `pids_in_cpu(cpu)`, the dirty view, and `load_of_node(node)` the sum over
`pids_in_node(node)` (the loads of these pids being defined); when the dirty bundle equals
the clean bundle, these are the sums over `original_pids_in_cpu(cpu)` and
`original_pids_in_node(node)`. -/
theorem load_of_cpu_sums_dirty_view (s : snapshot τ) (x : Int) (pids : List Int)
    (hdef : ∀ p ∈ pids, load_of s p ≠ none) :
    (pids_in_cpu s x = some pids →
      load_of_cpu s x = some ((pids.map (fun p => (load_of s p).getD 0)).sum)) ∧
    (pids_in_node s x = some pids →
      load_of_node s x = some ((pids.map (fun p => (load_of s p).getD 0)).sum)) ∧
    (dirty_bundle s = clean_bundle s → original_pids_in_cpu s x = some pids →
      load_of_cpu s x = some ((pids.map (fun p => (load_of s p).getD 0)).sum)) ∧
    (dirty_bundle s = clean_bundle s → original_pids_in_node s x = some pids →
      load_of_node s x = some ((pids.map (fun p => (load_of s p).getD 0)).sum)) := by
  have hc : pids_in_cpu s x = some pids →
      load_of_cpu s x = some ((pids.map (fun p => (load_of s p).getD 0)).sum) := by
    intro h
    unfold load_of_cpu
    rw [h]
    exact accumulate_loads_sum s pids hdef
  have hn : pids_in_node s x = some pids →
      load_of_node s x = some ((pids.map (fun p => (load_of s p).getD 0)).sum) := by
    intro h
    unfold load_of_node
    rw [h]
    exact accumulate_loads_sum s pids hdef
  refine ⟨hc, hn, ?_, ?_⟩
  · intro hb h
    simp only [dirty_bundle, clean_bundle, Prod.mk.injEq] at hb
    apply hc
    unfold pids_in_cpu
    rw [hb.1]
    exact h
  · intro hb h
    simp only [dirty_bundle, clean_bundle, Prod.mk.injEq] at hb
    apply hn
    unfold pids_in_node
    rw [hb.2.1]
    exact h

theorem load_of_cpu_sums_dirty_view_witness :
    (∀ p ∈ ([104, 100] : List Int), load_of staged5 p ≠ none) ∧
    pids_in_cpu staged5 3 = some [104, 100] ∧
    load_of_cpu staged5 3 =
      some ((([104, 100] : List Int).map (fun p => (load_of staged5 p).getD 0)).sum) :=
  ⟨by decide!, by decide!,
    (load_of_cpu_sums_dirty_view staged5 3 [104, 100] (by decide!)).1 (by decide!)⟩

/-! ## Loads after rebuild (C18) -/

theorem rebuild_step_keeps_member {proc : process} {s s' : snapshot τ}
    (h : rebuild_step proc s = Outcome.done s') (c : Int) (set : List Int) (p : Int)
    (hset : vec_at s.cpu_pid_map_ c = some set) (hp : p ∈ set) :
    ∃ set', vec_at s'.cpu_pid_map_ c = some set' ∧ p ∈ set' := by
  obtain ⟨m1, m2, u1, u2, h1, -, -, -, rfl⟩ := rebuild_step_full h
  dsimp only
  rw [vec_at_update h1 c]
  by_cases hc : c = proc.processor
  · rw [if_pos hc, hset]
    exact ⟨_, rfl, (mem_uset_insert _ _ _).2 (Or.inr hp)⟩
  · rw [if_neg hc]
    exact ⟨set, hset, hp⟩

theorem rebuild_loop_keeps_member (recs : List process) (s s' : snapshot τ)
    (h : for_each recs rebuild_step s = Outcome.done s') (c : Int) (p : Int) :
    (∃ set, vec_at s.cpu_pid_map_ c = some set ∧ p ∈ set) →
      ∃ set', vec_at s'.cpu_pid_map_ c = some set' ∧ p ∈ set' :=
  for_each_done_rel
    (fun (a b : snapshot τ) => (∃ set, vec_at a.cpu_pid_map_ c = some set ∧ p ∈ set) →
      ∃ set', vec_at b.cpu_pid_map_ c = some set' ∧ p ∈ set')
    (fun _ ha => ha) (fun _ _ _ hab hbc ha => hbc (hab ha))
    (fun _ _ _ hx ha => by
      obtain ⟨set, hset, hp⟩ := ha
      exact rebuild_step_keeps_member hx c set p hset hp) recs s s' h

/-- After the loop of `rebuild`, the pid of every record is in the set of the CPU that the
record reports. -/
theorem rebuild_loop_member (recs : List process) (s s' : snapshot τ)
    (h : for_each recs rebuild_step s = Outcome.done s') (r : process) (hr : r ∈ recs) :
    ∃ set, vec_at s'.cpu_pid_map_ r.processor = some set ∧ r.pid ∈ set := by
  induction recs generalizing s with
  | nil => cases hr
  | cons x rest ih =>
    obtain ⟨m, hm, hrest⟩ := for_each_cons_done h
    rcases List.mem_cons.1 hr with hr | hr
    · subst hr
      apply rebuild_loop_keeps_member rest m s' hrest
      obtain ⟨m1, m2, u1, u2, h1, -, -, -, rfl⟩ := rebuild_step_full hm
      obtain ⟨set0, hset0⟩ := vec_update_at h1
      dsimp only
      rw [vec_at_update h1, if_pos rfl, hset0]
      exact ⟨_, rfl, (mem_uset_insert _ _ _).2 (Or.inl rfl)⟩
    · exact ih m hrest hr

theorem compute_load_sigmoid_shape {m L L' : List (Int × ℚ)}
    (h : compute_load_sigmoid m L = Outcome.done L') :
    ∃ a b f M, L' = write_loads a b f M m L := by
  unfold compute_load_sigmoid at h
  dsimp only at h
  split at h
  · cases h
  · split at h
    · cases h
    · injection h with h
      exact ⟨_, _, _, _, h.symm⟩

theorem write_loads_defined (a b f M : ℚ) (m L : List (Int × ℚ)) (pid : Int)
    (h : pid ∈ umap_keys m ∨ umap_at L pid ≠ none) :
    umap_at (write_loads a b f M m L) pid ≠ none := by
  by_cases hk : pid ∈ umap_keys m
  · obtain ⟨A, u, B, hAB, hB⟩ := split_last_key m pid hk
    rw [hAB, write_loads_last a b f M A B L pid u hB]
    exact Option.some_ne_none _
  · rw [write_loads_other a b f M m L pid hk]
    rcases h with h | h
    · exact absurd h hk
    · exact h

/-- Source `compute_loads(cpu)`, when it returns, written out. -/
theorem compute_loads_cpu_full {P : ProcessSource τ} {cpu : Int} {s s' : snapshot τ}
    (h : compute_loads_cpu P cpu s = Outcome.done s') :
    ∃ pids L', vec_at s.cpu_pid_map_ cpu = some pids ∧
      compute_load_sigmoid (pids.map (fun pid => (pid, P.cpu_use s.processes_ pid)))
        s.pid_load_map_ = Outcome.done L' ∧
      s' = { s with pid_load_map_ := L' } := by
  unfold compute_loads_cpu at h
  split at h
  · cases h
  rename_i pids hp
  dsimp only at h
  split at h
  · rename_i L' hL
    injection h with h
    exact ⟨pids, L', hp, hL, h.symm⟩
  · cases h
  · cases h

/-- After `compute_loads()`, every pid of the clean set of a CPU of the topology has a
load, and a pid that had a load still has one. -/
theorem compute_loads_defines {P : ProcessSource τ} (cpus : List Int) (s s' : snapshot τ)
    (h : for_each cpus (compute_loads_cpu P) s = Outcome.done s') (p : Int) :
    (load_of s p ≠ none → load_of s' p ≠ none) ∧
    (∀ cpu ∈ cpus, ∀ pids, vec_at s.cpu_pid_map_ cpu = some pids → p ∈ pids →
      load_of s' p ≠ none) := by
  induction cpus generalizing s with
  | nil =>
    simp only [for_each] at h
    injection h with h
    subst h
    exact ⟨fun hl => hl, fun cpu hc => by cases hc⟩
  | cons x rest ih =>
    obtain ⟨m, hm, hrest⟩ := for_each_cons_done h
    obtain ⟨pids0, L', hp0, hL, rfl⟩ := compute_loads_cpu_full hm
    obtain ⟨a, b, f, M, rfl⟩ := compute_load_sigmoid_shape hL
    obtain ⟨ih1, ih2⟩ := ih _ hrest
    constructor
    · intro hl
      apply ih1
      exact write_loads_defined _ _ _ _ _ _ p (Or.inr hl)
    · intro cpu hc pids hpids hmem
      rcases List.mem_cons.1 hc with hc | hc
      · subst hc
        apply ih1
        rw [hp0] at hpids
        injection hpids with hpids
        subst hpids
        apply write_loads_defined _ _ _ _ _ _ p (Or.inl ?_)
        simp only [umap_keys, List.map_map]
        exact List.mem_map.2 ⟨p, hmem, rfl⟩
      · exact ih2 cpu hc pids hpids hmem

/-- C18 as stated fails: on the machine `topo_gap` (allowed CPUs 0 and 3) with the records
`recs_gap`, construction returns, pid 101 is observed on the in-range CPU 1, and
`load_of(101)` is not defined; the pids on CPUs 0 and 3 have loads. -/
theorem load_undefined_off_allowed_cpus :
    (snapshot_new (stub_source topo_gap) topo_gap recs_gap 3 1).observe
        (fun s => (original_processor s 101, load_of s 101, load_of s 100, load_of s 104)) =
      some (some 1, none, some (17 / 65), some (41 / 365)) := by
  decide!

/-- C18, amended. After `rebuild()` returns, `load_of(pid)` is defined for every record
whose CPU is one of the CPUs of the topology (the allowed CPUs, which `compute_loads()`
visits). -/
theorem rebuild_defines_loads (P : ProcessSource τ) (s0 s : snapshot τ) (r : process)
    (h : rebuild P s0 = Outcome.done s)
    (hr : r ∈ P.records s0.processes_)
    (hcpu : r.processor ∈ s0.topology_.cpus) :
    ∃ l, load_of s r.pid = some l := by
  obtain ⟨s1, h1, h2⟩ := rebuild_done h
  obtain ⟨set, hset, hmem⟩ := rebuild_loop_member _ _ _ h1 r hr
  have htopo : (copy_to_dirty s1).topology_ = s0.topology_ := by
    have e := rebuild_loop_done h1
    unfold clean_only at e
    rw [e]
    rfl
  unfold compute_loads at h2
  rw [htopo] at h2
  have := (compute_loads_defines _ _ _ h2 r.pid).2 r.processor hcpu set hset hmem
  exact Option.ne_none_iff_exists'.1 this

theorem rebuild_defines_loads_witness :
    rebuild P5 clean5 = Outcome.done clean5 ∧
    ({ pid := 100, processor := 0, numa_node := 0, cpu_use := 20 } : process) ∈
      P5.records clean5.processes_ ∧
    (0 : Int) ∈ clean5.topology_.cpus ∧
    ∃ l, load_of clean5 100 = some l :=
  ⟨by decide!, by decide!, by decide,
    rebuild_defines_loads P5 clean5 clean5
      { pid := 100, processor := 0, numa_node := 0, cpu_use := 20 }
      (by decide!) (by decide!) (by decide)⟩

/-! ## idx, failing and repeated staging, the idle CPU (C25 to C30) -/

theorem fresh_cpuset_eq :
    snapshot_new P_cpuset topo_cpuset recs_cpuset 1 1 = Outcome.done clean_cpuset := by
  decide!

theorem idle2_reached :
    compute_loads_cpu P5 0 { idle2 with pid_load_map_ := [] } = Outcome.done idle2 ∧
      build P5 3 1 (snapshot_members topo4 recs2) =
        (compute_loads_cpu P5 0 { idle2 with pid_load_map_ := [] }).andThen
          (for_each [1, 2, 3] (compute_loads_cpu P5)) := by
  decide!

/-- C25. `idx(i)` throws exactly when `i` is negative, and for every `i ≥ 0` it returns
the index of the same numeric value. -/
theorem idx_fails_iff_negative (i : Int) :
    (idx i = none ↔ i < 0) ∧ (0 ≤ i → ∃ n : Nat, idx i = some n ∧ (n : Int) = i) := by
  unfold idx
  constructor
  · constructor
    · intro h
      by_contra hn
      rw [if_neg hn] at h
      cases h
    · intro h
      rw [if_pos h]
  · intro h
    refine ⟨i.toNat, ?_, Int.toNat_of_nonneg h⟩
    rw [if_neg (not_lt.2 h)]

theorem idx_fails_iff_negative_witness :
    ((idx (-1) = none ↔ (-1 : Int) < 0) ∧
      ((0 : Int) ≤ -1 → ∃ n : Nat, idx (-1) = some n ∧ (n : Int) = -1)) ∧
    (0 : Int) ≤ 3 ∧ ∃ n : Nat, idx 3 = some n ∧ (n : Int) = 3 :=
  ⟨idx_fails_iff_negative (-1), by decide, (idx_fails_iff_negative 3).2 (by decide)⟩

/-- C26. On a node whose CPU list is empty `migrate_to_node` raises no error: it
dereferences `begin()` of the empty sample view, which is undefined behaviour (and the dirty
flag has been set before). -/
theorem migrate_to_node_empty_node_undefined (P : ProcessSource τ) (draw : Nat)
    (pid node : Int) (s : snapshot τ) (h : s.topology_.cpus_from_node node = some []) :
    migrate_to_node P draw pid node s = Outcome.undefined := by
  unfold migrate_to_node
  dsimp only
  rw [h]
  rfl

theorem migrate_to_node_empty_node_undefined_witness :
    topology_new numa_cpuset = Outcome.done topo_cpuset ∧
    snapshot_new P_cpuset topo_cpuset recs_cpuset 1 1 = Outcome.done clean_cpuset ∧
    clean_cpuset.topology_.cpus_from_node 1 = some [] ∧
    migrate_to_node P_cpuset 0 100 1 clean_cpuset = Outcome.undefined :=
  ⟨by decide, by decide!, by decide,
    migrate_to_node_empty_node_undefined P_cpuset 0 100 1 clean_cpuset (by decide)⟩

theorem migrate_to_cpu_done_sets {P : ProcessSource τ} {pid cpu : Int} {s s' : snapshot τ}
    (h : migrate_to_cpu P pid cpu s = Outcome.done s') :
    ∃ old_cpu m1,
      umap_at s.dirty_pid_cpu_map_ pid = some old_cpu ∧
      vec_update s.dirty_cpu_pid_map_ old_cpu (fun set => uset_erase set pid) = some m1 ∧
      vec_update m1 cpu (fun set => uset_insert set pid) = some s'.dirty_cpu_pid_map_ ∧
      s'.dirty_pid_cpu_map_ = s.dirty_pid_cpu_map_ := by
  obtain ⟨node, oc, onode, t1, -, hoc, -, hs, rfl⟩ := migrate_to_cpu_done h
  obtain ⟨m1, m2, m3, m4, u1, u2, u3, u4, a1, -, a3, -, -, -, -, -, rfl⟩ :=
    stage_move_done hs
  exact ⟨oc, m1, hoc, a1, a3, rfl⟩

/-- C27. For a pid `p` whose staged position reads CPU `c0`, and CPUs `c1 ≠ c0` and
`c2 ≠ c1`: after `migrate_to_cpu(p, c1)` and then `migrate_to_cpu(p, c2)` have returned,
`p` is a member of `pids_in_cpu(c2)` and still a member of `pids_in_cpu(c1)`. The second
call reads the old CPU from `dirty_pid_cpu_map_`, which the first call has not written, so
it erases `p` from the set of `c0` again. -/
theorem second_migration_duplicates_pid (P : ProcessSource τ) (s s1 s2 : snapshot τ)
    (p c0 c1 c2 : Int)
    (h0 : processor s p = some c0) (h01 : c1 ≠ c0) (h12 : c1 ≠ c2)
    (hm1 : migrate_to_cpu P p c1 s = Outcome.done s1)
    (hm2 : migrate_to_cpu P p c2 s1 = Outcome.done s2) :
    (∃ set, pids_in_cpu s2 c1 = some set ∧ p ∈ set) ∧
      (∃ set, pids_in_cpu s2 c2 = some set ∧ p ∈ set) ∧ processor s2 p = some c0 := by
  obtain ⟨oc, m1, hoc, a1, a3, ea⟩ := migrate_to_cpu_done_sets hm1
  obtain ⟨oc', n1, hoc', b1, b3, eb⟩ := migrate_to_cpu_done_sets hm2
  unfold processor at h0
  rw [ea, h0] at hoc'
  rw [h0] at hoc
  have e1 : oc = c0 := (Option.some.inj hoc).symm
  have e2 : oc' = c0 := (Option.some.inj hoc').symm
  subst e1
  subst e2
  obtain ⟨set1, hset1⟩ := vec_update_at a3
  obtain ⟨set2, hset2⟩ := vec_update_at b3
  have r1 : vec_at s2.dirty_cpu_pid_map_ c1 = some (uset_insert set1 p) := by
    rw [vec_at_update b3 c1, if_neg h12, vec_at_update b1 c1, if_neg h01,
      vec_at_update a3 c1, if_pos rfl, hset1]
    rfl
  have r2 : vec_at s2.dirty_cpu_pid_map_ c2 = some (uset_insert set2 p) := by
    rw [vec_at_update b3 c2, if_pos rfl, hset2]
    rfl
  have i1 : p ∈ uset_insert set1 p := (mem_uset_insert _ _ _).2 (Or.inl rfl)
  have i2 : p ∈ uset_insert set2 p := (mem_uset_insert _ _ _).2 (Or.inl rfl)
  refine ⟨⟨_, r1, i1⟩, ⟨_, r2, i2⟩, ?_⟩
  unfold processor
  rw [eb, ea]
  exact h0

theorem second_migration_duplicates_pid_witness :
    fresh5 = Outcome.done clean5 ∧
    processor clean5 100 = some 0 ∧ (3 : Int) ≠ 0 ∧ (3 : Int) ≠ 2 ∧
    migrate_to_cpu P5 100 3 clean5 = Outcome.done staged5 ∧
    (migrate_to_cpu P5 100 2 staged5).observe
        (fun s => (pids_in_cpu s 2, pids_in_cpu s 3, processor s 100)) =
      some (some [103, 100], some [104, 100], some 0) ∧
    ((∃ set, pids_in_cpu twice5 3 = some set ∧ (100 : Int) ∈ set) ∧
      (∃ set, pids_in_cpu twice5 2 = some set ∧ (100 : Int) ∈ set) ∧
      processor twice5 100 = some 0) :=
  ⟨by decide!, by decide!, by decide, by decide, by decide!, by decide!,
    second_migration_duplicates_pid P5 clean5 staged5 twice5 100 0 3 2
      (by decide!) (by decide) (by decide) (by decide!) (by decide!)⟩

/-- C28. On a CPU whose clean pid set is empty `compute_loads(cpu)` is not skipped: it calls
`compute_load_sigmoid` on the empty usage map, where `ranges::max` of an empty range is
undefined behaviour. -/
theorem compute_loads_idle_cpu_undefined (P : ProcessSource τ) (cpu : Int) (s : snapshot τ)
    (h : vec_at s.cpu_pid_map_ cpu = some []) :
    compute_loads_cpu P cpu s = Outcome.undefined := by
  unfold compute_loads_cpu
  rw [h]
  rfl

theorem compute_loads_idle_cpu_undefined_witness :
    vec_at idle2.cpu_pid_map_ 1 = some [] ∧
    compute_loads_cpu P5 1 idle2 = Outcome.undefined ∧
    snapshot_new P5 topo4 recs2 3 1 = Outcome.undefined :=
  ⟨by decide, compute_loads_idle_cpu_undefined P5 1 idle2 (by decide), by decide!⟩

/-- C29. With `c` the CPU that `migrate_to_node(pid, node)` picks from
`cpus_from_node(node)`, on a topology where `node_from_cpu(c) == node`: the call does what
the specification says, `migrate_to_cpu(pid, c)` with the pending record moved; when the two
calls return, the dirty bundles (and the dirty flag) are equal, `migrate_to_node` has
recorded `node_migrations_[pid] = node` and left `cpu_migrations_` as it was, and
`migrate_to_cpu` has recorded `cpu_migrations_[pid] = c` and left `node_migrations_` as it
was; one call returns exactly when the other does. -/
theorem migrate_to_node_refines_migrate_to_cpu (P : ProcessSource τ) (draw : Nat)
    (pid node c : Int) (cpus : List Int) (s : snapshot τ)
    (hc : s.topology_.cpus_from_node node = some cpus)
    (hs : sample_one cpus draw = some c)
    (hn : s.topology_.node_from_cpu c = some node) :
    migrate_to_node P draw pid node s = migrate_to_node_spec P c pid node s ∧
    ((∃ s1, migrate_to_cpu P pid c s = Outcome.done s1) ↔
      ∃ s2, migrate_to_node P draw pid node s = Outcome.done s2) ∧
    ∀ s1 s2, migrate_to_cpu P pid c s = Outcome.done s1 →
      migrate_to_node P draw pid node s = Outcome.done s2 →
      dirty_bundle s2 = dirty_bundle s1 ∧ s2.dirty_ = s1.dirty_ ∧
      s2.node_migrations_ = umap_assign s.node_migrations_ pid node ∧
      s2.cpu_migrations_ = s.cpu_migrations_ ∧
      s1.cpu_migrations_ = umap_assign s.cpu_migrations_ pid c ∧
      s1.node_migrations_ = s.node_migrations_ := by
  have heq : migrate_to_node P draw pid node s = migrate_to_node_spec P c pid node s := by
    unfold migrate_to_node migrate_to_node_spec migrate_to_cpu
    dsimp only
    rw [hc, hn]
    dsimp only
    rw [hs]
    dsimp only
    cases h1 : umap_at s.dirty_pid_cpu_map_ pid with
    | none => rfl
    | some old_cpu =>
      dsimp only
      cases h2 : umap_at s.dirty_pid_node_map_ pid with
      | none => rfl
      | some old_node =>
        dsimp only
        cases h3 : stage_move P pid old_cpu old_node c node { s with dirty_ := true } with
        | done s1 =>
          obtain ⟨m1, m2, m3, m4, u1, u2, u3, u4, -, -, -, -, -, -, -, -, rfl⟩ :=
            stage_move_done h3
          rfl
        | raised s1 => rfl
        | undefined => rfl
  refine ⟨heq, ?_, ?_⟩
  · rw [heq]
    unfold migrate_to_node_spec
    constructor
    · rintro ⟨s1, h1⟩
      rw [h1]
      exact ⟨_, rfl⟩
    · rintro ⟨s2, h2⟩
      cases h1 : migrate_to_cpu P pid c s with
      | done s1 => exact ⟨s1, rfl⟩
      | raised s1 => rw [h1] at h2; cases h2
      | undefined => rw [h1] at h2; cases h2
  · intro s1 s2 h1 h2
    rw [heq] at h2
    unfold migrate_to_node_spec at h2
    rw [h1] at h2
    injection h2 with h2
    subst h2
    obtain ⟨node', oc, onode, s0, -, -, -, hmove, rfl⟩ := migrate_to_cpu_done h1
    obtain ⟨m1, m2, m3, m4, u1, u2, u3, u4, -, -, -, -, -, -, -, -, rfl⟩ :=
      stage_move_done hmove
    exact ⟨rfl, rfl, rfl, rfl, rfl, rfl⟩

theorem migrate_to_node_refines_migrate_to_cpu_witness :
    clean5.topology_.cpus_from_node 1 = some [2, 3] ∧
    sample_one [2, 3] 0 = some (2 : Int) ∧
    clean5.topology_.node_from_cpu 2 = some 1 ∧
    (migrate_to_cpu P5 102 2 clean5).observe
        (fun s => (s.cpu_migrations_, s.node_migrations_)) = some ([(102, 2)], []) ∧
    (migrate_to_node P5 0 102 1 clean5).observe
        (fun s => (s.cpu_migrations_, s.node_migrations_)) = some ([], [(102, 1)]) ∧
    migrate_to_node P5 0 102 1 clean5 = migrate_to_node_spec P5 2 102 1 clean5 :=
  ⟨by decide, by decide, by decide, by decide!, by decide!,
    (migrate_to_node_refines_migrate_to_cpu P5 0 102 1 2 [2, 3] clean5
      (by decide) (by decide) (by decide)).1⟩

/-- C30 (counterexample). On the clean snapshot `clean5`, `migrate_to_cpu(999, 3)` fails
because pid 999 is not in the dirty pid-to-CPU map, and `migrate_to_cpu(100, 7)` fails
because CPU 7 is out of range; both leave the snapshot with the dirty flag set, where it was
clear before the call. -/
theorem failing_migrate_to_cpu_sets_dirty :
    clean5.dirty_ = false ∧
    umap_at clean5.dirty_pid_cpu_map_ 999 = none ∧
    migrate_to_cpu P5 999 3 clean5 = Outcome.raised { clean5 with dirty_ := true } ∧
    clean5.topology_.node_from_cpu 7 = none ∧
    migrate_to_cpu P5 100 7 clean5 = Outcome.raised { clean5 with dirty_ := true } ∧
    ({ clean5 with dirty_ := true } : snapshot (List process)) ≠ clean5 := by
  decide!

/-- C30 (amended). When `migrate_to_cpu(pid, cpu)` fails because `cpu` is out of range
(`node_from_cpu` throws) or because `pid` is not in the dirty pid-to-CPU map, the state
after the call is the state before it with the dirty flag set: the pending maps and the
dirty and clean bundles are unchanged. -/
theorem failing_migrate_to_cpu_frame (P : ProcessSource τ) (pid cpu : Int) (s : snapshot τ)
    (h : s.topology_.node_from_cpu cpu = none ∨ umap_at s.dirty_pid_cpu_map_ pid = none) :
    migrate_to_cpu P pid cpu s = Outcome.raised { s with dirty_ := true } := by
  unfold migrate_to_cpu
  dsimp only
  cases h1 : s.topology_.node_from_cpu cpu with
  | none => rfl
  | some node =>
    dsimp only
    rcases h with h | h
    · rw [h1] at h
      cases h
    · rw [h]

theorem failing_migrate_to_cpu_frame_witness :
    (clean5.topology_.node_from_cpu 3 = none ∨ umap_at clean5.dirty_pid_cpu_map_ 999 = none) ∧
    migrate_to_cpu P5 999 3 clean5 = Outcome.raised { clean5 with dirty_ := true } :=
  ⟨Or.inr (by decide), failing_migrate_to_cpu_frame P5 999 3 clean5 (Or.inr (by decide))⟩

/-! ## Topology detection (C21 to C24) -/

theorem bits_sorted (size : Nat) (p : Nat → Bool) :
    (((List.range size).filter p).map Int.ofNat).Pairwise (fun a b => a < b) := by
  rw [List.pairwise_map]
  have h : (List.range size).Pairwise (fun a b => a < b) := List.pairwise_lt_range size
  have h2 : ((List.range size).filter p).Pairwise (fun a b => a < b) :=
    h.sublist (List.filter_sublist (List.range size))
  exact h2.imp (fun hab => Int.ofNat_lt.2 hab)

theorem allowed_nodes_sorted (k : numa) :
    (allowed_nodes k).Pairwise (fun a b => a < b) :=
  bits_sorted _ _

theorem allowed_cpus_sorted (k : numa) :
    (allowed_cpus k).Pairwise (fun a b => a < b) :=
  bits_sorted _ _

theorem allowed_cpus_nonneg (k : numa) (c : Int) (h : c ∈ allowed_cpus k) : 0 ≤ c := by
  unfold allowed_cpus at h
  rw [List.mem_map] at h
  obtain ⟨n, -, rfl⟩ := h
  exact Int.ofNat_nonneg n

theorem multimap_emplace_perm (m : List (Int × Int)) (key value : Int) :
    (multimap_emplace m key value).Perm ((key, value) :: m) := by
  induction m with
  | nil => exact List.Perm.refl _
  | cons e rest ih =>
    obtain ⟨a, b⟩ := e
    unfold multimap_emplace
    split
    · exact List.Perm.refl _
    · exact (List.Perm.cons _ ih).trans (List.Perm.swap _ _ _)

theorem multimap_emplace_order (m : List (Int × Int)) (key value : Int)
    (hm : m.Pairwise multimap_order) (hv : ∀ e ∈ m, e.2 < value) :
    (multimap_emplace m key value).Pairwise multimap_order := by
  induction m with
  | nil => exact List.pairwise_singleton _ _
  | cons e rest ih =>
    obtain ⟨a, b⟩ := e
    rw [List.pairwise_cons] at hm
    obtain ⟨hhead, hrest⟩ := hm
    unfold multimap_emplace
    split
    · rename_i hlt
      refine List.pairwise_cons.2 ⟨?_, List.pairwise_cons.2 ⟨hhead, hrest⟩⟩
      intro x hx
      rw [List.mem_cons] at hx
      rcases hx with rfl | hx
      · exact Or.inl hlt
      · have := hhead x hx
        unfold multimap_order at this ⊢
        dsimp only at this ⊢
        omega
    · rename_i hge
      refine List.pairwise_cons.2 ⟨?_, ih hrest (fun e he => hv e (List.mem_cons_of_mem _ he))⟩
      intro x hx
      have hx' := (multimap_emplace_perm rest key value).subset hx
      rw [List.mem_cons] at hx'
      rcases hx' with rfl | hx'
      · have := hv (a, b) (List.mem_cons_self _ _)
        unfold multimap_order
        dsimp only at this ⊢
        omega
      · exact hhead x hx'

theorem emplace_loop (dist : Int → Int) (nodes_ : List Int) :
    ∀ acc : List (Int × Int), acc.Pairwise multimap_order →
      (∀ e ∈ acc, e.1 = dist e.2) → (∀ e ∈ acc, ∀ x ∈ nodes_, e.2 < x) →
      nodes_.Pairwise (fun a b => a < b) →
      (nodes_.foldl (fun m node_2 => multimap_emplace m (dist node_2) node_2)
          acc).Pairwise multimap_order ∧
      (∀ e ∈ nodes_.foldl (fun m node_2 => multimap_emplace m (dist node_2) node_2) acc,
        e.1 = dist e.2) ∧
      ((nodes_.foldl (fun m node_2 => multimap_emplace m (dist node_2) node_2)
          acc).map Prod.snd).Perm (acc.map Prod.snd ++ nodes_) := by
  induction nodes_ with
  | nil =>
    intro acc h1 h2 _ _
    exact ⟨h1, h2, by simp⟩
  | cons x rest ih =>
    intro acc h1 h2 h3 h4
    rw [List.pairwise_cons] at h4
    obtain ⟨hx, hrest⟩ := h4
    have hp := multimap_emplace_perm acc (dist x) x
    have := ih (multimap_emplace acc (dist x) x)
      (multimap_emplace_order acc (dist x) x h1 (fun e he => h3 e he x (List.mem_cons_self _ _)))
      (by
        intro e he
        have he' := hp.subset he
        rw [List.mem_cons] at he'
        rcases he' with rfl | he'
        · rfl
        · exact h2 e he')
      (by
        intro e he y hy
        have he' := hp.subset he
        rw [List.mem_cons] at he'
        rcases he' with rfl | he'
        · exact hx y hy
        · exact h3 e he' y (List.mem_cons_of_mem _ hy))
      hrest
    obtain ⟨r1, r2, r3⟩ := this
    refine ⟨r1, r2, ?_⟩
    rw [List.foldl_cons]
    refine r3.trans ?_
    have hp2 : ((multimap_emplace acc (dist x) x).map Prod.snd).Perm
        (x :: acc.map Prod.snd) := by
      simpa using hp.map Prod.snd
    refine (List.Perm.append_right rest hp2).trans ?_
    exact List.perm_middle.symm

theorem sort_by_distance_spec (k : numa) (node : Int) (nodes_ : List Int)
    (h : nodes_.Pairwise (fun a b => a < b)) :
    (sort_by_distance k node nodes_).Perm nodes_ ∧
    (sort_by_distance k node nodes_).Pairwise
      (fun a b => k.numa_distance node a < k.numa_distance node b ∨
        (k.numa_distance node a = k.numa_distance node b ∧ a < b)) := by
  obtain ⟨r1, r2, r3⟩ := emplace_loop (k.numa_distance node) nodes_ []
    List.Pairwise.nil (by simp) (by simp) h
  unfold sort_by_distance
  refine ⟨by simpa using r3, ?_⟩
  rw [List.pairwise_map]
  refine List.Pairwise.imp_of_mem ?_ r1
  intro a b ha hb hab
  unfold multimap_order at hab
  rw [r2 a ha, r2 b hb] at hab
  exact hab

theorem resize_length {α : Type} (v : List α) (n : Nat) (a : α) :
    (resize v n a).length = n := by
  unfold resize
  simp only [List.length_append, List.length_take, List.length_replicate]
  omega

theorem vec_resize_eq_some {α : Type} {v v' : List α} {n : Int} {a : α}
    (h : vec_resize v n a = some v') : 0 ≤ n ∧ v' = resize v n.toNat a := by
  unfold vec_resize at h
  split at h
  · cases h
  · rename_i hn
    injection h with h
    exact ⟨not_lt.1 hn, h.symm⟩

theorem vec_update_length {α : Type} {v v' : List α} {i : Int} {f : α → α}
    (h : vec_update v i f = some v') : v'.length = v.length := by
  obtain ⟨a, -, -, rfl⟩ := vec_update_eq_some h
  exact List.length_set _ _ _

theorem vec_at_eq_none_iff {α : Type} (v : List α) (i : Int) :
    vec_at v i = none ↔ i < 0 ∨ (v.length : Int) ≤ i := by
  unfold vec_at idx
  by_cases hi : i < 0
  · simp [hi]
  · simp only [hi, if_false, false_or]
    rw [List.getElem?_eq_none_iff]
    omega

theorem detect_frame_refl (k : numa) (t : topology) : detect_frame k t t :=
  ⟨rfl, rfl, rfl, rfl, rfl, fun _ h => h⟩

theorem detect_frame_trans (k : numa) (a b c : topology) (h1 : detect_frame k a b)
    (h2 : detect_frame k b c) : detect_frame k a c := by
  obtain ⟨nodes1, cpus1, len1, len2, len3, keep1⟩ := h1
  obtain ⟨nodes2, cpus2, len4, len5, len6, keep2⟩ := h2
  refine ⟨nodes2.trans nodes1, cpus2.trans cpus1, ?_, ?_, ?_, ?_⟩
  · rw [len4, len1]
  · rw [len5, len2]
  · rw [len6, len3]
  · intro n h
    exact keep2 n (keep1 n h)

theorem detect_node_cpus_frame (k : numa) (node : Int) (t t' : topology)
    (h : detect_node_cpus k node t = Outcome.done t') : detect_frame k t t' := by
  unfold detect_node_cpus at h
  split at h
  · cases h
  rename_i cpus _
  split at h
  · cases h
  rename_i m hm
  dsimp only at h
  split at h
  · cases h
  split at h
  · cases h
  injection h with h
  subst h
  exact ⟨rfl, rfl, vec_update_length hm, rfl, rfl, fun _ h => h⟩

theorem detect_cpu_node_frame (k : numa) (cpu : Int) (t t' : topology)
    (h : detect_cpu_node k cpu t = Outcome.done t') : detect_frame k t t' := by
  unfold detect_cpu_node at h
  split at h
  · cases h
  rename_i m hm
  injection h with h
  subst h
  exact ⟨rfl, rfl, rfl, vec_update_length hm, rfl, fun _ h => h⟩

theorem detect_node_distances_done (k : numa) (node : Int) (t t' : topology)
    (h : detect_node_distances k node t = Outcome.done t') :
    detect_frame k t t' ∧
      vec_at t'.nodes_by_distance_ node = some (sort_by_distance k node t'.nodes_) := by
  unfold detect_node_distances at h
  dsimp only at h
  split at h
  · cases h
  rename_i d hd
  injection h with h
  subst h
  obtain ⟨old, hold⟩ := vec_update_at hd
  have hat := vec_at_update hd
  refine ⟨⟨rfl, rfl, rfl, rfl, vec_update_length hd, ?_⟩, ?_⟩
  · intro n hn
    dsimp only
    rw [hat n]
    by_cases e : n = node
    · subst e
      rw [if_pos rfl, hold]
      rfl
    · rw [if_neg e]
      exact hn
  · dsimp only
    rw [hat node, if_pos rfl, hold]
    rfl

theorem for_each_done_mem {α σ : Type} {body : α → σ → Outcome σ} (R : σ → σ → Prop)
    (hrefl : ∀ s, R s s) (htrans : ∀ a b c, R a b → R b c → R a c)
    (hb : ∀ x s s', body x s = Outcome.done s' → R s s') :
    ∀ (xs : List α) (s s' : σ), for_each xs body s = Outcome.done s' →
      ∀ x ∈ xs, ∃ a b, R s a ∧ body x a = Outcome.done b ∧ R b s' := by
  intro xs
  induction xs with
  | nil =>
    intro s s' _ x hx
    cases hx
  | cons y rest ih =>
    intro s s' h x hx
    simp only [for_each] at h
    split at h
    · rename_i s1 h1
      rw [List.mem_cons] at hx
      rcases hx with rfl | hx
      · exact ⟨s, s1, hrefl s, h1, for_each_done_rel R hrefl htrans hb rest s1 s' h⟩
      · obtain ⟨a, b, r1, r2, r3⟩ := ih s1 s' h x hx
        exact ⟨a, b, htrans _ _ _ (hb y s s1 h1) r1, r2, r3⟩
    · cases h
    · cases h

theorem detect_system_NUMA_done (k : numa) (t0 t : topology)
    (h : detect_system_NUMA k t0 = Outcome.done t) :
    ∃ mc m c d t1 t2,
      max_cpu k = some mc ∧
      vec_resize t0.node_cpu_map_ (max_node k + 1) [] = some m ∧
      for_each (allowed_nodes k) (detect_node_cpus k)
        { t0 with nodes_ := allowed_nodes k, cpus_ := allowed_cpus k, node_cpu_map_ := m } =
          Outcome.done t1 ∧
      vec_resize t1.cpu_node_map_ (mc + 1) 0 = some c ∧
      for_each t1.cpus_ (detect_cpu_node k) { t1 with cpu_node_map_ := c } =
        Outcome.done t2 ∧
      vec_resize t2.nodes_by_distance_ (max_node k + 1) [] = some d ∧
      for_each t2.nodes_ (detect_node_distances k) { t2 with nodes_by_distance_ := d } =
        Outcome.done t := by
  unfold detect_system_NUMA at h
  dsimp only at h
  split at h
  · cases h
  rename_i mc hmc
  try dsimp only at h
  split at h
  · cases h
  rename_i m hm
  cases h1 : for_each (allowed_nodes k) (detect_node_cpus k)
      { t0 with nodes_ := allowed_nodes k, cpus_ := allowed_cpus k, node_cpu_map_ := m } with
  | raised _ => rw [h1] at h; cases h
  | undefined => rw [h1] at h; cases h
  | done t1 =>
    rw [h1] at h
    simp only [Outcome.andThen] at h
    split at h
    · cases h
    rename_i c hc
    cases h2 : for_each t1.cpus_ (detect_cpu_node k) { t1 with cpu_node_map_ := c } with
    | raised _ => rw [h2] at h; cases h
    | undefined => rw [h2] at h; cases h
    | done t2 =>
      rw [h2] at h
      dsimp only at h
      split at h
      · cases h
      rename_i d hd
      exact ⟨mc, m, c, d, t1, t2, hmc, hm, h1, hc, h2, hd, h⟩

theorem foldl_max_ge (rest : List Int) :
    ∀ x : Int, x ≤ rest.foldl (fun m y => if m < y then y else m) x ∧
      ∀ y ∈ rest, y ≤ rest.foldl (fun m y => if m < y then y else m) x := by
  induction rest with
  | nil =>
    intro x
    exact ⟨le_refl x, fun y hy => by cases hy⟩
  | cons z rest ih =>
    intro x
    rw [List.foldl_cons]
    obtain ⟨i1, i2⟩ := ih (if x < z then z else x)
    refine ⟨le_trans ?_ i1, ?_⟩
    · split <;> omega
    · intro y hy
      rw [List.mem_cons] at hy
      rcases hy with rfl | hy
      · refine le_trans ?_ i1
        split <;> omega
      · exact i2 y hy

theorem max_cpu_spec (k : numa) (mc : Int) (h : max_cpu k = some mc) :
    0 ≤ mc ∧ ∀ c ∈ allowed_cpus k, 0 ≤ c ∧ c ≤ mc := by
  unfold max_cpu at h
  split at h
  · cases h
  rename_i x rest hx
  injection h with h
  subst h
  obtain ⟨i1, i2⟩ := foldl_max_ge rest x
  have hx0 : 0 ≤ x := allowed_cpus_nonneg k x (by rw [hx]; exact List.mem_cons_self _ _)
  refine ⟨le_trans hx0 i1, ?_⟩
  intro c hc
  refine ⟨allowed_cpus_nonneg k c hc, ?_⟩
  rw [hx, List.mem_cons] at hc
  rcases hc with rfl | hc
  · exact i1
  · exact i2 c hc

theorem detect_system_NUMA_spec (k : numa) (t : topology)
    (h : detect_system_NUMA k topology_members = Outcome.done t) :
    t.nodes_ = allowed_nodes k ∧ t.cpus_ = allowed_cpus k ∧
    ∃ mc, max_cpu k = some mc ∧ 0 ≤ max_node k + 1 ∧
      t.cpu_node_map_.length = (mc + 1).toNat ∧
      t.node_cpu_map_.length = (max_node k + 1).toNat ∧
      t.nodes_by_distance_.length = (max_node k + 1).toNat ∧
      ∀ n ∈ allowed_nodes k,
        vec_at t.nodes_by_distance_ n = some (sort_by_distance k n (allowed_nodes k)) := by
  obtain ⟨mc, m, c, d, t1, t2, hmc, hm, h1, hc, h2, hd, h3⟩ := detect_system_NUMA_done k _ t h
  obtain ⟨hn0, rfl⟩ := vec_resize_eq_some hm
  obtain ⟨-, rfl⟩ := vec_resize_eq_some hc
  obtain ⟨-, rfl⟩ := vec_resize_eq_some hd
  have F1 := for_each_done_rel (detect_frame k) (detect_frame_refl k) (detect_frame_trans k)
    (detect_node_cpus_frame k) _ _ _ h1
  have F2 := for_each_done_rel (detect_frame k) (detect_frame_refl k) (detect_frame_trans k)
    (detect_cpu_node_frame k) _ _ _ h2
  have hb3 : ∀ x s s', detect_node_distances k x s = Outcome.done s' → detect_frame k s s' :=
    fun x s s' hx => (detect_node_distances_done k x s s' hx).1
  have F3 := for_each_done_rel (detect_frame k) (detect_frame_refl k) (detect_frame_trans k)
    hb3 _ _ _ h3
  obtain ⟨a1, a2, a3, a4, a5, -⟩ := F1
  obtain ⟨b1, b2, b3, b4, b5, -⟩ := F2
  obtain ⟨c1, c2, c3, c4, c5, -⟩ := F3
  dsimp only at a1 a2 a3 a4 a5 b1 b2 b3 b4 b5 c1 c2 c3 c4 c5
  rw [resize_length] at a3 b4 c5
  have hnodes : t.nodes_ = allowed_nodes k := c1.trans (b1.trans a1)
  refine ⟨hnodes, c2.trans (b2.trans a2), mc, hmc, hn0, c4.trans b4, c3.trans (b3.trans a3),
    c5, ?_⟩
  intro n hn
  have hn' : n ∈ t2.nodes_ := by rw [b1, a1]; exact hn
  obtain ⟨a, b, -, r2, r3⟩ := for_each_done_mem (detect_frame k) (detect_frame_refl k)
    (detect_frame_trans k) hb3 _ _ _ h3 n hn'
  have := r3.2.2.2.2.2 n (detect_node_distances_done k n a b r2).2
  rw [hnodes] at this
  exact this

theorem detect_system_UMA_spec (k : numa) (t : topology)
    (h : detect_system_UMA k topology_members = Outcome.done t) :
    t.nodes_ = [0] ∧ t.cpus_ = allowed_cpus k ∧
    ∃ mc, max_cpu k = some mc ∧ 0 ≤ max_node k + 1 ∧
      t.cpu_node_map_.length = (mc + 1).toNat ∧
      t.node_cpu_map_.length = (max_node k + 1).toNat ∧
      t.nodes_by_distance_.length = (max_node k + 1).toNat ∧
      vec_at t.node_cpu_map_ 0 = some (allowed_cpus k) ∧
      vec_at t.nodes_by_distance_ 0 = some [1] := by
  unfold detect_system_UMA at h
  dsimp only at h
  split at h
  · cases h
  rename_i mc hmc
  try dsimp only at h
  split at h
  · cases h
  rename_i m hm
  try dsimp only at h
  split at h
  · cases h
  rename_i m2 hm2
  try dsimp only at h
  split at h
  · cases h
  rename_i front hfront
  try dsimp only at h
  split at h
  · cases h
  rename_i c hc
  try dsimp only at h
  split at h
  · cases h
  rename_i d hd
  try dsimp only at h
  split at h
  · cases h
  rename_i d2 hd2
  injection h with h
  subst h
  obtain ⟨hn0, rfl⟩ := vec_resize_eq_some hm
  obtain ⟨-, rfl⟩ := vec_resize_eq_some hc
  obtain ⟨-, rfl⟩ := vec_resize_eq_some hd
  obtain ⟨o1, ho1⟩ := vec_update_at hm2
  obtain ⟨o2, ho2⟩ := vec_update_at hd2
  refine ⟨rfl, rfl, mc, hmc, hn0, ?_, ?_, ?_, ?_, ?_⟩
  · exact resize_length _ _ _
  · dsimp only
    rw [vec_update_length hm2]
    exact resize_length _ _ _
  · dsimp only
    rw [vec_update_length hd2]
    exact resize_length _ _ _
  · dsimp only
    rw [vec_at_update hm2 0, if_pos rfl, ho1]
    rfl
  · dsimp only
    rw [vec_at_update hd2 0, if_pos rfl, ho2]
    rfl

theorem topology_new_NUMA (k : numa) (t : topology) (ha : 0 ≤ k.numa_available)
    (h : topology_new k = Outcome.done t) :
    detect_system_NUMA k topology_members = Outcome.done t := by
  unfold topology_new detect_system at h
  rw [if_neg (not_lt.2 ha)] at h
  exact h

theorem topology_new_UMA (k : numa) (t : topology) (ha : k.numa_available < 0)
    (h : topology_new k = Outcome.done t) :
    detect_system_UMA k topology_members = Outcome.done t := by
  unfold topology_new detect_system at h
  rw [if_pos ha] at h
  exact h

theorem pairwise_getElem {α : Type} {R : α → α → Prop} {l : List α} (h : l.Pairwise R)
    {i j : Nat} {a b : α} (hij : i < j) (hi : l[i]? = some a) (hj : l[j]? = some b) :
    R a b := by
  obtain ⟨hi1, hi2⟩ := List.getElem?_eq_some.1 hi
  obtain ⟨hj1, hj2⟩ := List.getElem?_eq_some.1 hj
  have := List.pairwise_iff_getElem.1 h i j hi1 hj1 hij
  rw [hi2, hj2] at this
  exact this

/-- C21. On a machine where NUMA is available, for every node `n` of the constructed
topology (the allowed nodes): `nodes_by_distance(n)` returns a permutation of the allowed
nodes; for all positions `i < j` the distance from `n` of the node at `i` is at most that of
the node at `j`, and when the two distances are equal the node at `i` has the smaller id. -/
theorem nodes_by_distance_sorted (k : numa) (t : topology) (n : Int)
    (ha : 0 ≤ k.numa_available) (h : topology_new k = Outcome.done t) (hn : n ∈ t.nodes) :
    t.nodes = allowed_nodes k ∧
    ∃ l, t.nodes_by_distance n = some l ∧ l.Perm t.nodes ∧
      (∀ (i j : Nat) (a b : Int), i < j → l[i]? = some a → l[j]? = some b →
        k.numa_distance n a ≤ k.numa_distance n b) ∧
      (∀ (i j : Nat) (a b : Int), i < j → l[i]? = some a → l[j]? = some b →
        k.numa_distance n a = k.numa_distance n b → a < b) := by
  obtain ⟨h1, -, mc, -, -, -, -, -, h2⟩ :=
    detect_system_NUMA_spec k t (topology_new_NUMA k t ha h)
  unfold topology.nodes at hn ⊢
  rw [h1] at hn ⊢
  obtain ⟨p1, p2⟩ := sort_by_distance_spec k n (allowed_nodes k) (allowed_nodes_sorted k)
  refine ⟨rfl, _, h2 n hn, p1, ?_, ?_⟩
  · intro i j a b hij hi hj
    have := pairwise_getElem p2 hij hi hj
    omega
  · intro i j a b hij hi hj he
    have := pairwise_getElem p2 hij hi hj
    omega

theorem nodes_by_distance_sorted_witness :
    (0 : Int) ≤ numa_gap.numa_available ∧
    topology_new numa_gap = Outcome.done topo_gap ∧
    (1 : Int) ∈ topo_gap.nodes ∧
    topo_gap.nodes_by_distance 1 = some [1, 0] ∧
    (topo_gap.nodes = allowed_nodes numa_gap ∧
      ∃ l, topo_gap.nodes_by_distance 1 = some l ∧ l.Perm topo_gap.nodes ∧
        (∀ (i j : Nat) (a b : Int), i < j → l[i]? = some a → l[j]? = some b →
          numa_gap.numa_distance 1 a ≤ numa_gap.numa_distance 1 b) ∧
        (∀ (i j : Nat) (a b : Int), i < j → l[i]? = some a → l[j]? = some b →
          numa_gap.numa_distance 1 a = numa_gap.numa_distance 1 b → a < b)) :=
  ⟨by decide, by decide, by decide, by decide,
    nodes_by_distance_sorted numa_gap topo_gap 1 (by decide) (by decide) (by decide)⟩

/-- C22 (counterexample). On the machine `numa_tie` the kernel reports the distance 10
between every two nodes, so no node is closer to node 1 than node 1 itself; the list that
`nodes_by_distance(1)` returns starts with node 0. -/
theorem nodes_by_distance_tie_head :
    topology_new numa_tie = Outcome.done topo_tie ∧
    (1 : Int) ∈ topo_tie.nodes ∧
    (∀ m ∈ topo_tie.nodes, numa_tie.numa_distance 1 1 ≤ numa_tie.numa_distance 1 m) ∧
    topo_tie.nodes_by_distance 1 = some [0, 1] ∧
    (topo_tie.nodes_by_distance 1).bind List.head? = some 0 := by
  decide

/-- C22 (amended). On a machine where NUMA is available, for every allowed node `n` such
that no allowed node is closer to `n` than `n` itself and every allowed node of a smaller id
is farther from `n` than `n` itself, the first element of `nodes_by_distance(n)` is `n`. -/
theorem nodes_by_distance_head (k : numa) (t : topology) (n : Int)
    (ha : 0 ≤ k.numa_available) (h : topology_new k = Outcome.done t) (hn : n ∈ t.nodes)
    (hself : ∀ m ∈ t.nodes, k.numa_distance n n ≤ k.numa_distance n m)
    (hless : ∀ m ∈ t.nodes, m < n → k.numa_distance n n < k.numa_distance n m) :
    (t.nodes_by_distance n).bind List.head? = some n := by
  obtain ⟨h1, -, mc, -, -, -, -, -, h2⟩ :=
    detect_system_NUMA_spec k t (topology_new_NUMA k t ha h)
  unfold topology.nodes at hn hself hless
  rw [h1] at hn hself hless
  obtain ⟨p1, p2⟩ := sort_by_distance_spec k n (allowed_nodes k) (allowed_nodes_sorted k)
  unfold topology.nodes_by_distance
  rw [h2 n hn]
  have hmem : n ∈ sort_by_distance k n (allowed_nodes k) := p1.mem_iff.2 hn
  cases hl : sort_by_distance k n (allowed_nodes k) with
  | nil =>
    rw [hl] at hmem
    cases hmem
  | cons x rest =>
    rw [hl] at hmem p2 p1
    show some x = some n
    rw [List.mem_cons] at hmem
    rcases hmem with rfl | hmem
    · rfl
    · have hx : x ∈ allowed_nodes k := p1.mem_iff.1 (List.mem_cons_self _ _)
      have p3 := (List.pairwise_cons.1 p2).1 n hmem
      have q1 := hself x hx
      have q2 := hless x hx
      have : x = n := by
        rcases p3 with p3 | ⟨p3, p4⟩
        · omega
        · have := q2 p4
          omega
      rw [this]

theorem nodes_by_distance_head_witness :
    (0 : Int) ≤ numa_gap.numa_available ∧
    topology_new numa_gap = Outcome.done topo_gap ∧
    (1 : Int) ∈ topo_gap.nodes ∧
    (∀ m ∈ topo_gap.nodes, numa_gap.numa_distance 1 1 ≤ numa_gap.numa_distance 1 m) ∧
    (∀ m ∈ topo_gap.nodes, m < 1 → numa_gap.numa_distance 1 1 < numa_gap.numa_distance 1 m) ∧
    (topo_gap.nodes_by_distance 1).bind List.head? = some 1 :=
  ⟨by decide, by decide, by decide, by decide, by decide,
    nodes_by_distance_head numa_gap topo_gap 1 (by decide) (by decide) (by decide)
      (by decide) (by decide)⟩

/-- C23. On a machine where NUMA is not available, the constructed topology has
`nodes() == {0}` and `cpus_from_node(0) == allowed_cpus()`, and `nodes_by_distance(0)`
returns the list `{1}`, not `{0}`. -/
theorem uma_nodes_by_distance (k : numa) (t : topology) (ha : k.numa_available < 0)
    (h : topology_new k = Outcome.done t) :
    t.nodes = [0] ∧ t.cpus_from_node 0 = some (allowed_cpus k) ∧
      t.nodes_by_distance 0 = some [1] := by
  obtain ⟨h1, -, mc, -, -, -, -, -, h2, h3⟩ :=
    detect_system_UMA_spec k t (topology_new_UMA k t ha h)
  exact ⟨h1, h2, h3⟩

theorem uma_nodes_by_distance_witness :
    numa_uma.numa_available < 0 ∧
    topology_new numa_uma = Outcome.done topo_uma ∧
    allowed_cpus numa_uma = [0, 1] ∧
    (topo_uma.nodes = [0] ∧ topo_uma.cpus_from_node 0 = some (allowed_cpus numa_uma) ∧
      topo_uma.nodes_by_distance 0 = some [1]) :=
  ⟨by decide, by decide, by decide,
    uma_nodes_by_distance numa_uma topo_uma (by decide) (by decide)⟩

/-- C24 (counterexample). On the machine `numa_gap` CPU 1 is not an allowed CPU and
`node_from_cpu(1)` returns node 0; on the machine `numa_cpuset` node 1 is not an allowed
node and `cpus_from_node(1)` returns the empty list. -/
theorem lookups_accept_ids_not_allowed :
    topology_new numa_gap = Outcome.done topo_gap ∧
    (1 : Int) ∉ topo_gap.cpus ∧ topo_gap.node_from_cpu 1 = some 0 ∧
    topology_new numa_cpuset = Outcome.done topo_cpuset ∧
    (1 : Int) ∉ topo_cpuset.nodes ∧ topo_cpuset.cpus_from_node 1 = some [] := by
  decide

/-- C24 (amended). On the constructed topology `node_from_cpu(cpu)` succeeds for every
allowed CPU and `cpus_from_node(node)` succeeds for every allowed node; `node_from_cpu(cpu)`
fails exactly when `cpu < 0` or `cpu > max_cpu()`, and `cpus_from_node(node)` fails exactly
when `node < 0` or `node > max_node()`. -/
theorem lookups_fail_out_of_range (k : numa) (t : topology)
    (h : topology_new k = Outcome.done t) :
    (∀ cpu ∈ t.cpus, t.node_from_cpu cpu ≠ none) ∧
    (∀ node ∈ t.nodes, t.cpus_from_node node ≠ none) ∧
    (∃ mc, max_cpu k = some mc ∧
      ∀ cpu, t.node_from_cpu cpu = none ↔ (cpu < 0 ∨ mc < cpu)) ∧
    (∀ node, t.cpus_from_node node = none ↔ (node < 0 ∨ max_node k < node)) := by
  have key : t.cpus_ = allowed_cpus k ∧
      ∃ mc, max_cpu k = some mc ∧ 0 ≤ max_node k + 1 ∧
        t.cpu_node_map_.length = (mc + 1).toNat ∧
        t.node_cpu_map_.length = (max_node k + 1).toNat ∧
        ∀ node ∈ t.nodes_, vec_at t.node_cpu_map_ node ≠ none := by
    by_cases ha : k.numa_available < 0
    · obtain ⟨h1, h2, mc, h3, h4, h5, h6, -, h8, -⟩ :=
        detect_system_UMA_spec k t (topology_new_UMA k t ha h)
      refine ⟨h2, mc, h3, h4, h5, h6, ?_⟩
      intro node hnode
      rw [h1, List.mem_singleton] at hnode
      subst hnode
      rw [h8]
      exact Option.some_ne_none _
    · obtain ⟨h1, h2, mc, h3, h4, h5, h6, h7, h8⟩ :=
        detect_system_NUMA_spec k t (topology_new_NUMA k t (not_lt.1 ha) h)
      refine ⟨h2, mc, h3, h4, h5, h6, ?_⟩
      intro node hnode
      rw [h1] at hnode
      have e := h8 node hnode
      intro hnone
      rw [vec_at_eq_none_iff, h6] at hnone
      have hsome : vec_at t.nodes_by_distance_ node ≠ none := by
        rw [e]
        exact Option.some_ne_none _
      rw [Ne, vec_at_eq_none_iff, h7] at hsome
      exact hsome hnone
  obtain ⟨k1, mc, k2, k3, k4, k5, k6⟩ := key
  obtain ⟨m0, m1⟩ := max_cpu_spec k mc k2
  have ecpu : ∀ cpu, t.node_from_cpu cpu = none ↔ (cpu < 0 ∨ mc < cpu) := by
    intro cpu
    unfold topology.node_from_cpu
    rw [vec_at_eq_none_iff, k4]
    omega
  refine ⟨?_, k6, ⟨mc, k2, ecpu⟩, ?_⟩
  · intro cpu hcpu
    unfold topology.cpus at hcpu
    rw [k1] at hcpu
    obtain ⟨c0, c1⟩ := m1 cpu hcpu
    rw [Ne, ecpu cpu]
    omega
  · intro node
    unfold topology.cpus_from_node
    rw [vec_at_eq_none_iff, k5]
    omega

theorem lookups_fail_out_of_range_witness :
    topology_new numa_gap = Outcome.done topo_gap ∧
    ((∀ cpu ∈ topo_gap.cpus, topo_gap.node_from_cpu cpu ≠ none) ∧
    (∀ node ∈ topo_gap.nodes, topo_gap.cpus_from_node node ≠ none) ∧
    (∃ mc, max_cpu numa_gap = some mc ∧
      ∀ cpu, topo_gap.node_from_cpu cpu = none ↔ (cpu < 0 ∨ mc < cpu)) ∧
    (∀ node, topo_gap.cpus_from_node node = none ↔ (node < 0 ∨ max_node numa_gap < node))) :=
  ⟨by decide, lookups_fail_out_of_range numa_gap topo_gap (by decide)⟩

/-! ## The load map across updates (C31) -/

theorem umap_at_ne_none_iff {β : Type} (m : List (Int × β)) (k : Int) :
    umap_at m k ≠ none ↔ k ∈ umap_keys m := by
  constructor
  · intro h
    obtain ⟨v, hv⟩ := Option.ne_none_iff_exists'.1 h
    exact umap_at_some_mem hv
  · intro h hnone
    exact umap_at_none hnone h

theorem write_loads_nodup (a b f M : ℚ) (m L : List (Int × ℚ))
    (h : (umap_keys L).Nodup) : (umap_keys (write_loads a b f M m L)).Nodup := by
  induction m generalizing L with
  | nil => exact h
  | cons e rest ih =>
    unfold write_loads at ih ⊢
    rw [List.foldl_cons]
    exact ih _ (nodup_keys_assign L _ _ h)

theorem compute_loads_nodup {P : ProcessSource τ} (cpus : List Int) (s s' : snapshot τ)
    (h : for_each cpus (compute_loads_cpu P) s = Outcome.done s')
    (hn : (umap_keys s.pid_load_map_).Nodup) : (umap_keys s'.pid_load_map_).Nodup := by
  refine for_each_done_rel
    (fun (x y : snapshot τ) =>
      (umap_keys x.pid_load_map_).Nodup → (umap_keys y.pid_load_map_).Nodup)
    (fun _ hx => hx) (fun _ _ _ hxy hyz hx => hyz (hxy hx)) ?_ cpus s s' h hn
  intro cpu x y hxy hx
  obtain ⟨pids, L, -, hL, rfl⟩ := compute_loads_cpu_full hxy
  obtain ⟨a, b, f, M, rfl⟩ := compute_load_sigmoid_shape hL
  exact write_loads_nodup _ _ _ _ _ _ hx

theorem sum_values_over_keys (m : List (Int × ℚ)) (h : (umap_keys m).Nodup) :
    ((umap_keys m).map (fun p => (umap_at m p).getD 0)).sum = (m.map Prod.snd).sum := by
  induction m with
  | nil => rfl
  | cons e rest ih =>
    obtain ⟨k, v⟩ := e
    have h' : k ∉ umap_keys rest ∧ (umap_keys rest).Nodup := by
      simpa [umap_keys] using h
    have hrest : (umap_keys rest).map (fun p => (umap_at ((k, v) :: rest) p).getD 0) =
        (umap_keys rest).map (fun p => (umap_at rest p).getD 0) := by
      apply List.map_congr_left
      intro p hp
      have hne : ¬ k = p := by
        intro hc
        subst hc
        exact h'.1 hp
      simp only [umap_at, if_neg hne]
    have hhead : (umap_at ((k, v) :: rest) k).getD 0 = v := by
      simp [umap_at]
    show (umap_at ((k, v) :: rest) k).getD 0 +
        ((umap_keys rest).map (fun p => (umap_at ((k, v) :: rest) p).getD 0)).sum =
      v + (rest.map Prod.snd).sum
    rw [hhead, hrest, ih h'.2]

/-- The load map of a constructed snapshot has no duplicate key (the representation
invariant of the association list that stands for the `unordered_map`). -/
theorem snapshot_new_loads_nodup (P : ProcessSource τ) (t : topology) (p : τ)
    (max_cpu max_node : Nat) (s : snapshot τ)
    (h : snapshot_new P t p max_cpu max_node = Outcome.done s) :
    (umap_keys s.pid_load_map_).Nodup := by
  unfold snapshot_new build at h
  dsimp only at h
  obtain ⟨s1, h1, h2⟩ := rebuild_done h
  have e1 := rebuild_loop_done h1
  unfold clean_only at e1
  unfold compute_loads at h2
  refine compute_loads_nodup _ _ _ h2 ?_
  show (umap_keys s1.pid_load_map_).Nodup
  rw [e1]
  exact List.nodup_nil

/-- C31 (counterexample). Over a source that reports `recs6` and then `recs5`, after
`update()` pid 105 is not in the clean pid-to-CPU map and `load_of(105)` still returns its
last load, which `load_system()` counts: the sum of the loads of the observed pids is
`1829 / 1095`, `load_system()` is `25748 / 14235`. On the machine `topo_gap`, after
`update()` pid 101 is in the clean pid-to-CPU map (on CPU 1, not an allowed CPU) and
`load_of(101)` is not defined. -/
theorem update_keeps_vanished_loads :
    (fresh6.andThen (update replay_source)).observe
        (fun s => (umap_keys s.pid_cpu_map_, umap_keys s.pid_load_map_, load_of s 105)) =
      some ([100, 101, 102, 103, 104], [100, 101, 102, 103, 104, 105], some (9 / 65)) ∧
    (fresh6.andThen (update replay_source)).observe
        (fun s => (load_system s, accumulate_loads s (umap_keys s.pid_cpu_map_))) =
      some (25748 / 14235, some (1829 / 1095)) ∧
    (fresh_gap.andThen (update (stub_source topo_gap))).observe
        (fun s => (umap_keys s.pid_cpu_map_, umap_keys s.pid_load_map_,
          original_processor s 101, load_of s 101)) =
      some ([100, 101, 104], [100, 104], some 1, none) := by
  decide!

/-- C31 (amended). After every `update()` that returns: `load_of(pid)` is defined for every
pid of the clean pid-to-CPU map whose CPU is one of the CPUs of the topology (the allowed
CPUs), and `load_system()` is the sum of `load_of(pid)` over the pids for which `load_of` is
defined, the keys of the load map (which stay free of duplicates). -/
theorem update_loads_cover_observed (P : ProcessSource τ) (s s' : snapshot τ)
    (hn : (umap_keys s.pid_load_map_).Nodup) (h : update P s = Outcome.done s') :
    (∀ pid cpu, original_processor s' pid = some cpu → cpu ∈ s'.topology_.cpus →
      load_of s' pid ≠ none) ∧
    (∀ pid, load_of s' pid ≠ none ↔ pid ∈ umap_keys s'.pid_load_map_) ∧
    accumulate_loads s' (umap_keys s'.pid_load_map_) = some (load_system s') ∧
    (umap_keys s'.pid_load_map_).Nodup := by
  obtain ⟨p, -, hr⟩ := update_done h
  obtain ⟨s1, h1, h2⟩ := rebuild_done hr
  have hrt := (rebuilt_round_trip_both hr).1
  have e1 := rebuild_loop_done h1
  have e2 := compute_loads_done h2
  unfold clean_only at e1
  unfold loads_only at e2
  have hload1 : s1.pid_load_map_ = s.pid_load_map_ := by
    rw [e1]
    rfl
  have hnodup : (umap_keys s'.pid_load_map_).Nodup := by
    unfold compute_loads at h2
    refine compute_loads_nodup _ _ _ h2 ?_
    show (umap_keys s1.pid_load_map_).Nodup
    rw [hload1]
    exact hn
  have hdef : ∀ pid, load_of s' pid ≠ none ↔ pid ∈ umap_keys s'.pid_load_map_ :=
    fun pid => umap_at_ne_none_iff _ pid
  refine ⟨?_, hdef, ?_, hnodup⟩
  · intro pid cpu hp hcpu
    obtain ⟨set, hset, hmem⟩ := hrt.1 pid cpu hp
    have hset1 : vec_at (copy_to_dirty s1).cpu_pid_map_ cpu = some set := by
      rw [e2] at hset
      exact hset
    have hcpu1 : cpu ∈ (copy_to_dirty s1).topology_.cpus := by
      rw [e2] at hcpu
      exact hcpu
    unfold compute_loads at h2
    exact (compute_loads_defines _ _ _ h2 pid).2 cpu hcpu1 set hset1 hmem
  · rw [accumulate_loads_sum s' _ (fun q hq => (hdef q).2 hq)]
    unfold load_system load_of
    rw [sum_values_over_keys _ hnodup, accumulate_eq_sum]

theorem update_loads_cover_observed_witness :
    fresh5 = Outcome.done clean5 ∧
    (umap_keys clean5.pid_load_map_).Nodup ∧
    update P5 clean5 = Outcome.done clean5 ∧
    ((∀ pid cpu, original_processor clean5 pid = some cpu → cpu ∈ clean5.topology_.cpus →
      load_of clean5 pid ≠ none) ∧
    (∀ pid, load_of clean5 pid ≠ none ↔ pid ∈ umap_keys clean5.pid_load_map_) ∧
    accumulate_loads clean5 (umap_keys clean5.pid_load_map_) = some (load_system clean5) ∧
    (umap_keys clean5.pid_load_map_).Nodup) :=
  ⟨by decide!, by decide!, by decide!,
    update_loads_cover_observed P5 clean5 clean5 (by decide!) (by decide!)⟩

end syssnap
